import Mathlib

/-!
# Birch compiler front end and runtime: fiber resumer, scope resolution,
paths, ranges, casts, expression equality and context pointers

A shallow embedding of `bi/visitor/Resumer.cpp`, of
`bi::Scope::resolveDefer` (`bi/common/Scope.hpp`), of `bi/common/Path.cpp`, of
`bi::make_range` (`libbirch/libbirch.hpp`), of `bi::cast`
(`bi/primitive/cast.hpp`), of the comparison operators of `bi::Expression`
(`bi/expression/Expression.cpp`) and of `libbirch::ContextPtr`
(`libbirch/ContextPtr.hpp`), with the properties of the specification stated
and proved over it.

Conventions of the embedding

* The AST is a tree of heap objects. The only object identity the Resumer
  ever inspects is that of `Yield` nodes (`o == yield`), so a `Yield` node
  carries a tag `self` standing for its address. Source trees are
  `Statement Nat` (the tag is the address); trees built by a clone pass are
  `Statement Unit`: every node of a clone is a freshly allocated object whose
  address is not tracked.
* Expressions and types are leaves for the Resumer: it overrides no
  expression or type `clone`, so `e->accept(this)` is the base Cloner's deep
  copy, which on values is the identity.
* The mutable member `foundYield` is passed explicitly: `clone` takes the
  Resumer before the call and returns the Resumer after it.
* Addresses are natural numbers, 0 being the null pointer; a `uintptr_t` has
  64 bits. The runtime state that `ContextPtr` touches (the global
  `currentContext` and the shared counts of the Context objects) is passed
  explicitly.
* `std::string` is `String`; the text of a `boost::filesystem::path` is a list
  of characters.
-/

namespace bi

/-- Source location (`Location*`), opaque to every pass modelled here. -/
abbrev Location := Nat

/-- Interned identifier (`Name*`). -/
abbrev Name := String

/-- Modelled from the spec: the `Annotation` flags of `bi/common/Annotated.hpp`,
which is not among the sources. Only `RESUME` and `START` are named by the
Resumer; every other flag is `OTHER k`. -/
inductive Annotation
  | RESUME
  | START
  | OTHER (k : Nat)
  deriving DecidableEq, Repr

/-- Modelled from the spec: the `annotation` member of `Annotated`, a set of
flags. `NONE` is the empty set. -/
abbrev Annotated := List Annotation

/-- Modelled from the spec: the `NONE` annotation (no flag set). -/
def NONE : Annotated := []

/-- Modelled from the spec: `Annotated::has(a)`, is flag `a` set. -/
def Annotated.has (s : Annotated) (a : Annotation) : Bool :=
  s.contains a

/-- Modelled from the spec: `Annotated::set(a)`, set flag `a` and keep the
others. -/
def Annotated.set (s : Annotated) (a : Annotation) : Annotated :=
  if s.contains a then s else a :: s

/-- Expressions, as far as the Resumer can tell them apart: the empty
expression and everything else (kept as its source text). -/
inductive Expression
  | EmptyExpression (loc : Location)
  | Source (text : String) (loc : Location)
  deriving DecidableEq, Repr

/-- Types (`bi::Type`), leaves for the Resumer. -/
inductive BiType
  | EmptyType (loc : Location)
  | Named (name : Name) (loc : Location)
  deriving DecidableEq, Repr

/-- The statement variants that the Resumer meets inside a fiber, plus the
`Function` and `MemberFunction` it produces. `ι` is the type of the identity
tag of `Yield` nodes. -/
inductive Statement (ι : Type)
  | EmptyStatement (loc : Location)
  | Assert (cond : Expression) (loc : Location)
  | Braces (single : Statement ι) (loc : Location)
  | DoWhile (braces : Statement ι) (cond : Expression) (loc : Location)
  | ExpressionStatement (single : Expression) (loc : Location)
  | Fiber ( annotation : Annotated) (name : Name) (typeParams params : Expression)
      (returnType : BiType) (braces : Statement ι) (loc : Location)
  | For ( annotation : Annotated) (index from_ to_ : Expression)
      (braces : Statement ι) (loc : Location)
  | Function ( annotation : Annotated) (name : Name) (typeParams params : Expression)
      (returnType : BiType) (braces : Statement ι) (loc : Location) (number : Nat)
  | If (cond : Expression) (braces falseBraces : Statement ι) (loc : Location)
  | LocalVariable ( annotation : Annotated) (name : Name) (type : BiType)
      (brackets args value : Expression) (loc : Location) (number : Nat)
  | MemberFiber ( annotation : Annotated) (name : Name) (typeParams params : Expression)
      (returnType : BiType) (braces : Statement ι) (loc : Location)
  | MemberFunction ( annotation : Annotated) (name : Name) (typeParams params : Expression)
      (returnType : BiType) (braces : Statement ι) (loc : Location) (number : Nat)
  | Parallel ( annotation : Annotated) (index from_ to_ : Expression)
      (braces : Statement ι) (loc : Location)
  | Raw (name : Name) (raw : String) (loc : Location)
  | Return (single : Expression) (loc : Location)
  | StatementList (head tail : Statement ι) (loc : Location)
  | While (cond : Expression) (braces : Statement ι) (loc : Location)
  | Yield (self : ι) (single : Expression) (loc : Location) (number : Nat)
  deriving DecidableEq, Repr

namespace Statement

/-- Modelled from the spec: `Statement::isEmpty()`, true for the empty
placeholder `EmptyStatement` only (`bi/statement/*.cpp` are not among the
sources). -/
def isEmpty {ι : Type} : Statement ι → Bool
  | EmptyStatement _ => true
  | _ => false

end Statement

/-- A non-null `const Yield*`: the address of the pointee and the `number`
member read through the pointer. -/
structure YieldPtr where
  addr : Nat
  number : Nat
  deriving DecidableEq, Repr

/-- The visitor object: `yield` is the target (`none` is `nullptr`),
`foundYield` the traversal flag. -/
structure Resumer where
  yield : Option YieldPtr
  foundYield : Bool
  deriving DecidableEq, Repr

/-- The constructor `Resumer::Resumer(const Yield* yield)`:
`foundYield(yield == nullptr)`. -/
def Resumer.new (yield : Option YieldPtr) : Resumer :=
  { yield := yield, foundYield := yield.isNone }

namespace Cloner

/-- Modelled from the spec: `Cloner::clone` on an expression, a deep copy
(`bi/visitor/Cloner.cpp` is not among the sources). -/
def cloneExpression (e : Expression) : Expression := e

/-- Modelled from the spec: `Cloner::clone` on a type, a deep copy. -/
def cloneType (t : BiType) : BiType := t

/-- Modelled from the spec: the base `Cloner::clone` on statements when the
visitor is a plain Cloner: every node is rebuilt from the clones of its
children, members such as `number` are copied. -/
def clone {ι : Type} : Statement ι → Statement Unit
  | .EmptyStatement loc => .EmptyStatement loc
  | .Assert cond loc => .Assert (cloneExpression cond) loc
  | .Braces single loc => .Braces (clone single) loc
  | .DoWhile braces cond loc => .DoWhile (clone braces) (cloneExpression cond) loc
  | .ExpressionStatement single loc => .ExpressionStatement (cloneExpression single) loc
  | .Fiber a name tps ps rt braces loc =>
      .Fiber a name (cloneExpression tps) (cloneExpression ps) (cloneType rt) (clone braces) loc
  | .For a index from_ to_ braces loc =>
      .For a (cloneExpression index) (cloneExpression from_) (cloneExpression to_)
        (clone braces) loc
  | .Function a name tps ps rt braces loc number =>
      .Function a name (cloneExpression tps) (cloneExpression ps) (cloneType rt)
        (clone braces) loc number
  | .If cond braces falseBraces loc =>
      .If (cloneExpression cond) (clone braces) (clone falseBraces) loc
  | .LocalVariable a name type brackets args value loc number =>
      .LocalVariable a name (cloneType type) (cloneExpression brackets)
        (cloneExpression args) (cloneExpression value) loc number
  | .MemberFiber a name tps ps rt braces loc =>
      .MemberFiber a name (cloneExpression tps) (cloneExpression ps) (cloneType rt)
        (clone braces) loc
  | .MemberFunction a name tps ps rt braces loc number =>
      .MemberFunction a name (cloneExpression tps) (cloneExpression ps) (cloneType rt)
        (clone braces) loc number
  | .Parallel a index from_ to_ braces loc =>
      .Parallel a (cloneExpression index) (cloneExpression from_) (cloneExpression to_)
        (clone braces) loc
  | .Raw name raw loc => .Raw name raw loc
  | .Return single loc => .Return (cloneExpression single) loc
  | .StatementList head tail loc => .StatementList (clone head) (clone tail) loc
  | .While cond braces loc => .While (cloneExpression cond) (clone braces) loc
  | .Yield _ single loc number => .Yield () (cloneExpression single) loc number

end Cloner

/-- Modelled from the spec: the three-argument constructor
`LocalVariable(name, type, loc)` used by the Resumer for a bare declaration:
no annotation, and empty brackets, arguments and initial value
(`bi/statement/LocalVariable.cpp` is not among the sources). The `number`
member is assigned by the caller. -/
def LocalVariable.bare (name : Name) (type : BiType) (loc : Location) (number : Nat)
    ( annotation : Annotated) : Statement Unit :=
  .LocalVariable annotation name type (.EmptyExpression loc) (.EmptyExpression loc)
    (.EmptyExpression loc) loc number

/-- The overrides `bi::Resumer::clone` of `bi/visitor/Resumer.cpp`, one match
arm per overload; `o->child->accept(this)` on a statement child is the
recursive call, on an expression or type child it is the Cloner's copy. Where
the source calls `Cloner::clone(o)` on a node with a statement child (For,
Parallel), the base method, a double-dispatch deep copy, rebuilds the node and
sends the child back to this visitor; the same holds for the kinds that the
Resumer does not override (the last three arms). Returns the new statement and
the visitor after the call. -/
def Resumer.clone : Statement Nat → Resumer → Statement Unit × Resumer
  | .Fiber a name tps ps rt braces loc, r =>
      let b := Resumer.clone braces r
      let number := match r.yield with
        | some y => y.number
        | none => 0
      let a1 := a.set .RESUME
      let a2 := if r.yield.isNone then a1.set .START else a1
      (.Function a2 name (Cloner.cloneExpression tps) (Cloner.cloneExpression ps)
        (Cloner.cloneType rt) b.1 loc number, b.2)
  | .MemberFiber a name tps ps rt braces loc, r =>
      let b := Resumer.clone braces r
      let number := match r.yield with
        | some y => y.number
        | none => 0
      let a1 := a.set .RESUME
      let a2 := if r.yield.isNone then a1.set .START else a1
      (.MemberFunction a2 name (Cloner.cloneExpression tps) (Cloner.cloneExpression ps)
        (Cloner.cloneType rt) b.1 loc number, b.2)
  | .LocalVariable a name type brackets args value loc number, r =>
      if r.foundYield then
        (.LocalVariable a name (Cloner.cloneType type) (Cloner.cloneExpression brackets)
          (Cloner.cloneExpression args) (Cloner.cloneExpression value) loc number, r)
      else
        (LocalVariable.bare name (Cloner.cloneType type) loc number (NONE.set .RESUME), r)
  | .Yield self single loc number, r =>
      if r.yield.map YieldPtr.addr = some self && !r.foundYield then
        (.EmptyStatement loc, { r with foundYield := true })
      else if r.foundYield then
        (.Yield () (Cloner.cloneExpression single) loc number, r)
      else
        (.EmptyStatement loc, r)
  | .Return single loc, r =>
      if r.foundYield then (Cloner.clone (.Return single loc : Statement Nat), r)
      else (.EmptyStatement loc, r)
  | .ExpressionStatement single loc, r =>
      if r.foundYield then (Cloner.clone (.ExpressionStatement single loc : Statement Nat), r)
      else (.EmptyStatement loc, r)
  | .Assert cond loc, r =>
      if r.foundYield then (Cloner.clone (.Assert cond loc : Statement Nat), r)
      else (.EmptyStatement loc, r)
  | .Raw name raw loc, r =>
      if r.foundYield then (Cloner.clone (.Raw name raw loc : Statement Nat), r)
      else (.EmptyStatement loc, r)
  | .StatementList head tail loc, r =>
      let h := Resumer.clone head r
      let t := Resumer.clone tail h.2
      if !h.1.isEmpty && !t.1.isEmpty then (.StatementList h.1 t.1 loc, t.2)
      else if !h.1.isEmpty then (h.1, t.2)
      else if !t.1.isEmpty then (t.1, t.2)
      else (.EmptyStatement loc, t.2)
  | .Braces single loc, r =>
      let s := Resumer.clone single r
      if s.2.foundYield then (.Braces s.1 loc, s.2)
      else (.EmptyStatement loc, s.2)
  | .If cond braces falseBraces loc, r =>
      let cond1 := Cloner.cloneExpression cond
      let foundBefore := r.foundYield
      let t := Resumer.clone braces r
      let foundTrue := t.2.foundYield
      let f := Resumer.clone falseBraces t.2
      let foundFalse := f.2.foundYield
      if foundBefore then (.If cond1 t.1 f.1 loc, f.2)
      else if foundTrue then (t.1, f.2)
      else if foundFalse then (f.1, f.2)
      else (.EmptyStatement loc, f.2)
  | .For a index from_ to_ braces loc, r =>
      if r.foundYield then
        let b := Resumer.clone braces r
        (.For a (Cloner.cloneExpression index) (Cloner.cloneExpression from_)
          (Cloner.cloneExpression to_) b.1 loc, b.2)
      else (.EmptyStatement loc, r)
  | .Parallel a index from_ to_ braces loc, r =>
      if r.foundYield then
        let b := Resumer.clone braces r
        (.Parallel a (Cloner.cloneExpression index) (Cloner.cloneExpression from_)
          (Cloner.cloneExpression to_) b.1 loc, b.2)
      else (.EmptyStatement loc, r)
  | .While cond braces loc, r =>
      let cond1 := Cloner.cloneExpression cond
      let foundBefore := r.foundYield
      let b := Resumer.clone braces r
      let foundAfter := b.2.foundYield
      if foundBefore then (.While cond1 b.1 loc, b.2)
      else if foundAfter then
        let b2 := Resumer.clone braces b.2
        (.StatementList b.1 (.While cond1 b2.1 loc) loc, b2.2)
      else (.EmptyStatement loc, b.2)
  | .DoWhile braces cond loc, r =>
      let foundBefore := r.foundYield
      let b := Resumer.clone braces r
      let cond1 := Cloner.cloneExpression cond
      let foundAfter := b.2.foundYield
      if foundBefore then (.DoWhile b.1 cond1 loc, b.2)
      else if foundAfter then
        let b2 := Resumer.clone braces b.2
        (.StatementList b.1 (.While cond1 b2.1 loc) loc, b2.2)
      else (.EmptyStatement loc, b.2)
  | .EmptyStatement loc, r => (.EmptyStatement loc, r)
  | .Function a name tps ps rt braces loc number, r =>
      let b := Resumer.clone braces r
      (.Function a name (Cloner.cloneExpression tps) (Cloner.cloneExpression ps)
        (Cloner.cloneType rt) b.1 loc number, b.2)
  | .MemberFunction a name tps ps rt braces loc number, r =>
      let b := Resumer.clone braces r
      (.MemberFunction a name (Cloner.cloneExpression tps) (Cloner.cloneExpression ps)
        (Cloner.cloneType rt) b.1 loc number, b.2)

/-- The body that the Resumer generates for a target: the clone of the fiber
body `o->braces` by `Resumer(yield)`. -/
def resumeBody (yield : Option YieldPtr) (braces : Statement Nat) : Statement Unit :=
  (Resumer.clone braces (Resumer.new yield)).1

/-! ## Execution model of generated bodies

The specification states the behaviour of generated bodies under a model in
which a body runs its statements in order and suspends at the first Yield it
reaches. The model is parametric in the meaning of expressions. -/

/-- Meaning of expressions over a program state `σ`: the effect of an
expression statement, and the evaluation of a loop or branch condition. -/
structure Machine (σ : Type) where
  effect : Expression → σ → σ
  cond : Expression → σ → Bool × σ

/-- How a run of a body ends. -/
inductive Outcome
  | completed
  | suspended (number : Nat)
  | returned
  | unsupported
  | outOfFuel
  deriving DecidableEq, Repr

/-- Run a body: statements in order, suspending at the first Yield reached.
Declarations, asserts, raw code and bounded loops are outside the model. The
first argument bounds the nesting depth plus the number of loop iterations. -/
def exec {ι σ : Type} (m : Machine σ) : Nat → Statement ι → σ → σ × Outcome
  | 0, _, s => (s, .outOfFuel)
  | _ + 1, .EmptyStatement _, s => (s, .completed)
  | _ + 1, .ExpressionStatement e _, s => (m.effect e s, .completed)
  | _ + 1, .Yield _ _ _ k, s => (s, .suspended k)
  | _ + 1, .Return _ _, s => (s, .returned)
  | n + 1, .Braces b _, s => exec m n b s
  | n + 1, .StatementList h t _, s =>
      match exec m n h s with
      | (s1, .completed) => exec m n t s1
      | r => r
  | n + 1, .If c t f _, s =>
      let v := m.cond c s
      if v.1 then exec m n t v.2 else exec m n f v.2
  | n + 1, .While c b loc, s =>
      let v := m.cond c s
      if v.1 then
        match exec m n b v.2 with
        | (s1, .completed) => exec m n (.While c b loc) s1
        | r => r
      else (v.2, .completed)
  | n + 1, .DoWhile b c loc, s =>
      match exec m n b s with
      | (s1, .completed) =>
          let v := m.cond c s1
          if v.1 then exec m n (.DoWhile b c loc) v.2 else (v.2, .completed)
      | r => r
  | _ + 1, _, s => (s, .unsupported)

/-- The machine that records what is executed: the state is the list of
expression statements performed so far, oldest first; conditions are all
false. -/
def traceMachine : Machine (List Expression) :=
  { effect := fun e t => t ++ [e], cond := fun _ t => (false, t) }

/-- The straight-line fiber body `{ A; yield v1; B; yield v2; C }` as a
right-nested StatementList inside Braces; `p1`, `p2` are the addresses of
the two Yield objects, `n1`, `n2` their numbers, `loc i` the location of the
i-th node. -/
def straightBody (a b c v1 v2 : Expression) (p1 p2 n1 n2 : Nat)
    (loc : Nat → Location) : Statement Nat :=
  .Braces
    (.StatementList (.ExpressionStatement a (loc 1))
      (.StatementList (.Yield p1 v1 (loc 2) n1)
        (.StatementList (.ExpressionStatement b (loc 3))
          (.StatementList (.Yield p2 v2 (loc 4) n2)
            (.ExpressionStatement c (loc 5)) (loc 9)) (loc 8)) (loc 7)) (loc 6))
    (loc 0)

/-- The loop `while (cond) { X; yield v; Y }`: `p` is the address of the Yield
object and `n` its number. -/
def whileBody (x v y : Expression) (p n : Nat) (loc : Nat → Location) : Statement Nat :=
  .Braces
    (.StatementList (.ExpressionStatement x (loc 1))
      (.StatementList (.Yield p v (loc 2) n) (.ExpressionStatement y (loc 3)) (loc 5))
      (loc 4))
    (loc 0)

/-- A statement sequence as nested StatementList nodes, right-nested as the
parser builds them. Each item comes with the location of the list node that
starts at it (unused for the last item); the empty sequence is an
EmptyStatement. -/
def sequence {ι : Type} : List (Statement ι × Location) → Statement ι
  | [] => .EmptyStatement 0
  | [x] => x.1
  | x :: y :: rest => .StatementList x.1 (sequence (y :: rest)) x.2

/-- An item of a straight-line body: an expression statement or a yield. -/
def Statement.isStraight {ι : Type} : Statement ι → Bool
  | .ExpressionStatement _ _ => true
  | .Yield _ _ _ _ => true
  | _ => false

/-- Is the statement the Yield object at address `p`. -/
def Statement.isYieldAt : Statement Nat → Nat → Bool
  | .Yield self _ _ _, p => self = p
  | _, _ => false

/-- Is the statement a Yield. -/
def Statement.isYield {ι : Type} : Statement ι → Bool
  | .Yield _ _ _ _ => true
  | _ => false

/-- The statements of a tree that are not containers, in program order. -/
def Statement.leaves {ι : Type} : Statement ι → List (Statement ι)
  | .Braces single _ => leaves single
  | .StatementList head tail _ => leaves head ++ leaves tail
  | .If _ braces falseBraces _ => leaves braces ++ leaves falseBraces
  | .While _ braces _ => leaves braces
  | .DoWhile braces _ _ => leaves braces
  | .For _ _ _ _ braces _ => leaves braces
  | .Parallel _ _ _ _ braces _ => leaves braces
  | .Fiber _ _ _ _ _ braces _ => leaves braces
  | .MemberFiber _ _ _ _ _ braces _ => leaves braces
  | .Function _ _ _ _ _ braces _ _ => leaves braces
  | .MemberFunction _ _ _ _ _ braces _ _ => leaves braces
  | .EmptyStatement _ => []
  | s => [s]

/-- The items of a straight-line body that lie strictly after the target
yield; all of them when there is no target. -/
def afterTarget (target : Option Nat) (items : List (Statement Nat)) : List (Statement Nat) :=
  match target with
  | none => items
  | some p => (items.dropWhile fun s => !s.isYieldAt p).drop 1

/-- A list of statements up to and including its first Yield; the whole list
when it has none. -/
def upToNextYield {ι : Type} : List (Statement ι) → List (Statement ι)
  | [] => []
  | s :: rest => if s.isYield then [s] else s :: upToNextYield rest

/-- The statements that the specification gives to a generated body, in its
words: those after the target (from the beginning, for the start body) up to
the next yield or the function end. The next yield itself is counted in, as
the point where the body suspends. -/
def specSegment (target : Option Nat) (items : List (Statement Nat)) : List (Statement Unit) :=
  (upToNextYield (afterTarget target items)).map Cloner.clone

/-- What running a list of straight-line statements in order amounts to: the
expression statements up to the first Yield are performed, and the run
suspends at that Yield, or completes when there is none. -/
def runItems {ι σ : Type} (m : Machine σ) : List (Statement ι) → σ → σ × Outcome
  | [], s => (s, .completed)
  | .ExpressionStatement e _ :: rest, s => runItems m rest (m.effect e s)
  | .Yield _ _ _ k :: _, s => (s, .suspended k)
  | _ :: _, s => (s, .unsupported)

/-! ## Scope: deferral to base scopes -/

/-- The address of a Scope object (`Scope*`). -/
abbrev ScopePtr := Nat

/-- A reference node, as far as Scope resolution reads and writes it: its
name and its `target` (`none` is the null pointer, `some d` points to the
declaration `d`). -/
structure Reference where
  name : Name
  target : Option Nat
  deriving DecidableEq, Repr

/-- Modelled from the spec: `std::set<Scope*>::insert`. The set is kept as the
list of its elements in iteration order, which for `std::set` with the default
comparison is ascending address order; an element already present is not
inserted again. -/
def setInsert (p : ScopePtr) : List ScopePtr → List ScopePtr
  | [] => [p]
  | q :: rest =>
      if p < q then p :: q :: rest
      else if p = q then q :: rest
      else q :: setInsert p rest

/-- The `bases` member of `bi::Scope`, in iteration order. The dictionaries of
a Scope are not read by `resolveDefer` and are left out. -/
structure Scope where
  bases : List ScopePtr
  deriving DecidableEq, Repr

/-- Modelled from the spec: `Scope::inherit(scope)` enters the scope into
`bases` (`bi/common/Scope.cpp` is not among the sources). -/
def Scope.inherit (self : Scope) (scope : ScopePtr) : Scope :=
  { bases := setInsert scope self.bases }

/-- Modelled from the spec: `Scope::import(scope)` enters the scope into
`bases`, like `inherit`. -/
def Scope.importScope (self : Scope) (scope : ScopePtr) : Scope :=
  { bases := setInsert scope self.bases }

/-- The loop of `resolveDefer` from the iterator position onwards: `rest` are
the elements from `iter` to `bases.end()`. `resolve b ref` is
`b->resolve(ref)`, the effect on the reference of resolving it in the base
scope at address `b`. -/
def resolveDeferLoop (resolve : ScopePtr → Reference → Reference) :
    List ScopePtr → Reference → Reference
  | [], ref => ref
  | b :: rest, ref =>
      if ref.target.isNone then resolveDeferLoop resolve rest (resolve b ref)
      else ref

/-- The member `bi::Scope::resolveDefer(ref)`: iterate `bases` from
`bases.begin()` while the reference has no target. -/
def Scope.resolveDefer (self : Scope) (resolve : ScopePtr → Reference → Reference)
    (ref : Reference) : Reference :=
  resolveDeferLoop resolve self.bases ref

/-- A scope with no base scopes. -/
def Scope.noBases : Scope := { bases := [] }

/-- One call that enters a base scope: `inherit(scope)` or `import(scope)`. -/
inductive BaseCall
  | inherit (scope : ScopePtr)
  | importScope (scope : ScopePtr)
  deriving DecidableEq, Repr

/-- The scope that a call enters. -/
def BaseCall.scope : BaseCall → ScopePtr
  | .inherit p => p
  | .importScope p => p

/-- Perform one call on a Scope. -/
def Scope.call (self : Scope) : BaseCall → Scope
  | .inherit p => self.inherit p
  | .importScope p => self.importScope p

/-- The scope after a sequence of `inherit`/`import` calls, in call order,
starting without base scopes. -/
def Scope.afterCalls (calls : List BaseCall) : Scope :=
  calls.foldl Scope.call Scope.noBases

/-- The deferral as the specification words it: the base scopes are consulted
in the order in which they were inserted, stopping at the first success. -/
def specResolveDefer (resolve : ScopePtr → Reference → Reference)
    (calls : List BaseCall) (ref : Reference) : Reference :=
  resolveDeferLoop resolve (calls.map BaseCall.scope) ref

/-- A resolution in which every base scope declares the name: the base at
address `b` resolves any reference to its own declaration, `100 + b`. -/
def everyBaseDeclares (b : ScopePtr) (ref : Reference) : Reference :=
  { ref with target := some (100 + b) }

/-- The `loc` member of a statement (base class `Located`). -/
def Statement.loc {ι : Type} : Statement ι → Location
  | .EmptyStatement loc => loc
  | .Assert _ loc => loc
  | .Braces _ loc => loc
  | .DoWhile _ _ loc => loc
  | .ExpressionStatement _ loc => loc
  | .Fiber _ _ _ _ _ _ loc => loc
  | .For _ _ _ _ _ loc => loc
  | .Function _ _ _ _ _ _ loc _ => loc
  | .If _ _ _ loc => loc
  | .LocalVariable _ _ _ _ _ _ loc _ => loc
  | .MemberFiber _ _ _ _ _ _ loc => loc
  | .MemberFunction _ _ _ _ _ _ loc _ => loc
  | .Parallel _ _ _ _ _ loc => loc
  | .Raw _ _ loc => loc
  | .Return _ loc => loc
  | .StatementList _ _ loc => loc
  | .While _ _ loc => loc
  | .Yield _ _ loc _ => loc

/-- The four statement kinds without statement children that the Resumer
drops before the target and copies after it: Return, ExpressionStatement,
Assert and Raw. -/
def Statement.isAtomic {ι : Type} : Statement ι → Bool
  | .Return _ _ => true
  | .ExpressionStatement _ _ => true
  | .Assert _ _ => true
  | .Raw _ _ _ => true
  | _ => false

/-- A tree on which the Resumer, once the target is behind it, makes the same
copy as a plain Cloner: no StatementList has an empty head or tail (such a
list is collapsed by the Resumer), and no fiber declaration is nested in it
(the Resumer turns it into a function). -/
def Statement.isPlain {ι : Type} : Statement ι → Bool
  | .StatementList head tail _ =>
      isPlain head && isPlain tail && !head.isEmpty && !tail.isEmpty
  | .Fiber _ _ _ _ _ _ _ => false
  | .MemberFiber _ _ _ _ _ _ _ => false
  | .Braces single _ => isPlain single
  | .DoWhile braces _ _ => isPlain braces
  | .For _ _ _ _ braces _ => isPlain braces
  | .Function _ _ _ _ _ braces _ _ => isPlain braces
  | .If _ braces falseBraces _ => isPlain braces && isPlain falseBraces
  | .MemberFunction _ _ _ _ _ braces _ _ => isPlain braces
  | .Parallel _ _ _ _ braces _ => isPlain braces
  | .While _ braces _ => isPlain braces
  | _ => true

/-- The body `{ A; yield v; B; yield w; C }` with concrete expressions, the
Yield objects at addresses 10 and 20, numbered 1 and 2. -/
def exampleItems : List (Statement Nat × Location) :=
  [(.ExpressionStatement (.Source "A" 1) 1, 6), (.Yield 10 (.Source "v" 2) 2 1, 7),
   (.ExpressionStatement (.Source "B" 3) 3, 8), (.Yield 20 (.Source "w" 4) 4 2, 9),
   (.ExpressionStatement (.Source "C" 5) 5, 0)]

/-- The example body as a tree. -/
def exampleBody : Statement Nat := .Braces (sequence exampleItems) 0

/-- Modelled from the spec: `Dictionary::resolve(ref)` on a dictionary of
declarations keyed by name (`bi/common/Dictionary.hpp` is not among the
sources): when the name is declared the target is set to the declaration,
otherwise the reference is left as it is. -/
def Dictionary.resolve (vars : Name → Option Nat) (ref : Reference) : Reference :=
  match vars ref.name with
  | some d => { ref with target := some d }
  | none => ref

/-- Modelled from the spec: `Scope::resolve(ref)`, which "looks up by name in
local dictionaries first; if unresolved, defers to each base scope"
(`bi/common/Scope.cpp` is not among the sources). `vars` is the local
dictionary of the scope. -/
def Scope.resolve (self : Scope) (vars : Name → Option Nat)
    (resolve : ScopePtr → Reference → Reference) (ref : Reference) : Reference :=
  self.resolveDefer resolve (Dictionary.resolve vars ref)

/-- Resolution in base scopes that have local dictionaries only:
`dicts b` is the dictionary of the scope at address `b`. -/
def baseResolve (dicts : ScopePtr → Name → Option Nat) (b : ScopePtr) (ref : Reference) :
    Reference :=
  Dictionary.resolve (dicts b) ref

/-- Dictionaries of two base scopes: the scope at address 1 declares nothing,
the scope at address 2 declares `x` as declaration 7. -/
def exampleDicts (b : ScopePtr) (name : Name) : Option Nat :=
  if b = 2 ∧ name = "x" then some 7 else none

/-! ## Path -/

/-- The class `bi::Path`: a `head` name and an owned, nullable `tail`;
`single` is a path whose `tail` is null. -/
inductive Path
  | single (head : Name) (loc : Location)
  | cons (head : Name) (tail : Path) (loc : Location)
  deriving DecidableEq, Repr

/-- The names of a path, head first. -/
def Path.names : Path → List Name
  | .single head _ => [head]
  | .cons head tail _ => head :: names tail

/-- The last name of a path. -/
def Path.last : Path → Name
  | .single head _ => head
  | .cons _ tail _ => last tail

/-- The path with its last name replaced by `n`. -/
def Path.setLast (n : Name) : Path → Path
  | .single _ loc => .single n loc
  | .cons head tail loc => .cons head (setLast n tail) loc

/-- The member `bi::Path::operator==`:
`*head == *o.head && ((!tail && !o.tail) || (tail && o.tail && *tail == *o.tail))`,
one arm per combination of null and non-null tails. Names compare by value. -/
def Path.eq : Path → Path → Bool
  | .single h _, .single h2 _ => h == h2 && (true || false)
  | .single h _, .cons h2 _ _ => h == h2 && (false || false)
  | .cons h _ _, .single h2 _ => h == h2 && (false || false)
  | .cons h t _, .cons h2 t2 _ => h == h2 && (false || Path.eq t t2)

/-- The member `bi::Path::operator!=`: `!(*this == o)`. -/
def Path.ne (a b : Path) : Bool := !(Path.eq a b)

/-- The loop of `bi::Path::str` from a non-null `path` onwards, `buf` being
the text written to the stream so far: write the head, step to the tail, and
write a `'.'` if the tail is not null. -/
def Path.strLoop : Path → String → String
  | .single h _, buf => buf ++ h
  | .cons h t _, buf => strLoop t (buf ++ h ++ ".")

/-- The member `bi::Path::str`. -/
def Path.str (p : Path) : String := p.strLoop ""

/-- Models `boost::filesystem::path::operator/=` on the text of a path: for an
empty operand the path is left as it is; otherwise a `'/'` is added first,
unless the path is empty, the path already ends in a separator or the operand
begins with one, and then the operand is appended. -/
def fsAppend (p x : List Char) : List Char :=
  if x = [] then p
  else if p = [] ∨ p.getLast? = some '/' ∨ x.head? = some '/' then p ++ x
  else p ++ '/' :: x

/-- Models `boost::filesystem::path::filename` on the text of a path that is
not a root: `.` for a text that ends in a separator, otherwise the text after
the last separator. -/
def fsFilename (p : List Char) : List Char :=
  if p.getLast? = some '/' then ['.']
  else (p.reverse.takeWhile fun c => c != '/').reverse

/-- Models `boost::filesystem::path::extension`: empty if the filename is
`.` or `..` or has no `'.'`, otherwise the filename from its last `'.'` on. -/
def fsExtension (p : List Char) : List Char :=
  let f := fsFilename p
  if f = ['.'] ∨ f = ['.', '.'] ∨ '.' ∉ f then []
  else '.' :: (f.reverse.takeWhile fun c => c != '.').reverse

/-- Models `boost::filesystem::path::replace_extension(ext)`: the existing
extension is removed, then, if `ext` is not empty, a `'.'` is appended unless
`ext` begins with one, then `ext` is appended. -/
def fsReplaceExtension (p ext : List Char) : List Char :=
  let stem := p.take (p.length - (fsExtension p).length)
  if ext = [] then stem
  else if ext.head? = some '.' then stem ++ ext
  else stem ++ '.' :: ext

/-- The loop of `bi::Path::file` from a non-null `path` onwards: `file /= head`
for each name in turn. -/
def Path.fileLoop : Path → List Char → List Char
  | .single h _, file => fsAppend file h.toList
  | .cons h t _, file => fileLoop t (fsAppend file h.toList)

/-- The member `bi::Path::file`: start from `"bi"`, append every name, replace
the extension by `"bi"`, return the text. -/
def Path.file (p : Path) : String :=
  String.mk (fsReplaceExtension (p.fileLoop "bi".toList) "bi".toList)

/-- The file path as the specification words it: the extension `.bi` appended
to `bi/n1/.../nk`. -/
def specFile (p : Path) : String := "/".intercalate ("bi" :: p.names) ++ ".bi"

/-- The text `/n1/.../nk` of the names of a path, each after one `'/'`. -/
def Path.joined : Path → List Char
  | .single h _ => '/' :: h.toList
  | .cons h t _ => '/' :: h.toList ++ joined t

/-- The names of the path join with one `'/'` each: every name is non-empty
and does not begin with `'/'`, and no name but the last ends with `'/'`. -/
def Path.joinable : Path → Bool
  | .single h _ => h.toList != [] && h.toList.head? != some '/'
  | .cons h t _ =>
      h.toList != [] && h.toList.head? != some '/' && h.toList.getLast? != some '/' &&
        joinable t

/-! ## Ranges -/

/-- A value of type `int64_t` after an arithmetic operation: the result is
reduced to the 64-bit two's complement range. -/
def wrap64 (x : Int) : Int := (x + 2 ^ 63) % 2 ^ 64 - 2 ^ 63

/-- Modelled from the spec: `Range<>`, the result of `Range<>(offset, length)`
(`libbirch/Range.hpp` is not among the sources): the first index and the
number of indices. -/
structure Range where
  offset : Int
  length : Int
  deriving DecidableEq, Repr

/-- The indices that a range covers: `length` consecutive indices from
`offset` on. -/
def Range.covers (r : Range) (i : Int) : Prop := r.offset ≤ i ∧ i < r.offset + r.length

/-- The function `bi::make_range(start, end)`:
`length = std::max(int64_t(0), end - start + 1)` in `int64_t` arithmetic, then
`Range<>(start, length)`. -/
def make_range (start end_ : Int) : Range :=
  let length := max 0 (wrap64 (wrap64 (end_ - start) + 1))
  { offset := start, length := length }

end bi

/-! ## ContextPtr -/

namespace libbirch

/-- The part of the runtime that `ContextPtr` reads and writes: the global
`currentContext` (an address) and, for every Context object (by address), its
shared count. -/
structure Runtime where
  currentContext : Nat
  shared : Nat → Int

/-- Modelled from the spec: `Context::incShared()`, the shared count of the
context goes up by one (`libbirch/Context.hpp` is not among the sources). -/
def Runtime.incShared (rt : Runtime) (context : Nat) : Runtime :=
  { rt with shared := Function.update rt.shared context (rt.shared context + 1) }

/-- Modelled from the spec: `Context::decShared()`, the shared count of the
context goes down by one. -/
def Runtime.decShared (rt : Runtime) (context : Nat) : Runtime :=
  { rt with shared := Function.update rt.shared context (rt.shared context - 1) }

/-- The class `libbirch::ContextPtr`: its only member is `pack`, a
`uintptr_t` (64 bits) holding the address and, in the least significant bit,
the cross flag. -/
structure ContextPtr where
  pack : Nat
  deriving DecidableEq, Repr

namespace ContextPtr

/-- The member `get()`: `pack & ~(uintptr_t)1u`. -/
def get (p : ContextPtr) : Nat := p.pack &&& (2 ^ 64 - 2)

/-- The member `isCross()`: `pack & (uintptr_t)1u`. -/
def isCross (p : ContextPtr) : Bool := p.pack &&& 1 != 0

/-- The member `setContext(context)`; the previous value of `pack` is not
read, so the function returns the pointer after the call, with the runtime
after the call. -/
def setContext (context : Nat) (rt : Runtime) : ContextPtr × Runtime :=
  if context != 0 && context != rt.currentContext then
    ({ pack := context ||| 1 }, rt.incShared context)
  else
    ({ pack := context }, rt)

/-- The member `release()`. -/
def release (p : ContextPtr) (rt : Runtime) : ContextPtr × Runtime :=
  if p.isCross then ({ pack := 0 }, rt.decShared p.get)
  else (p, rt)

/-- The member `operator==`: `get() == o.get()`. -/
def eq (a b : ContextPtr) : Bool := a.get == b.get

/-- The member `operator!=`: `get() != o.get()`. -/
def ne (a b : ContextPtr) : Bool := a.get != b.get

/-- The conversion `operator bool`: `pack != 0`. -/
def toBool (p : ContextPtr) : Bool := p.pack != 0

end ContextPtr

/-- A program state: the runtime and the ContextPtr objects created so far, by
index of creation; a destroyed object is `none`. -/
structure Store where
  rt : Runtime
  ptrs : List (Option ContextPtr)

/-- An operation of a program on its ContextPtr objects; objects are named by
their index in the store. -/
inductive Op
  | construct
  | constructValue (context : Nat)
  | constructCopy (o : Nat)
  | assignValue (p : Nat) (context : Nat)
  | assignCopy (p o : Nat)
  | release (p : Nat)
  | destroy (p : Nat)
  deriving DecidableEq, Repr

/-- The object at an index, if it is live. -/
def Store.live (s : Store) (i : Nat) : Option ContextPtr := s.ptrs[i]?.join

/-- One operation, by the constructors, destructor and assignment operators of
`ContextPtr`. An operation on an object that is not live is not performed. In
a copy assignment the right-hand side is read after the left-hand side has
been released, as in the source. -/
def Store.step (s : Store) : Op → Store
  | .construct =>
      let r := ContextPtr.setContext s.rt.currentContext s.rt
      { rt := r.2, ptrs := s.ptrs ++ [some r.1] }
  | .constructValue context =>
      let r := ContextPtr.setContext context s.rt
      { rt := r.2, ptrs := s.ptrs ++ [some r.1] }
  | .constructCopy o =>
      match s.live o with
      | some q =>
          let r := ContextPtr.setContext q.get s.rt
          { rt := r.2, ptrs := s.ptrs ++ [some r.1] }
      | none => s
  | .assignValue p context =>
      match s.live p with
      | some x =>
          let r := x.release s.rt
          let r2 := ContextPtr.setContext context r.2
          { rt := r2.2, ptrs := s.ptrs.set p (some r2.1) }
      | none => s
  | .assignCopy p o =>
      match s.live p with
      | some x =>
          let r := x.release s.rt
          let released : Store := { rt := r.2, ptrs := s.ptrs.set p (some r.1) }
          match released.live o with
          | some q =>
              let r2 := ContextPtr.setContext q.get released.rt
              { rt := r2.2, ptrs := released.ptrs.set p (some r2.1) }
          | none => s
      | none => s
  | .release p =>
      match s.live p with
      | some x =>
          let r := x.release s.rt
          { rt := r.2, ptrs := s.ptrs.set p (some r.1) }
      | none => s
  | .destroy p =>
      match s.live p with
      | some x =>
          let r := x.release s.rt
          { rt := r.2, ptrs := s.ptrs.set p none }
      | none => s

/-- A sequence of operations, in order. -/
def Store.run (s : Store) (ops : List Op) : Store := ops.foldl Store.step s

/-- The state of a program that has created no ContextPtr yet. -/
def Store.initial (currentContext : Nat) (shared : Nat → Int) : Store :=
  { rt := { currentContext := currentContext, shared := shared }, ptrs := [] }

/-- Does the object count as a live crossed pointer to `context`: 1 or 0. -/
def crossTag (context : Nat) (o : Option ContextPtr) : Int :=
  match o with
  | some p => if p.isCross && p.get == context then 1 else 0
  | none => 0

/-- An address that can be that of a Context object, or null: its least
significant bit is zero and it fits a `uintptr_t`. -/
def aligned (context : Nat) : Prop := context % 2 = 0 ∧ context < 2 ^ 64

instance (context : Nat) : Decidable (aligned context) := by
  unfold aligned
  exact inferInstance

/-- The context arguments of an operation are aligned addresses. -/
def Op.aligned : Op → Prop
  | .constructValue context => libbirch.aligned context
  | .assignValue _ context => libbirch.aligned context
  | _ => True

instance (op : Op) : Decidable op.aligned := by
  cases op <;> unfold Op.aligned <;> exact inferInstance

end libbirch

namespace bi

/-! ## Resumer: where the target lies -/

/-- Does the tree hold the Yield object at address `p` at a position that is
not inside a For or Parallel loop. -/
def Statement.reaches : Statement Nat → Nat → Bool
  | .Yield self _ _ _, p => self = p
  | .Braces single _, p => reaches single p
  | .StatementList head tail _, p => reaches head p || reaches tail p
  | .If _ braces falseBraces _, p => reaches braces p || reaches falseBraces p
  | .While _ braces _, p => reaches braces p
  | .DoWhile braces _ _, p => reaches braces p
  | .Fiber _ _ _ _ _ braces _, p => reaches braces p
  | .MemberFiber _ _ _ _ _ braces _, p => reaches braces p
  | .Function _ _ _ _ _ braces _ _, p => reaches braces p
  | .MemberFunction _ _ _ _ _ braces _ _, p => reaches braces p
  | _, _ => false

/-- Does a Resumer have a target that the tree holds outside For and Parallel
loops; false when it has no target. -/
def Resumer.targetIn (r : Resumer) (s : Statement Nat) : Bool :=
  match r.yield with
  | some y => s.reaches y.addr
  | none => false

/-- Is the target at address `p` inside the body of a While or DoWhile loop of
the tree. -/
def Statement.loopAround : Statement Nat → Nat → Bool
  | .While _ braces _, p => braces.reaches p
  | .DoWhile braces _ _, p => braces.reaches p
  | .Braces single _, p => loopAround single p
  | .StatementList head tail _, p => loopAround head p || loopAround tail p
  | .If _ braces falseBraces _, p => loopAround braces p || loopAround falseBraces p
  | .Fiber _ _ _ _ _ braces _, p => loopAround braces p
  | .MemberFiber _ _ _ _ _ braces _, p => loopAround braces p
  | .Function _ _ _ _ _ braces _ _, p => loopAround braces p
  | .MemberFunction _ _ _ _ _ braces _ _, p => loopAround braces p
  | _, _ => false

/-- The local variables that are declared before the target at address `p` in
a block that encloses it, as the bare declarations marked RESUME that stand
for them, in program order. A block (a Braces, a branch of an If, the body of
a loop) that does not hold the target gives none; nor do the statements that
follow the target. -/
def Statement.carried : Statement Nat → Nat → List (Statement Unit)
  | .LocalVariable _ name type _ _ _ loc number, _ =>
      [LocalVariable.bare name (Cloner.cloneType type) loc number (NONE.set .RESUME)]
  | .StatementList head tail _, p =>
      if head.reaches p then carried head p else carried head p ++ carried tail p
  | .Braces single _, p => if single.reaches p then carried single p else []
  | .If _ braces falseBraces _, p =>
      if braces.reaches p then carried braces p
      else if falseBraces.reaches p then carried falseBraces p
      else []
  | .While _ braces _, p => if braces.reaches p then carried braces p else []
  | .DoWhile braces _ _, p => if braces.reaches p then carried braces p else []
  | .Fiber _ _ _ _ _ braces _, p => carried braces p
  | .MemberFiber _ _ _ _ _ braces _, p => carried braces p
  | .Function _ _ _ _ _ braces _ _, p => carried braces p
  | .MemberFunction _ _ _ _ _ braces _ _, p => carried braces p
  | _, _ => []

/-- What a run resumed after the target at address `p` can still execute, as
the copies of the statements concerned, in program order: the statements that
follow the target in the blocks that enclose it (of an If only the branch that
holds the target), and, for each While or DoWhile loop around the target, the
whole body of the loop once more. -/
def Statement.following : Statement Nat → Nat → List (Statement Unit)
  | .StatementList head tail _, p =>
      if head.reaches p then following head p ++ (Cloner.clone tail).leaves
      else following tail p
  | .Braces single _, p => following single p
  | .If _ braces falseBraces _, p =>
      if braces.reaches p then following braces p else following falseBraces p
  | .While _ braces _, p => following braces p ++ (Cloner.clone braces).leaves
  | .DoWhile braces _ _, p => following braces p ++ (Cloner.clone braces).leaves
  | .Fiber _ _ _ _ _ braces _, p => following braces p
  | .MemberFiber _ _ _ _ _ braces _, p => following braces p
  | .Function _ _ _ _ _ braces _ _, p => following braces p
  | .MemberFunction _ _ _ _ _ braces _ _, p => following braces p
  | _, _ => []

/-- The bare declaration that the Resumer makes of a LocalVariable before the
target: `none` for every other statement. -/
def Statement.bareOf : Statement Nat → Option (Statement Unit)
  | .LocalVariable _ name type _ _ _ loc number =>
      some (LocalVariable.bare name (Cloner.cloneType type) loc number (NONE.set .RESUME))
  | _ => none

/-- The copies of the statements that come strictly after the Yield object at
address `p` in program order. -/
def Statement.leavesAfter (s : Statement Nat) (p : Nat) : List (Statement Unit) :=
  ((s.leaves.dropWhile fun x => !x.isYieldAt p).drop 1).map Cloner.clone

/-- A fiber body in which the only yield is inside a For loop:
`{ A; for (i in 1..n) { yield v; B; } C; }`, the Yield object at address 10. -/
def forBody : Statement Nat :=
  .Braces
    (.StatementList (.ExpressionStatement (.Source "A" 1) 1)
      (.StatementList
        (.For NONE (.Source "i" 2) (.Source "1" 2) (.Source "n" 2)
          (.Braces (.StatementList (.Yield 10 (.Source "v" 3) 3 1)
            (.ExpressionStatement (.Source "B" 4) 4) 3) 2) 2)
        (.ExpressionStatement (.Source "C" 5) 5) 2) 1) 0

/-- A local variable with an initial value, `x:Integer <- f();`. -/
def exampleVariable : Statement Nat :=
  .LocalVariable NONE "x" (.Named "Integer" 2) (.EmptyExpression 2) (.EmptyExpression 2)
    (.Source "f()" 2) 2 7

/-- A fiber body with a block that ends before the target inside a loop around
the target: `{ while (c) { { x:Integer <- f(); } yield v; Y; } }`, the Yield
object at address 10. -/
def loopBlockBody : Statement Nat :=
  .Braces
    (.While (.Source "c" 1)
      (.Braces
        (.StatementList (.Braces exampleVariable 2)
          (.StatementList (.Yield 10 (.Source "v" 3) 3 1)
            (.ExpressionStatement (.Source "Y" 4) 4) 3) 2) 1) 1) 0

/-- Is the statement a braces block. -/
def Statement.isBraces {ι : Type} : Statement ι → Bool
  | .Braces _ _ => true
  | _ => false

/-- Is the body of every While and DoWhile loop of the tree a braces block, as
the grammar of the language has it (`while cond { ... }`, `do { ... } while
cond`). -/
def Statement.blockLoops {ι : Type} : Statement ι → Bool
  | .While _ braces _ => braces.isBraces && blockLoops braces
  | .DoWhile braces _ _ => braces.isBraces && blockLoops braces
  | .Braces single _ => blockLoops single
  | .StatementList head tail _ => blockLoops head && blockLoops tail
  | .If _ braces falseBraces _ => blockLoops braces && blockLoops falseBraces
  | .For _ _ _ _ braces _ => blockLoops braces
  | .Parallel _ _ _ _ braces _ => blockLoops braces
  | .Fiber _ _ _ _ _ braces _ => blockLoops braces
  | .MemberFiber _ _ _ _ _ braces _ => blockLoops braces
  | .Function _ _ _ _ _ braces _ _ => blockLoops braces
  | .MemberFunction _ _ _ _ _ braces _ _ => blockLoops braces
  | _ => true

/-- Is the statement anything but a StatementList with an empty head or an
empty tail. -/
def Statement.properList {ι : Type} : Statement ι → Bool
  | .StatementList head tail _ => !head.isEmpty && !tail.isEmpty
  | _ => true

/-- The list `while (c) yield v; ;` whose loop body is the bare Yield at
address 10, not a braces block, followed by an empty statement. -/
def bareLoopList : Statement Nat :=
  .StatementList (.While (.Source "c" 2) (.Yield 10 (.Source "v" 3) 3 1) 2)
    (.EmptyStatement 4) 1

/-- The loop `while (c) { yield v; }` with the Yield at address 10. -/
def blockLoop : Statement Nat :=
  .While (.Source "c" 2) (.Braces (.Yield 10 (.Source "v" 3) 3 1) 2) 2

/-! ## Casts -/

/-- The enumeration `bi::TypeFlag`. -/
inductive TypeFlag
  | IS_BUILTIN
  | IS_CLASS
  | IS_POINTER
  deriving DecidableEq, Repr

/-- What `type_flag` asks of a type `T`: whether `T` is `shared_ptr<U>` for
some `U` (the partial specialisation), and `std::is_class<T>::value`. -/
structure TypeTraits where
  isSharedPtr : Bool
  isClass : Bool
  deriving DecidableEq, Repr

/-- The constant `type_flag<T>::value`: `IS_POINTER` for the specialisation on
`shared_ptr<T>`, otherwise `std::is_class<T>::value ? IS_CLASS : IS_BUILTIN`. -/
def type_flag (T : TypeTraits) : TypeFlag :=
  if T.isSharedPtr then .IS_POINTER
  else if T.isClass then .IS_CLASS else .IS_BUILTIN

/-- The conversions of the language that the arms of `cast_impl` apply to a
value of type `From` to get a value of type `To`: `static_cast<To>(o)`;
`dynamic_cast<To>(o)` to a reference type, which yields no value when the
object is not of the target class (it throws `std::bad_cast`); the
construction `To(o)` of a shared pointer from another; and the test
`if (result)` of a shared pointer, true when it is not null. -/
structure Conversions (From To : Type) where
  staticCast : From → To
  dynamicCast : From → Option To
  construct : From → To
  notNull : To → Bool

/-- The exception that a cast throws. -/
inductive CastException
  | bad_cast
  deriving DecidableEq, Repr

/-- The static member `cast_impl<To,From,to_flag,from_flag>::eval(o)`: the five
partial specialisations, then the primary template, which throws. -/
def cast_impl {From To : Type} (to_flag from_flag : TypeFlag) (c : Conversions From To)
    (o : From) : Except CastException To :=
  match to_flag, from_flag with
  | .IS_BUILTIN, .IS_BUILTIN => .ok (c.staticCast o)
  | .IS_BUILTIN, .IS_CLASS => .ok (c.staticCast o)
  | .IS_CLASS, .IS_CLASS =>
      match c.dynamicCast o with
      | some result => .ok result
      | none => .error .bad_cast
  | .IS_POINTER, .IS_CLASS => .ok (c.staticCast o)
  | .IS_POINTER, .IS_POINTER =>
      let result := c.construct o
      if c.notNull result then .ok result else .error .bad_cast
  | _, _ => .error .bad_cast

/-- The function `bi::cast<To>(o)`: the flags are those of the decayed types
`To` and `From`. -/
def cast {From To : Type} (to_traits from_traits : TypeTraits) (c : Conversions From To)
    (o : From) : Except CastException To :=
  cast_impl (type_flag to_traits) (type_flag from_traits) c o

/-- Shared pointers for an example: a pointer is the address of its object, 0
for the null pointer; converting to a pointer to the target class gives the
same address when the object is of that class, here the objects at even
addresses, and the null pointer otherwise. -/
def examplePointerConversions : Conversions Nat Nat :=
  { staticCast := fun o => o
    dynamicCast := fun o => some o
    construct := fun o => if o % 2 = 0 then o else 0
    notNull := fun o => o != 0 }

/-! ## Expressions: the relation `definitely` and equality -/

/-- The subclasses of `bi::Expression` for which the base class declares an
overload of `definitely`, by the parameter type of the overload. -/
inductive ExpressionClass
  | BinaryReference
  | BracesExpression
  | BracketsExpression
  | EmptyExpression
  | FuncReference
  | GlobalVariable
  | Index
  | LambdaFunction
  | ListExpression
  | LiteralBool
  | LiteralInt64
  | LiteralDouble
  | LiteralString
  | LocalVariable
  | Member
  | MemberVariable
  | Parameter
  | ParenthesesExpression
  | Range
  | Span
  | Super
  | This
  | UnaryReference
  | VarReference
  deriving DecidableEq, Repr

/-- Is the overload `bi::Expression::definitely(const K&)` of the base class
declared `const`: all are but the two for `Literal<int64_t>`
(`Expression.cpp:115`) and `Literal<const char*>` (`Expression.cpp:123`). -/
def ExpressionClass.constOverload : ExpressionClass → Bool
  | .LiteralInt64 => false
  | .LiteralString => false
  | _ => true

/-- Expression objects of type `α` with their classes: `classOf` is the dynamic
class of an object, and `overrides c k` is the overload `definitely(const k&)`
that class `c` overrides, if it overrides it (the subclasses are not among the
sources; `Call.hpp` and `VarReference.hpp` show such overrides). -/
structure ExpressionModel (α : Type) where
  classOf : α → ExpressionClass
  overrides : ExpressionClass → ExpressionClass → Option (α → α → Bool)

namespace ExpressionModel

/-- The overloads `bi::Expression::definitely(const K&)` of the base class, for
every class `K`: `return false`. -/
def definitelyBase {α : Type} (_self _o : α) : Bool := false

/-- The virtual call `self.definitely(o)` with `o` of static type its own
class: the override of the class of `self` if there is one, otherwise the
overload of the base class. -/
def definitelyOverload {α : Type} (m : ExpressionModel α) (self o : α) : Bool :=
  match m.overrides (m.classOf self) (m.classOf o) with
  | some f => f self o
  | none => definitelyBase self o

/-- Modelled from the spec: `dispatchDefinitely(o)` as every subclass `K`
defines it for the double dispatch, `return o.definitely(*this)` (the
subclasses are not among the sources). The call is on the const object `o`
with an argument of type `const K&`: when the overload for `K` is declared
const it is the one called; when it is not, it cannot be called on a const
object, the argument converts to `const Expression&`, and the call is to
`definitely(const Expression&)`, here the parameter `definitelyExpression`. -/
def dispatchDefinitely {α : Type} (m : ExpressionModel α)
    (definitelyExpression : α → α → Option Bool) (self o : α) : Option Bool :=
  if (m.classOf self).constOverload then some (m.definitelyOverload o self)
  else definitelyExpression o self

/-- The member `bi::Expression::definitely(const Expression& o)`:
`return o.dispatchDefinitely(*this)`. The calls nest; `fuel` bounds their
depth, and `none` is a call that does not return within it. -/
def definitely {α : Type} (m : ExpressionModel α) : Nat → α → α → Option Bool
  | 0, _, _ => none
  | fuel + 1, self, o => m.dispatchDefinitely (definitely m fuel) o self

/-- The member `bi::Expression::operator==`:
`definitely(o) && o.definitely(*this)`, the right operand being evaluated only
when the left one is true. -/
def eq {α : Type} (m : ExpressionModel α) (fuel : Nat) (self o : α) : Option Bool :=
  match m.definitely fuel self o with
  | none => none
  | some false => some false
  | some true => m.definitely fuel o self

/-- The member `bi::Expression::operator!=`: `!(*this == o)`. -/
def ne {α : Type} (m : ExpressionModel α) (fuel : Nat) (self o : α) : Option Bool :=
  (m.eq fuel self o).map fun b => !b

end ExpressionModel

/-- Three expression objects for an example: a variable reference, a
parameter and an integer literal. -/
inductive ExampleExpression
  | varReference
  | parameter
  | literalInt
  deriving DecidableEq, Repr

/-- A model of the example objects in which `VarReference` overrides
`definitely(const Parameter&)`, returning true, and nothing else is
overridden. -/
def exampleModel : ExpressionModel ExampleExpression :=
  { classOf := fun e =>
      match e with
      | .varReference => .VarReference
      | .parameter => .Parameter
      | .literalInt => .LiteralInt64
    overrides := fun c k =>
      match c, k with
      | .VarReference, .Parameter => some fun _ _ => true
      | _, _ => none }

/-! # Theorems -/

/-! ## Lemmas on the traversal state of the Resumer -/

theorem Resumer.clone_yield (s : Statement Nat) (r : Resumer) :
    (Resumer.clone s r).2.yield = r.yield := by
  induction s generalizing r <;> simp only [Resumer.clone] <;> (try split_ifs) <;> simp_all

theorem Resumer.clone_found (s : Statement Nat) (r : Resumer) (h : r.foundYield = true) :
    (Resumer.clone s r).2 = r := by
  induction s generalizing r <;> simp only [Resumer.clone] <;> (try split_ifs) <;> simp_all

theorem Resumer.clone_state (s : Statement Nat) (r : Resumer) :
    (Resumer.clone s r).2 = r ∨
      (r.foundYield = false ∧ (Resumer.clone s r).2 = { r with foundYield := true }) := by
  cases hf : r.foundYield with
  | true => exact Or.inl (Resumer.clone_found s r hf)
  | false =>
    cases hf2 : (Resumer.clone s r).2.foundYield with
    | false =>
      left
      have hy := Resumer.clone_yield s r
      cases hr : (Resumer.clone s r).2 with
      | mk y f =>
        rw [hr] at hy hf2
        cases r
        simp_all
    | true =>
      right
      refine ⟨rfl, ?_⟩
      have hy := Resumer.clone_yield s r
      cases hr : (Resumer.clone s r).2 with
      | mk y f =>
        rw [hr] at hy hf2
        cases r
        simp_all

theorem Resumer.clone_not_found (s : Statement Nat) (r : Resumer)
    (h : (Resumer.clone s r).2.foundYield = false) : (Resumer.clone s r).2 = r := by
  rcases Resumer.clone_state s r with h1 | ⟨_, h2⟩
  · exact h1
  · rw [h2] at h; simp at h

theorem Statement.isEmpty_EmptyStatement {ι : Type} (l : Location) :
    (Statement.EmptyStatement l : Statement ι).isEmpty = true := rfl

theorem Statement.isEmpty_clone_straight {ι : Type} (s : Statement ι) (h : s.isStraight = true) :
    (Cloner.clone s).isEmpty = false := by
  cases s <;> simp_all [Statement.isStraight, Cloner.clone, Statement.isEmpty]

theorem Resumer.clone_straight_found (s : Statement Nat) (r : Resumer)
    (h : s.isStraight = true) (hf : r.foundYield = true) :
    Resumer.clone s r = (Cloner.clone s, r) := by
  cases s <;> simp_all [Statement.isStraight, Cloner.clone, Resumer.clone]

theorem Resumer.clone_straight_before (s : Statement Nat) (r : Resumer) (p n : Nat)
    (h : s.isStraight = true) (hf : r.foundYield = false) (hy : r.yield = some ⟨p, n⟩)
    (hp : s.isYieldAt p = false) :
    ∃ l, Resumer.clone s r = (.EmptyStatement l, r) := by
  cases s with
  | ExpressionStatement e l => exact ⟨l, by simp [Resumer.clone, hf]⟩
  | Yield self e l k =>
    have hne : ¬ p = self := fun h => by simp [Statement.isYieldAt, h] at hp
    exact ⟨l, by simp [Resumer.clone, hf, hy, hne]⟩
  | _ => simp [Statement.isStraight] at h

theorem Resumer.clone_straight_target (s : Statement Nat) (r : Resumer) (p n : Nat)
    (hf : r.foundYield = false) (hy : r.yield = some ⟨p, n⟩)
    (hp : s.isYieldAt p = true) :
    ∃ l, Resumer.clone s r = (.EmptyStatement l, { r with foundYield := true }) := by
  cases s <;> simp_all [Statement.isYieldAt, Resumer.clone]

theorem isEmpty_clone_sequence {ι : Type} (items : List (Statement ι × Location))
    (hne : items ≠ []) (hs : ∀ x ∈ items, x.1.isStraight = true) :
    (Cloner.clone (sequence items)).isEmpty = false := by
  match items, hne with
  | [x], _ =>
    simp only [sequence]
    exact Statement.isEmpty_clone_straight _ (hs x (by simp))
  | x :: y :: rest, _ => simp [sequence, Cloner.clone, Statement.isEmpty]

theorem Resumer.clone_sequence_found (items : List (Statement Nat × Location)) (r : Resumer)
    (hne : items ≠ []) (hs : ∀ x ∈ items, x.1.isStraight = true) (hf : r.foundYield = true) :
    Resumer.clone (sequence items) r = (Cloner.clone (sequence items), r) := by
  induction items with
  | nil => exact absurd rfl hne
  | cons x rest ih =>
    cases rest with
    | nil =>
      simp only [sequence]
      exact Resumer.clone_straight_found _ _ (hs x (by simp)) hf
    | cons y rest =>
      have hx := Resumer.clone_straight_found x.1 r (hs x (by simp)) hf
      have ht := ih (by simp) (fun z hz => hs z (List.mem_cons_of_mem _ hz))
      have e1 := Statement.isEmpty_clone_straight x.1 (hs x (by simp))
      have e2 := isEmpty_clone_sequence (y :: rest) (by simp)
        (fun z hz => hs z (List.mem_cons_of_mem _ hz))
      simp only [sequence] at ht e2 ⊢
      simp [Resumer.clone, hx, ht, e1, e2, Cloner.clone]

theorem Resumer.clone_sequence_target (pre post : List (Statement Nat × Location))
    (y : Statement Nat × Location) (r : Resumer) (p n : Nat)
    (hs : ∀ x ∈ pre ++ y :: post, x.1.isStraight = true)
    (hf : r.foundYield = false) (hy : r.yield = some ⟨p, n⟩)
    (hpre : ∀ x ∈ pre, x.1.isYieldAt p = false) (hp : y.1.isYieldAt p = true) :
    (post ≠ [] → Resumer.clone (sequence (pre ++ y :: post)) r
        = (Cloner.clone (sequence post), { r with foundYield := true })) ∧
    (post = [] → ∃ l, Resumer.clone (sequence (pre ++ y :: post)) r
        = (.EmptyStatement l, { r with foundYield := true })) := by
  induction pre with
  | nil =>
    obtain ⟨l, hl⟩ := Resumer.clone_straight_target y.1 r p n hf hy hp
    cases post with
    | nil =>
      refine ⟨fun h => absurd rfl h, fun _ => ⟨l, ?_⟩⟩
      simpa [sequence] using hl
    | cons z post =>
      refine ⟨fun _ => ?_, fun h => by simp at h⟩
      have ht := Resumer.clone_sequence_found (z :: post) { r with foundYield := true }
        (by simp) (fun w hw => hs w (by simp at hw ⊢; exact Or.inr hw)) rfl
      have e2 := isEmpty_clone_sequence (z :: post) (by simp)
        (fun w hw => hs w (by simp at hw ⊢; exact Or.inr hw))
      simp [sequence, Resumer.clone, hl, ht, e2, Statement.isEmpty_EmptyStatement]
  | cons x pre ih =>
    obtain ⟨l, hl⟩ := Resumer.clone_straight_before x.1 r p n (hs x (by simp)) hf hy
      (hpre x (by simp))
    have ih2 := ih (fun w hw => hs w (by simp at hw ⊢; exact Or.inr hw))
      (fun w hw => hpre w (List.mem_cons_of_mem _ hw))
    have hseq : sequence (x :: (pre ++ y :: post))
        = .StatementList x.1 (sequence (pre ++ y :: post)) x.2 := by
      cases pre <;> simp [sequence]
    refine ⟨fun hne => ?_, fun he => ?_⟩
    · have ht := ih2.1 hne
      have e2 := isEmpty_clone_sequence post hne
        (fun w hw => hs w (by simp at hw ⊢; exact Or.inr (Or.inr (Or.inr hw))))
      rw [List.cons_append, hseq]
      simp [Resumer.clone, hl, ht, e2, Statement.isEmpty_EmptyStatement]
    · obtain ⟨l2, ht⟩ := ih2.2 he
      rw [List.cons_append, hseq]
      exact ⟨x.2, by simp [Resumer.clone, hl, ht, Statement.isEmpty_EmptyStatement]⟩

theorem leaves_clone_sequence {ι : Type} (items : List (Statement ι × Location))
    (hs : ∀ x ∈ items, x.1.isStraight = true) :
    (Cloner.clone (sequence items)).leaves = items.map fun x => Cloner.clone x.1 := by
  have h1 : ∀ s : Statement ι, s.isStraight = true → (Cloner.clone s).leaves = [Cloner.clone s] := by
    intro s h
    cases s <;> simp_all [Statement.isStraight, Cloner.clone, Statement.leaves]
  induction items with
  | nil => simp [sequence, Cloner.clone, Statement.leaves]
  | cons x rest ih =>
    cases rest with
    | nil => simpa [sequence] using h1 x.1 (hs x (by simp))
    | cons y rest =>
      have ht := ih (fun z hz => hs z (List.mem_cons_of_mem _ hz))
      simp only [sequence, Cloner.clone, Statement.leaves, List.map_cons] at ht ⊢
      rw [h1 x.1 (hs x (by simp)), ht]
      simp

theorem exec_clone_sequence {ι σ : Type} (m : Machine σ)
    (items : List (Statement ι × Location)) (fuel : Nat) (s : σ)
    (hs : ∀ x ∈ items, x.1.isStraight = true) (hf : items.length + 1 ≤ fuel) :
    exec m fuel (Cloner.clone (sequence items)) s = runItems m (items.map Prod.fst) s := by
  induction items generalizing fuel s with
  | nil =>
    obtain ⟨k, rfl⟩ : ∃ k, fuel = k + 1 := ⟨fuel - 1, by simp at hf; omega⟩
    simp [sequence, Cloner.clone, exec, runItems]
  | cons x rest ih =>
    have hx := hs x (by simp)
    have hrest : ∀ z ∈ rest, z.1.isStraight = true := fun z hz => hs z (List.mem_cons_of_mem _ hz)
    cases rest with
    | nil =>
      obtain ⟨k, rfl⟩ : ∃ k, fuel = k + 1 := ⟨fuel - 1, by simp at hf; omega⟩
      obtain ⟨x1, x2⟩ := x
      cases x1 <;> simp_all [Statement.isStraight, sequence, Cloner.clone, exec, runItems,
        Cloner.cloneExpression]
    | cons y rest =>
      obtain ⟨k, rfl⟩ : ∃ k, fuel = k + 2 := ⟨fuel - 2, by simp at hf; omega⟩
      have ht := fun s1 => ih (k + 1) s1 hrest (by simp only [List.length_cons] at hf ⊢; omega)
      obtain ⟨x1, x2⟩ := x
      cases x1 with
      | ExpressionStatement e l =>
        simp only [sequence, Cloner.clone, exec, List.map_cons, runItems,
          Cloner.cloneExpression]
        exact ht (m.effect e s)
      | Yield self e l n =>
        simp [sequence, Cloner.clone, exec, runItems]
      | _ => simp [Statement.isStraight] at hx

theorem Cloner.isEmpty_clone {ι : Type} (s : Statement ι) :
    (Cloner.clone s).isEmpty = s.isEmpty := by
  cases s <;> rfl

theorem Resumer.clone_plain (s : Statement Nat) (r : Resumer)
    (hp : s.isPlain = true) (hf : r.foundYield = true) :
    Resumer.clone s r = (Cloner.clone s, r) := by
  induction s generalizing r with
  | StatementList head tail loc ih1 ih2 =>
    simp only [Statement.isPlain, Bool.and_eq_true, Bool.not_eq_true'] at hp
    obtain ⟨⟨⟨h1, h2⟩, h3⟩, h4⟩ := hp
    simp [Resumer.clone, ih1 r h1 hf, ih2 r h2 hf, Cloner.isEmpty_clone, h3, h4, Cloner.clone]
  | Yield self single loc number =>
    simp [Resumer.clone, hf, Cloner.clone]
  | _ => simp_all [Resumer.clone, Cloner.clone, Statement.isPlain]

theorem Annotated.has_set_self (s : Annotated) (a : Annotation) : (s.set a).has a = true := by
  unfold Annotated.set Annotated.has
  split_ifs with h
  · exact h
  · simp

theorem Annotated.has_set_of_ne (s : Annotated) (a b : Annotation) (h : b ≠ a) :
    (s.set a).has b = s.has b := by
  unfold Annotated.set Annotated.has
  split_ifs with h1
  · rfl
  · simp [List.contains_cons, h]

/-! ## Lemmas on the base-scope set and the deferral loop -/

theorem mem_setInsert (p q : ScopePtr) (l : List ScopePtr) :
    q ∈ setInsert p l ↔ q = p ∨ q ∈ l := by
  induction l with
  | nil => simp [setInsert]
  | cons x rest ih =>
    simp only [setInsert]
    split_ifs with h1 h2
    · simp
    · subst h2; simp
    · simp only [List.mem_cons, ih]; tauto

theorem sorted_setInsert (p : ScopePtr) (l : List ScopePtr) (h : l.Sorted (· < ·)) :
    (setInsert p l).Sorted (· < ·) := by
  induction l with
  | nil => simp [setInsert]
  | cons x rest ih =>
    rw [List.sorted_cons] at h
    simp only [setInsert]
    split_ifs with h1 h2
    · rw [List.sorted_cons]
      refine ⟨fun b hb => ?_, List.sorted_cons.2 h⟩
      rcases List.mem_cons.1 hb with rfl | hb
      · exact h1
      · exact lt_trans h1 (h.1 b hb)
    · exact List.sorted_cons.2 h
    · rw [List.sorted_cons]
      refine ⟨fun b hb => ?_, ih h.2⟩
      rcases (mem_setInsert p b rest).1 hb with rfl | hb
      · exact lt_of_le_of_ne (not_lt.1 h1) (fun h => h2 h.symm)
      · exact h.1 b hb

theorem Scope.call_bases (s : Scope) (c : BaseCall) :
    (s.call c).bases = setInsert c.scope s.bases := by
  cases c <;> rfl

theorem Scope.foldl_call (calls : List BaseCall) (s : Scope) (h : s.bases.Sorted (· < ·)) :
    (calls.foldl Scope.call s).bases.Sorted (· < ·) ∧
    ∀ q, q ∈ (calls.foldl Scope.call s).bases ↔ q ∈ s.bases ∨ q ∈ calls.map BaseCall.scope := by
  induction calls generalizing s with
  | nil => simp [h]
  | cons c rest ih =>
    have hs : (s.call c).bases.Sorted (· < ·) := by
      rw [Scope.call_bases]; exact sorted_setInsert _ _ h
    obtain ⟨h1, h2⟩ := ih (s.call c) hs
    refine ⟨h1, fun q => ?_⟩
    simp only [List.foldl_cons, h2, Scope.call_bases, mem_setInsert, List.map_cons, List.mem_cons]
    tauto

theorem Scope.afterCalls_bases (calls : List BaseCall) :
    (Scope.afterCalls calls).bases.Sorted (· < ·) ∧
    ∀ q, q ∈ (Scope.afterCalls calls).bases ↔ q ∈ calls.map BaseCall.scope := by
  have h := Scope.foldl_call calls Scope.noBases (by simp [Scope.noBases])
  refine ⟨h.1, fun q => ?_⟩
  have := h.2 q
  simpa [Scope.afterCalls, Scope.noBases] using this

theorem resolveDeferLoop_of_target (resolve : ScopePtr → Reference → Reference)
    (l : List ScopePtr) (ref : Reference) (h : ref.target ≠ none) :
    resolveDeferLoop resolve l ref = ref := by
  cases l with
  | nil => rfl
  | cons b rest =>
    cases ht : ref.target with
    | none => exact absurd ht h
    | some d => simp [resolveDeferLoop, ht]

theorem resolveDeferLoop_sorted (resolve : ScopePtr → Reference → Reference)
    (l : List ScopePtr) (ref : Reference) (b : ScopePtr) (hs : l.Sorted (· < ·))
    (href : ref.target = none) (hb : b ∈ l)
    (hlow : ∀ q ∈ l, q < b → resolve q ref = ref)
    (hres : (resolve b ref).target ≠ none) :
    resolveDeferLoop resolve l ref = resolve b ref := by
  induction l with
  | nil => simp at hb
  | cons x rest ih =>
    rw [List.sorted_cons] at hs
    simp only [resolveDeferLoop, href, Option.isNone_none, if_true]
    rcases List.mem_cons.1 hb with rfl | hb'
    · exact resolveDeferLoop_of_target resolve rest _ hres
    · have hx : x < b := hs.1 b hb'
      rw [hlow x (by simp) hx]
      exact ih hs.2 hb' (fun q hq hqb => hlow q (List.mem_cons_of_mem _ hq) hqb)

/-! ## Lemmas on deferral with failing and resolving bases -/

theorem resolveDeferLoop_unchanged (resolve : ScopePtr → Reference → Reference)
    (l : List ScopePtr) (ref : Reference) (h : ∀ b ∈ l, resolve b ref = ref) :
    resolveDeferLoop resolve l ref = ref := by
  induction l with
  | nil => rfl
  | cons x rest ih =>
    simp only [resolveDeferLoop]
    split_ifs
    · rw [h x (by simp)]
      exact ih (fun b hb => h b (List.mem_cons_of_mem _ hb))
    · rfl

theorem resolveDeferLoop_first (resolve : ScopePtr → Reference → Reference)
    (l : List ScopePtr) (ref : Reference) (href : ref.target = none)
    (hfail : ∀ b ∈ l, (resolve b ref).target = none → resolve b ref = ref)
    (hex : ∃ b ∈ l, (resolve b ref).target ≠ none) :
    ∃ b ∈ l, (resolve b ref).target ≠ none ∧ resolveDeferLoop resolve l ref = resolve b ref := by
  induction l with
  | nil => simp at hex
  | cons x rest ih =>
    simp only [resolveDeferLoop, href, Option.isNone_none, if_true]
    by_cases hx : (resolve x ref).target = none
    · have hxr := hfail x (by simp) hx
      obtain ⟨b, hb, hbt⟩ := hex
      have hb2 : b ∈ rest := by
        rcases List.mem_cons.1 hb with rfl | h
        · exact absurd hx hbt
        · exact h
      obtain ⟨c, hc, hct, hcr⟩ := ih (fun q hq => hfail q (List.mem_cons_of_mem _ hq))
        ⟨b, hb2, hbt⟩
      exact ⟨c, List.mem_cons_of_mem _ hc, hct, by rw [hxr]; exact hcr⟩
    · exact ⟨x, by simp, hx, resolveDeferLoop_of_target resolve rest _ hx⟩

theorem resolveDeferLoop_idem (resolve : ScopePtr → Reference → Reference)
    (l : List ScopePtr) (ref : Reference)
    (hfail : ∀ b ∈ l, (resolve b ref).target = none → resolve b ref = ref) :
    resolveDeferLoop resolve l (resolveDeferLoop resolve l ref)
      = resolveDeferLoop resolve l ref := by
  by_cases href : ref.target = none
  · by_cases hex : ∃ b ∈ l, (resolve b ref).target ≠ none
    · obtain ⟨b, _, hbt, hbr⟩ := resolveDeferLoop_first resolve l ref href hfail hex
      rw [hbr]
      exact resolveDeferLoop_of_target resolve l _ hbt
    · have hall : ∀ b ∈ l, resolve b ref = ref := fun b hb =>
        hfail b hb (by
          by_contra hne
          exact hex ⟨b, hb, hne⟩)
      rw [resolveDeferLoop_unchanged resolve l ref hall, resolveDeferLoop_unchanged resolve l ref hall]
  · rw [resolveDeferLoop_of_target resolve l ref href, resolveDeferLoop_of_target resolve l ref href]

theorem Dictionary.resolve_name (vars : Name → Option Nat) (ref : Reference) :
    (Dictionary.resolve vars ref).name = ref.name := by
  unfold Dictionary.resolve
  cases vars ref.name <;> rfl

theorem Dictionary.resolve_target (vars : Name → Option Nat) (ref : Reference) :
    ((Dictionary.resolve vars ref).target = none → Dictionary.resolve vars ref = ref) ∧
    (ref.target = none → ((Dictionary.resolve vars ref).target ≠ none ↔ vars ref.name ≠ none)) := by
  unfold Dictionary.resolve
  cases h : vars ref.name <;> simp_all

theorem Dictionary.resolve_idem (vars : Name → Option Nat) (ref : Reference) :
    Dictionary.resolve vars (Dictionary.resolve vars ref) = Dictionary.resolve vars ref := by
  unfold Dictionary.resolve
  cases h : vars ref.name <;> simp [h]

theorem resolveDeferLoop_name (dicts : ScopePtr → Name → Option Nat) (l : List ScopePtr)
    (ref : Reference) : (resolveDeferLoop (baseResolve dicts) l ref).name = ref.name := by
  induction l generalizing ref with
  | nil => rfl
  | cons x rest ih =>
    simp only [resolveDeferLoop]
    split_ifs
    · rw [ih, baseResolve, Dictionary.resolve_name]
    · rfl

/-! ## Lemmas on paths -/

theorem Path.eq_iff_names (a b : Path) : Path.eq a b = true ↔ a.names = b.names := by
  induction a generalizing b with
  | single h l =>
    cases b with
    | single h2 l2 => simp [Path.eq, Path.names]
    | cons h2 t2 l2 =>
      cases t2 <;> simp [Path.eq, Path.names]
  | cons h t l ih =>
    cases b with
    | single h2 l2 =>
      cases t <;> simp [Path.eq, Path.names]
    | cons h2 t2 l2 => simp [Path.eq, Path.names, ih t2]

theorem Path.names_ne_nil (p : Path) : p.names ≠ [] := by
  cases p <;> simp [Path.names]

theorem Path.strLoop_go (p : Path) (acc : String) :
    String.intercalate.go acc "." p.names = p.strLoop (acc ++ ".") := by
  induction p generalizing acc with
  | single h l => simp [Path.names, String.intercalate.go, Path.strLoop]
  | cons h t l ih => simp [Path.names, String.intercalate.go, Path.strLoop, ih]

theorem Path.strLoop_append (p : Path) (buf : String) :
    p.strLoop buf = buf ++ p.strLoop "" := by
  induction p generalizing buf with
  | single h l => simp [Path.strLoop]
  | cons h t l ih =>
    simp only [Path.strLoop]
    rw [ih (buf ++ h ++ "."), ih ("" ++ h ++ ".")]
    simp [String.append_assoc]

theorem Path.str_eq_intercalate (p : Path) : p.str = ".".intercalate p.names := by
  cases p with
  | single h l => simp [Path.str, Path.strLoop, Path.names, String.intercalate, String.intercalate.go]
  | cons h t l =>
    simp [Path.str, Path.strLoop, Path.names, String.intercalate, Path.strLoop_go]

theorem Path.str_suffix (p : Path) : ∃ pre : String, p.str = pre ++ p.last := by
  induction p with
  | single h l => exact ⟨"", by simp [Path.str, Path.strLoop, Path.last]⟩
  | cons h t l ih =>
    obtain ⟨pre, hpre⟩ := ih
    refine ⟨h ++ "." ++ pre, ?_⟩
    simp only [Path.str, Path.strLoop, Path.last] at hpre ⊢
    rw [Path.strLoop_append, hpre]
    simp [String.append_assoc]

theorem takeWhile_append_stop {α : Type} (q : α → Bool) (a b : List α) (x : α)
    (ha : ∀ y ∈ a, q y = true) (hx : q x = false) :
    (a ++ x :: b).takeWhile q = a := by
  induction a with
  | nil => simp [List.takeWhile, hx]
  | cons y rest ih =>
    have hy := ha y (by simp)
    simp only [List.cons_append, List.takeWhile_cons, hy, if_true]
    rw [ih (fun z hz => ha z (List.mem_cons_of_mem _ hz))]

theorem Path.setLast_last (p : Path) : p.setLast p.last = p := by
  induction p with
  | single h l => rfl
  | cons h t l ih => simp only [Path.setLast, Path.last, ih]

theorem takeWhile_append_of_stop {α : Type} (q : α → Bool) (a b : List α) (x : α)
    (hx : q x = false) : (a ++ x :: b).takeWhile q = a.takeWhile q := by
  induction a with
  | nil => simp [List.takeWhile, hx]
  | cons y rest ih =>
    simp only [List.cons_append, List.takeWhile_cons]
    split_ifs
    · rw [ih]
    · rfl

theorem takeWhile_append_all {α : Type} (q : α → Bool) (a b : List α)
    (ha : ∀ y ∈ a, q y = true) : (a ++ b).takeWhile q = a ++ b.takeWhile q := by
  induction a with
  | nil => rfl
  | cons y rest ih =>
    simp only [List.cons_append, List.takeWhile_cons, ha y (by simp), if_true]
    rw [ih (fun z hz => ha z (List.mem_cons_of_mem _ hz))]

theorem getLast?_append_cons {α : Type} (a b : List α) (x : α) :
    (a ++ x :: b).getLast? = (x :: b).getLast? := by
  rw [List.getLast?_append]
  cases h : (x :: b).getLast? with
  | none => simp at h
  | some v => rfl

theorem fsExtension_append (pre name : List Char) :
    fsExtension (pre ++ '/' :: name) = fsExtension name := by
  cases name with
  | nil =>
    have h1 : fsFilename (pre ++ ['/']) = ['.'] := by
      simp [fsFilename]
    simp [fsExtension, h1, fsFilename]
  | cons c rest =>
    have h1 : fsFilename (pre ++ '/' :: c :: rest) = fsFilename (c :: rest) := by
      have hl : (pre ++ '/' :: c :: rest).getLast? = (c :: rest).getLast? := by
        rw [getLast?_append_cons]
        simp [List.getLast?_cons_cons]
      unfold fsFilename
      rw [hl, List.reverse_append, List.reverse_cons _ (c :: rest), List.append_assoc,
        List.singleton_append, takeWhile_append_of_stop _ _ _ _ (by simp)]
    simp only [fsExtension, h1]

theorem fsFilename_sub (x : List Char) :
    fsFilename x = ['.'] ∨ ∀ c ∈ fsFilename x, c ∈ x := by
  unfold fsFilename
  split_ifs
  · exact Or.inl rfl
  · refine Or.inr fun c hc => ?_
    have := List.mem_reverse.1 hc
    exact List.mem_reverse.1 ((List.takeWhile_sublist _).subset this)

theorem fsExtension_of_no_dot (x : List Char) (h : '.' ∉ x) : fsExtension x = [] := by
  rcases fsFilename_sub x with h1 | h1
  · simp [fsExtension, h1]
  · have : '.' ∉ fsFilename x := fun hc => h (h1 _ hc)
    simp [fsExtension, this]

theorem fsFilename_split (stem ext : List Char) (hd : '/' ∉ ext) :
    fsFilename (stem ++ '.' :: ext)
      = (stem.reverse.takeWhile fun c => c != '/').reverse ++ '.' :: ext := by
  have hl : (stem ++ '.' :: ext).getLast? ≠ some '/' := by
    rw [getLast?_append_cons]
    intro e
    have hm := List.mem_of_getLast?_eq_some e
    rcases List.mem_cons.1 hm with h | h
    · exact absurd h (by decide)
    · exact hd h
  unfold fsFilename
  rw [if_neg hl, List.reverse_append, List.reverse_cons, List.append_assoc, List.singleton_append,
    takeWhile_append_all _ _ _ (by
      intro y hy
      have : y ≠ '/' := fun e => hd (e ▸ List.mem_reverse.1 hy)
      simpa using this)]
  simp [List.takeWhile_cons]

theorem fsExtension_split (stem ext : List Char) (hdot : '.' ∉ ext) (hd : '/' ∉ ext)
    (h1 : fsFilename (stem ++ '.' :: ext) ≠ ['.'])
    (h2 : fsFilename (stem ++ '.' :: ext) ≠ ['.', '.']) :
    fsExtension (stem ++ '.' :: ext) = '.' :: ext := by
  have hf := fsFilename_split stem ext hd
  have hmem : '.' ∈ fsFilename (stem ++ '.' :: ext) := by rw [hf]; simp
  have hrev : ((fsFilename (stem ++ '.' :: ext)).reverse.takeWhile fun c => c != '.').reverse
      = ext := by
    rw [hf, List.reverse_append, List.reverse_cons, List.append_assoc, List.singleton_append,
      takeWhile_append_stop _ _ _ _ _ (by simp), List.reverse_reverse]
    intro y hy
    have : y ≠ '.' := fun e => hdot (e ▸ List.mem_reverse.1 hy)
    simpa using this
  simp only [fsExtension]
  rw [if_neg (by simp [h1, h2, hmem]), hrev]

theorem fsAppend_joinable (file x : List Char) (hf : file ≠ []) (hl : file.getLast? ≠ some '/')
    (hx : x ≠ []) (hh : x.head? ≠ some '/') : fsAppend file x = file ++ '/' :: x := by
  unfold fsAppend
  rw [if_neg hx, if_neg (by simp [hf, hl, hh])]

theorem Path.fileLoop_joined (p : Path) (file : List Char) (h : p.joinable = true)
    (hf : file ≠ []) (hl : file.getLast? ≠ some '/') :
    p.fileLoop file = file ++ p.joined := by
  induction p generalizing file with
  | single n l =>
    simp only [Path.joinable, Bool.and_eq_true, bne_iff_ne, ne_eq] at h
    simp only [Path.fileLoop, Path.joined]
    exact fsAppend_joinable file _ hf hl h.1 h.2
  | cons n t l ih =>
    simp only [Path.joinable, Bool.and_eq_true, bne_iff_ne, ne_eq] at h
    obtain ⟨⟨⟨h1, h2⟩, h3⟩, h4⟩ := h
    simp only [Path.fileLoop, Path.joined]
    rw [fsAppend_joinable file _ hf hl h1 h2, ih _ h4 (by simp)]
    · simp
    · rw [getLast?_append_cons]
      cases hn : n.toList with
      | nil => exact absurd hn h1
      | cons c rest =>
        rw [hn] at h3
        simpa [List.getLast?_cons_cons] using h3

theorem Path.intercalate_go_joined (p : Path) (acc : String) :
    (String.intercalate.go acc "/" p.names).data = acc.data ++ p.joined := by
  induction p generalizing acc with
  | single h l => simp [Path.names, String.intercalate.go, Path.joined]
  | cons h t l ih =>
    simp only [Path.names, String.intercalate.go, Path.joined, ih]
    simp

theorem specFile_data (p : Path) :
    (specFile p).data = ['b', 'i'] ++ p.joined ++ ['.', 'b', 'i'] := by
  simp only [specFile, String.intercalate, String.data_append, Path.intercalate_go_joined]

theorem Path.joined_setLast (p : Path) :
    ∃ pre : List Char, ∀ n : Name, (p.setLast n).joined = pre ++ '/' :: n.toList := by
  induction p with
  | single h l => exact ⟨[], fun n => rfl⟩
  | cons h t l ih =>
    obtain ⟨pre, hpre⟩ := ih
    exact ⟨'/' :: h.toList ++ pre, fun n => by simp [Path.setLast, Path.joined, hpre n]⟩

theorem Path.file_data (p : Path) :
    p.file.data = (p.fileLoop ['b', 'i']).take
        ((p.fileLoop ['b', 'i']).length - (fsExtension (p.fileLoop ['b', 'i'])).length)
      ++ ['.', 'b', 'i'] := by
  show fsReplaceExtension (p.fileLoop ['b', 'i']) ['b', 'i'] = _
  simp [fsReplaceExtension]

theorem Path.file_of_extension (p : Path) (h : p.joinable = true) (stem ext : List Char)
    (hlast : p.last.toList = stem ++ ext) (hext : fsExtension p.last.toList = ext) :
    p.file.data = (specFile (p.setLast (String.mk stem))).data := by
  obtain ⟨pre, hpre⟩ := Path.joined_setLast p
  have hj : p.joined = pre ++ '/' :: p.last.toList := by
    have := hpre p.last
    rwa [Path.setLast_last] at this
  have hloop : p.fileLoop ['b', 'i'] = (['b', 'i'] ++ pre) ++ '/' :: p.last.toList := by
    rw [Path.fileLoop_joined p _ h (by simp) (by decide), hj]
    simp
  rw [Path.file_data, hloop, fsExtension_append, hext, specFile_data, hpre, hlast]
  have hsplit : (['b', 'i'] ++ pre) ++ '/' :: (stem ++ ext)
      = (['b', 'i'] ++ pre ++ '/' :: stem) ++ ext := by simp
  have hlen : ((['b', 'i'] ++ pre ++ '/' :: stem) ++ ext).length - ext.length
      = (['b', 'i'] ++ pre ++ '/' :: stem).length := by
    rw [List.length_append]
    omega
  rw [hsplit, hlen, List.take_left' rfl]
  simp

end bi

namespace libbirch

/-! ## Lemmas on the packed pointer -/

theorem testBit_mask (i : Nat) : Nat.testBit (2 ^ 64 - 2) i = decide (1 ≤ i ∧ i < 64) := by
  cases i with
  | zero => simp
  | succ j =>
    rw [Nat.testBit_succ]
    have : (2 ^ 64 - 2) / 2 = 2 ^ 63 - 1 := by norm_num
    rw [this, Nat.testBit_two_pow_sub_one]
    simp only [decide_eq_decide]
    omega

theorem and_mask_of_aligned (c : Nat) (h : aligned c) : c &&& (2 ^ 64 - 2) = c := by
  obtain ⟨he, hlt⟩ := h
  apply Nat.eq_of_testBit_eq
  intro i
  rw [Nat.testBit_and, testBit_mask]
  cases i with
  | zero => simp [he]
  | succ j =>
    by_cases hj : j + 1 < 64
    · simp [hj]
    · have : Nat.testBit c (j + 1) = false :=
        Nat.testBit_lt_two_pow (lt_of_lt_of_le hlt (Nat.pow_le_pow_right (by norm_num) (by omega)))
      simp [this]

theorem or_one_and_mask (c : Nat) (h : aligned c) : (c ||| 1) &&& (2 ^ 64 - 2) = c := by
  obtain ⟨he, hlt⟩ := h
  apply Nat.eq_of_testBit_eq
  intro i
  rw [Nat.testBit_and, testBit_mask, Nat.testBit_or]
  cases i with
  | zero => simp [he]
  | succ j =>
    have h1 : Nat.testBit 1 (j + 1) = false := by
      rw [Nat.testBit_succ]; simp
    by_cases hj : j + 1 < 64
    · simp [hj, h1]
    · have : Nat.testBit c (j + 1) = false :=
        Nat.testBit_lt_two_pow (lt_of_lt_of_le hlt (Nat.pow_le_pow_right (by norm_num) (by omega)))
      simp [this, h1]

theorem ContextPtr.get_aligned (p : ContextPtr) : aligned p.get := by
  constructor
  · have h := @Nat.and_mod_two_eq_one p.pack (2 ^ 64 - 2)
    have h2 : (2 ^ 64 - 2) % 2 ≠ 1 := by norm_num
    have h3 : ¬ (p.pack &&& (2 ^ 64 - 2)) % 2 = 1 := fun hh => h2 (h.1 hh).2
    show (p.pack &&& (2 ^ 64 - 2)) % 2 = 0
    omega
  · exact lt_of_le_of_lt Nat.and_le_right (by norm_num)

theorem ContextPtr.isCross_or_one (c : Nat) : ContextPtr.isCross { pack := c ||| 1 } = true := by
  have h : (c ||| 1) &&& 1 = 1 := by
    rw [Nat.and_one_is_mod]
    exact Nat.or_mod_two_eq_one.2 (Or.inr rfl)
  simp [ContextPtr.isCross, h]

theorem ContextPtr.isCross_of_aligned (c : Nat) (h : aligned c) :
    ContextPtr.isCross { pack := c } = false := by
  simp [ContextPtr.isCross, Nat.and_one_is_mod, h.1]

theorem ContextPtr.setContext_cross (c : Nat) (rt : Runtime) (h : aligned c) :
    ((ContextPtr.setContext c rt).1.isCross = true ↔ c ≠ 0 ∧ c ≠ rt.currentContext) ∧
    (ContextPtr.setContext c rt).1.get = c := by
  unfold ContextPtr.setContext
  by_cases hc : c ≠ 0 ∧ c ≠ rt.currentContext
  · have : (c != 0 && c != rt.currentContext) = true := by simp [hc.1, hc.2]
    rw [if_pos this]
    exact ⟨by simp [ContextPtr.isCross_or_one, hc.1, hc.2], or_one_and_mask c h⟩
  · have : ¬ (c != 0 && c != rt.currentContext) = true := by
      simp only [Bool.and_eq_true, bne_iff_ne]; exact hc
    rw [if_neg this]
    exact ⟨by simp [ContextPtr.isCross_of_aligned c h, hc], and_mask_of_aligned c h⟩

theorem ContextPtr.setContext_effect (c : Nat) (rt : Runtime) (h : aligned c) (ctx : Nat) :
    (ContextPtr.setContext c rt).2.shared ctx
      = rt.shared ctx + crossTag ctx (some (ContextPtr.setContext c rt).1) ∧
    (ContextPtr.setContext c rt).2.currentContext = rt.currentContext := by
  unfold ContextPtr.setContext
  by_cases hc : (c != 0 && c != rt.currentContext) = true
  · rw [if_pos hc]
    simp only [crossTag, ContextPtr.isCross_or_one, ContextPtr.get, or_one_and_mask c h,
      Runtime.incShared, Bool.true_and]
    by_cases hx : ctx = c
    · subst hx; simp
    · have hx2 : ¬ c = ctx := fun e => hx e.symm
      simp [Function.update, hx, hx2]
  · rw [if_neg hc]
    simp [crossTag, ContextPtr.isCross_of_aligned c h]

theorem ContextPtr.release_effect (p : ContextPtr) (rt : Runtime) (ctx : Nat) :
    (p.release rt).2.shared ctx = rt.shared ctx - crossTag ctx (some p) ∧
    crossTag ctx (some (p.release rt).1) = 0 ∧
    (p.release rt).2.currentContext = rt.currentContext := by
  unfold ContextPtr.release
  by_cases hc : p.isCross = true
  · rw [if_pos hc]
    have h0 : ContextPtr.isCross { pack := 0 } = false := by decide
    simp only [crossTag, hc, h0, Runtime.decShared, Bool.true_and, Bool.false_and]
    by_cases hx : ctx = p.get
    · subst hx; simp
    · have hx2 : ¬ p.get = ctx := fun e => hx e.symm
      simp [Function.update, hx, hx2]
  · rw [if_neg hc]
    simp [crossTag, hc]

theorem ContextPtr.assign_distinct (x q : ContextPtr) (rt : Runtime)
    (hx : x.isCross = true → x.get ≠ 0 ∧ x.get ≠ rt.currentContext) :
    (ContextPtr.setContext q.get (x.release rt).2).1.get = q.get ∧
    rt.shared q.get ≤ (ContextPtr.setContext q.get (x.release rt).2).2.shared q.get := by
  have ha := ContextPtr.get_aligned q
  have h1 := ContextPtr.setContext_cross q.get (x.release rt).2 ha
  have h2 := (ContextPtr.setContext_effect q.get (x.release rt).2 ha q.get).1
  have h3 := ContextPtr.release_effect x rt q.get
  refine ⟨h1.2, ?_⟩
  rw [h2, h3.1]
  have hle : crossTag q.get (some x)
      ≤ crossTag q.get (some (ContextPtr.setContext q.get (x.release rt).2).1) := by
    by_cases hc : x.isCross = true ∧ x.get = q.get
    · obtain ⟨hne0, hnec⟩ := hx hc.1
      rw [hc.2] at hne0 hnec
      have hcross : (ContextPtr.setContext q.get (x.release rt).2).1.isCross = true :=
        h1.1.2 ⟨hne0, by rw [h3.2.2]; exact hnec⟩
      simp [crossTag, hc.1, hc.2, hcross, h1.2]
    · have h0 : crossTag q.get (some x) = 0 := by
        simp only [crossTag]
        rw [if_neg]
        simpa using hc
      rw [h0]
      simp only [crossTag]
      split_ifs <;> simp
  omega

end libbirch

namespace bi

/-! ## Lemmas on the position of the target -/

theorem Resumer.clone_foundYield (s : Statement Nat) (r : Resumer) :
    (Resumer.clone s r).2.foundYield = (r.foundYield || r.targetIn s) := by
  cases hf : r.foundYield with
  | true => simp [Resumer.clone_found s r hf, hf]
  | false =>
    simp only [Bool.false_or]
    induction s generalizing r with
    | Yield self single loc number =>
      cases hy : r.yield with
      | none => simp [Resumer.clone, hf, hy, Resumer.targetIn, Statement.reaches]
      | some y =>
        by_cases h : y.addr = self
        · simp [Resumer.clone, hf, hy, Resumer.targetIn, Statement.reaches, h]
        · have h2 : ¬ self = y.addr := fun e => h e.symm
          simp [Resumer.clone, hf, hy, Resumer.targetIn, Statement.reaches, h, h2]
    | StatementList head tail loc ih1 ih2 =>
      have h1 := ih1 r hf
      have hy1 := Resumer.clone_yield head r
      cases hh : (Resumer.clone head r).2.foundYield with
      | true =>
        have hs := Resumer.clone_found tail _ hh
        have : (Resumer.clone (.StatementList head tail loc) r).2 = (Resumer.clone head r).2 := by
          simp only [Resumer.clone]
          split_ifs <;> simp [hs]
        rw [this, hh]
        rw [hh] at h1
        simp [Resumer.targetIn, Statement.reaches] at h1 ⊢
        cases hy : r.yield with
        | none => simp [hy] at h1
        | some y => simp [hy] at h1 ⊢; simp [h1]
      | false =>
        have hs := Resumer.clone_not_found head r hh
        have h2 := ih2 r hf
        have : (Resumer.clone (.StatementList head tail loc) r).2 = (Resumer.clone tail r).2 := by
          simp only [Resumer.clone]
          split_ifs <;> simp [hs]
        rw [this, h2]
        rw [hh] at h1
        simp only [Resumer.targetIn, Statement.reaches] at h1 ⊢
        cases hy : r.yield with
        | none => rfl
        | some y => simp [hy] at h1 ⊢; simp [← h1]
    | If cond braces falseBraces loc ih1 ih2 =>
      have h1 := ih1 r hf
      cases hh : (Resumer.clone braces r).2.foundYield with
      | true =>
        have hs := Resumer.clone_found falseBraces _ hh
        have : (Resumer.clone (.If cond braces falseBraces loc) r).2
            = (Resumer.clone braces r).2 := by
          simp only [Resumer.clone]
          split_ifs <;> simp [hs]
        rw [this, hh]
        rw [hh] at h1
        simp only [Resumer.targetIn, Statement.reaches] at h1 ⊢
        cases hy : r.yield with
        | none => simp [hy] at h1
        | some y => simp [hy] at h1 ⊢; simp [← h1]
      | false =>
        have hs := Resumer.clone_not_found braces r hh
        have h2 := ih2 r hf
        have : (Resumer.clone (.If cond braces falseBraces loc) r).2
            = (Resumer.clone falseBraces r).2 := by
          simp only [Resumer.clone]
          split_ifs <;> simp [hs]
        rw [this, h2]
        rw [hh] at h1
        simp only [Resumer.targetIn, Statement.reaches] at h1 ⊢
        cases hy : r.yield with
        | none => rfl
        | some y => simp [hy] at h1 ⊢; simp [← h1]
    | While cond braces loc ih =>
      have h1 := ih r hf
      cases hh : (Resumer.clone braces r).2.foundYield with
      | true =>
        have hs := Resumer.clone_found braces _ hh
        have : (Resumer.clone (.While cond braces loc) r).2 = (Resumer.clone braces r).2 := by
          simp [Resumer.clone, hf, hh, hs]
        rw [this, hh]
        rw [hh] at h1
        simpa [Resumer.targetIn, Statement.reaches] using h1
      | false =>
        have : (Resumer.clone (.While cond braces loc) r).2 = (Resumer.clone braces r).2 := by
          simp [Resumer.clone, hf, hh]
        rw [this, hh]
        rw [hh] at h1
        simpa [Resumer.targetIn, Statement.reaches] using h1
    | DoWhile braces cond loc ih =>
      have h1 := ih r hf
      cases hh : (Resumer.clone braces r).2.foundYield with
      | true =>
        have hs := Resumer.clone_found braces _ hh
        have : (Resumer.clone (.DoWhile braces cond loc) r).2 = (Resumer.clone braces r).2 := by
          simp [Resumer.clone, hf, hh, hs]
        rw [this, hh]
        rw [hh] at h1
        simpa [Resumer.targetIn, Statement.reaches] using h1
      | false =>
        have : (Resumer.clone (.DoWhile braces cond loc) r).2 = (Resumer.clone braces r).2 := by
          simp [Resumer.clone, hf, hh]
        rw [this, hh]
        rw [hh] at h1
        simpa [Resumer.targetIn, Statement.reaches] using h1
    | Braces single loc ih =>
      have h1 := ih r hf
      have : (Resumer.clone (.Braces single loc) r).2 = (Resumer.clone single r).2 := by
        simp only [Resumer.clone]
        split_ifs <;> rfl
      rw [this, h1]
      simp [Resumer.targetIn, Statement.reaches]
    | Fiber a name tps ps rt braces loc ih =>
      simpa [Resumer.clone, Resumer.targetIn, Statement.reaches] using ih r hf
    | MemberFiber a name tps ps rt braces loc ih =>
      simpa [Resumer.clone, Resumer.targetIn, Statement.reaches] using ih r hf
    | Function a name tps ps rt braces loc number ih =>
      simpa [Resumer.clone, Resumer.targetIn, Statement.reaches] using ih r hf
    | MemberFunction a name tps ps rt braces loc number ih =>
      simpa [Resumer.clone, Resumer.targetIn, Statement.reaches] using ih r hf
    | _ =>
      cases hy : r.yield <;>
        simp [Resumer.clone, hf, hy, Resumer.targetIn, Statement.reaches]

theorem Resumer.clone_state_of (s : Statement Nat) (r : Resumer) (y : YieldPtr)
    (hf : r.foundYield = false) (hy : r.yield = some y) :
    (Resumer.clone s r).2 = if s.reaches y.addr then { r with foundYield := true } else r := by
  have h := Resumer.clone_foundYield s r
  simp only [hf, Bool.false_or, Resumer.targetIn, hy] at h
  rcases Resumer.clone_state s r with h1 | ⟨_, h2⟩
  · rw [h1, hf] at h
    rw [h1, ← h]
    simp
  · rw [h2] at h
    rw [h2, ← h]
    simp

theorem Statement.leaves_of_isEmpty {ι : Type} (s : Statement ι) (h : s.isEmpty = true) :
    s.leaves = [] := by
  cases s <;> simp_all [Statement.isEmpty, Statement.leaves]

theorem Resumer.leaves_clone_StatementList (head tail : Statement Nat) (loc : Location)
    (r : Resumer) :
    (Resumer.clone (.StatementList head tail loc) r).1.leaves
      = (Resumer.clone head r).1.leaves
        ++ (Resumer.clone tail (Resumer.clone head r).2).1.leaves := by
  simp only [Resumer.clone]
  cases h1 : (Resumer.clone head r).1.isEmpty with
  | true =>
    have e1 := Statement.leaves_of_isEmpty _ h1
    cases h2 : (Resumer.clone tail (Resumer.clone head r).2).1.isEmpty with
    | true => simp [Statement.leaves, e1, Statement.leaves_of_isEmpty _ h2]
    | false => simp [Statement.leaves, e1]
  | false =>
    cases h2 : (Resumer.clone tail (Resumer.clone head r).2).1.isEmpty with
    | true => simp [Statement.leaves, Statement.leaves_of_isEmpty _ h2]
    | false => simp [Statement.leaves]

theorem Resumer.leaves_clone_found (s : Statement Nat) (r : Resumer)
    (hf : r.foundYield = true) :
    (Resumer.clone s r).1.leaves = (Cloner.clone s).leaves := by
  induction s generalizing r with
  | StatementList head tail loc ih1 ih2 =>
    rw [Resumer.leaves_clone_StatementList, Resumer.clone_found head r hf, ih1 r hf, ih2 r hf]
    simp [Cloner.clone, Statement.leaves]
  | If cond braces falseBraces loc ih1 ih2 =>
    simp [Resumer.clone, hf, Resumer.clone_found braces r hf, Cloner.clone, Statement.leaves,
      ih1 r hf, ih2 r hf]
  | _ =>
    simp_all [Resumer.clone, Cloner.clone, Statement.leaves, Resumer.clone_found]

theorem Resumer.leaves_clone (s : Statement Nat) (r : Resumer) (y : YieldPtr)
    (hf : r.foundYield = false) (hy : r.yield = some y) :
    (Resumer.clone s r).1.leaves
      = if s.reaches y.addr then s.carried y.addr ++ s.following y.addr
        else s.carried y.addr := by
  induction s generalizing r with
  | Yield self single loc number =>
    by_cases h : y.addr = self
    · simp [Resumer.clone, hf, hy, Statement.reaches, h, Statement.leaves, Statement.carried,
        Statement.following]
    · have h2 : ¬ self = y.addr := fun e => h e.symm
      simp [Resumer.clone, hf, hy, Statement.reaches, h, h2, Statement.leaves,
        Statement.carried]
  | StatementList head tail loc ih1 ih2 =>
    rw [Resumer.leaves_clone_StatementList, ih1 r hf hy, Resumer.clone_state_of head r y hf hy]
    cases hh : head.reaches y.addr with
    | true =>
      simp only [if_true]
      rw [Resumer.leaves_clone_found tail _ rfl]
      simp [Statement.reaches, hh, Statement.carried, Statement.following]
    | false =>
      simp only [Bool.false_eq_true, if_false]
      rw [ih2 r hf hy]
      cases ht : tail.reaches y.addr <;>
        simp [Statement.reaches, hh, ht, Statement.carried, Statement.following]
  | Braces single loc ih =>
    have hs := Resumer.clone_state_of single r y hf hy
    cases hh : single.reaches y.addr with
    | true =>
      rw [hh] at hs
      have := ih r hf hy
      simp only [hh, if_true] at this
      simp [Resumer.clone, hs, Statement.leaves, this, Statement.reaches, hh, Statement.carried,
        Statement.following]
    | false =>
      rw [hh] at hs
      simp [Resumer.clone, hs, hf, Statement.leaves, Statement.reaches, hh, Statement.carried]
  | If cond braces falseBraces loc ih1 ih2 =>
    have hs := Resumer.clone_state_of braces r y hf hy
    cases hh : braces.reaches y.addr with
    | true =>
      rw [hh] at hs
      have := ih1 r hf hy
      simp only [hh, if_true] at this
      simp [Resumer.clone, hs, hf, this, Statement.reaches, hh, Statement.carried,
        Statement.following]
    | false =>
      rw [hh] at hs
      have hs2 := Resumer.clone_state_of falseBraces r y hf hy
      have h2 := ih2 r hf hy
      cases ht : falseBraces.reaches y.addr with
      | true =>
        rw [ht] at hs2
        simp only [ht, if_true] at h2
        simp [Resumer.clone, hs, hs2, hf, h2, Statement.reaches, hh, ht, Statement.carried,
          Statement.following]
      | false =>
        rw [ht] at hs2
        simp [Resumer.clone, hs, hs2, hf, Statement.leaves, Statement.reaches, hh, ht,
          Statement.carried]
  | While cond braces loc ih =>
    have hs := Resumer.clone_state_of braces r y hf hy
    have h1 := ih r hf hy
    cases hh : braces.reaches y.addr with
    | true =>
      rw [hh] at hs
      simp only [hh, if_true] at h1
      have h3 := Resumer.leaves_clone_found braces { r with foundYield := true } rfl
      simp [Resumer.clone, hs, hf, Statement.leaves, h1, h3, Statement.reaches, hh,
        Statement.carried, Statement.following]
    | false =>
      rw [hh] at hs
      simp [Resumer.clone, hs, hf, Statement.leaves, Statement.reaches, hh, Statement.carried]
  | DoWhile braces cond loc ih =>
    have hs := Resumer.clone_state_of braces r y hf hy
    have h1 := ih r hf hy
    cases hh : braces.reaches y.addr with
    | true =>
      rw [hh] at hs
      simp only [hh, if_true] at h1
      have h3 := Resumer.leaves_clone_found braces { r with foundYield := true } rfl
      simp [Resumer.clone, hs, hf, Statement.leaves, h1, h3, Statement.reaches, hh,
        Statement.carried, Statement.following]
    | false =>
      rw [hh] at hs
      simp [Resumer.clone, hs, hf, Statement.leaves, Statement.reaches, hh, Statement.carried]
  | Fiber a name tps ps rt braces loc ih =>
    simpa [Resumer.clone, Statement.leaves, Statement.reaches, Statement.carried,
      Statement.following] using ih r hf hy
  | MemberFiber a name tps ps rt braces loc ih =>
    simpa [Resumer.clone, Statement.leaves, Statement.reaches, Statement.carried,
      Statement.following] using ih r hf hy
  | Function a name tps ps rt braces loc number ih =>
    simpa [Resumer.clone, Statement.leaves, Statement.reaches, Statement.carried,
      Statement.following] using ih r hf hy
  | MemberFunction a name tps ps rt braces loc number ih =>
    simpa [Resumer.clone, Statement.leaves, Statement.reaches, Statement.carried,
      Statement.following] using ih r hf hy
  | _ =>
    simp [Resumer.clone, hf, Statement.leaves, Statement.reaches, Statement.carried,
      LocalVariable.bare]

theorem Cloner.leaves_copy {ι : Type} (s : Statement ι) :
    (Cloner.clone s).leaves = s.leaves.map Cloner.clone := by
  induction s <;> simp_all [Cloner.clone, Statement.leaves]

theorem Statement.reaches_leaf (s : Statement Nat) (p : Nat) (h : s.reaches p = true) :
    ∃ x ∈ s.leaves, (!x.isYieldAt p) = false := by
  induction s with
  | Yield self single loc number =>
    exact ⟨.Yield self single loc number, by simp [Statement.leaves],
      by simpa [Statement.isYieldAt, Statement.reaches] using h⟩
  | StatementList head tail loc ih1 ih2 =>
    simp only [Statement.reaches, Bool.or_eq_true] at h
    rcases h with h | h
    · obtain ⟨x, hx, hq⟩ := ih1 h
      exact ⟨x, by simp [Statement.leaves, hx], hq⟩
    · obtain ⟨x, hx, hq⟩ := ih2 h
      exact ⟨x, by simp [Statement.leaves, hx], hq⟩
  | If cond braces falseBraces loc ih1 ih2 =>
    simp only [Statement.reaches, Bool.or_eq_true] at h
    rcases h with h | h
    · obtain ⟨x, hx, hq⟩ := ih1 h
      exact ⟨x, by simp [Statement.leaves, hx], hq⟩
    · obtain ⟨x, hx, hq⟩ := ih2 h
      exact ⟨x, by simp [Statement.leaves, hx], hq⟩
  | Braces single loc ih => simpa [Statement.leaves] using ih (by simpa [Statement.reaches] using h)
  | While cond braces loc ih =>
    simpa [Statement.leaves] using ih (by simpa [Statement.reaches] using h)
  | DoWhile braces cond loc ih =>
    simpa [Statement.leaves] using ih (by simpa [Statement.reaches] using h)
  | Fiber a name tps ps rt braces loc ih =>
    simpa [Statement.leaves] using ih (by simpa [Statement.reaches] using h)
  | MemberFiber a name tps ps rt braces loc ih =>
    simpa [Statement.leaves] using ih (by simpa [Statement.reaches] using h)
  | Function a name tps ps rt braces loc number ih =>
    simpa [Statement.leaves] using ih (by simpa [Statement.reaches] using h)
  | MemberFunction a name tps ps rt braces loc number ih =>
    simpa [Statement.leaves] using ih (by simpa [Statement.reaches] using h)
  | _ => simp [Statement.reaches] at h

theorem drop_dropWhile_append_of_stop {α : Type} (q : α → Bool) (a b : List α)
    (h : ∃ x ∈ a, q x = false) :
    ((a ++ b).dropWhile q).drop 1 = (a.dropWhile q).drop 1 ++ b := by
  induction a with
  | nil => simp at h
  | cons x rest ih =>
    cases hx : q x with
    | false => simp [List.dropWhile_cons, hx]
    | true =>
      obtain ⟨z, hz, hq⟩ := h
      have hz2 : z ∈ rest := by
        rcases List.mem_cons.1 hz with rfl | h2
        · rw [hx] at hq; exact absurd hq (by simp)
        · exact h2
      simp only [List.cons_append, List.dropWhile_cons, hx, if_true]
      exact ih ⟨z, hz2, hq⟩

theorem drop_dropWhile_suffix {α : Type} (q : α → Bool) (a b : List α) :
    (b.dropWhile q).drop 1 <:+ ((a ++ b).dropWhile q).drop 1 := by
  induction a with
  | nil => exact List.suffix_refl _
  | cons x rest ih =>
    cases hx : q x with
    | true =>
      simp only [List.cons_append, List.dropWhile_cons, hx, if_true]
      exact ih
    | false =>
      simp only [List.cons_append, List.dropWhile_cons, hx, Bool.false_eq_true, if_false,
        List.drop_one, List.tail_cons]
      exact ((List.tail_suffix _).trans (List.dropWhile_suffix q)).trans
        (List.suffix_append rest b)

theorem Statement.following_sublist (s : Statement Nat) (p : Nat)
    (hl : s.loopAround p = false) (hr : s.reaches p = true) :
    List.Sublist (s.following p) (s.leavesAfter p) := by
  induction s with
  | StatementList head tail loc ih1 ih2 =>
    simp only [Statement.loopAround, Bool.or_eq_false_iff] at hl
    simp only [Statement.leavesAfter, Statement.leaves, Statement.following]
    cases hh : head.reaches p with
    | true =>
      simp only [if_true]
      rw [drop_dropWhile_append_of_stop _ _ _ (Statement.reaches_leaf head p hh), List.map_append,
        Cloner.leaves_copy]
      exact List.Sublist.append (ih1 hl.1 hh) (List.Sublist.refl _)
    | false =>
      have ht : tail.reaches p = true := by simpa [Statement.reaches, hh] using hr
      simp only [Bool.false_eq_true, if_false]
      exact (ih2 hl.2 ht).trans ((drop_dropWhile_suffix _ _ _).sublist.map _)
  | If cond braces falseBraces loc ih1 ih2 =>
    simp only [Statement.loopAround, Bool.or_eq_false_iff] at hl
    simp only [Statement.leavesAfter, Statement.leaves, Statement.following]
    cases hh : braces.reaches p with
    | true =>
      simp only [if_true]
      rw [drop_dropWhile_append_of_stop _ _ _ (Statement.reaches_leaf braces p hh),
        List.map_append]
      exact (ih1 hl.1 hh).trans (List.sublist_append_left _ _)
    | false =>
      have ht : falseBraces.reaches p = true := by simpa [Statement.reaches, hh] using hr
      simp only [Bool.false_eq_true, if_false]
      exact (ih2 hl.2 ht).trans ((drop_dropWhile_suffix _ _ _).sublist.map _)
  | Braces single loc ih =>
    exact ih (by simpa [Statement.loopAround] using hl) (by simpa [Statement.reaches] using hr)
  | Fiber a name tps ps rt braces loc ih =>
    exact ih (by simpa [Statement.loopAround] using hl) (by simpa [Statement.reaches] using hr)
  | MemberFiber a name tps ps rt braces loc ih =>
    exact ih (by simpa [Statement.loopAround] using hl) (by simpa [Statement.reaches] using hr)
  | Function a name tps ps rt braces loc number ih =>
    exact ih (by simpa [Statement.loopAround] using hl) (by simpa [Statement.reaches] using hr)
  | MemberFunction a name tps ps rt braces loc number ih =>
    exact ih (by simpa [Statement.loopAround] using hl) (by simpa [Statement.reaches] using hr)
  | While cond braces loc ih =>
    simp only [Statement.loopAround] at hl
    simp only [Statement.reaches] at hr
    rw [hl] at hr
    exact absurd hr (by simp)
  | DoWhile braces cond loc ih =>
    simp only [Statement.loopAround] at hl
    simp only [Statement.reaches] at hr
    rw [hl] at hr
    exact absurd hr (by simp)
  | _ => simp [Statement.following]

theorem Statement.carried_sublist (s : Statement Nat) (p : Nat) :
    List.Sublist (s.carried p) (s.leaves.filterMap Statement.bareOf) := by
  induction s with
  | LocalVariable a name type brackets args value loc number =>
    simp [Statement.carried, Statement.leaves, Statement.bareOf]
  | StatementList head tail loc ih1 ih2 =>
    simp only [Statement.carried, Statement.leaves, List.filterMap_append]
    split_ifs
    · exact ih1.trans (List.sublist_append_left _ _)
    · exact ih1.append ih2
  | If cond braces falseBraces loc ih1 ih2 =>
    simp only [Statement.carried, Statement.leaves, List.filterMap_append]
    split_ifs
    · exact ih1.trans (List.sublist_append_left _ _)
    · exact ih2.trans (List.sublist_append_right _ _)
    · exact List.nil_sublist _
  | Braces single loc ih =>
    simp only [Statement.carried, Statement.leaves]
    split_ifs
    · exact ih
    · exact List.nil_sublist _
  | While cond braces loc ih =>
    simp only [Statement.carried, Statement.leaves]
    split_ifs
    · exact ih
    · exact List.nil_sublist _
  | DoWhile braces cond loc ih =>
    simp only [Statement.carried, Statement.leaves]
    split_ifs
    · exact ih
    · exact List.nil_sublist _
  | Fiber a name tps ps rt braces loc ih => exact ih
  | MemberFiber a name tps ps rt braces loc ih => exact ih
  | Function a name tps ps rt braces loc number ih => exact ih
  | MemberFunction a name tps ps rt braces loc number ih => exact ih
  | _ => simp [Statement.carried]

theorem Resumer.clone_Braces_nonempty (single : Statement Nat) (l : Location) (r : Resumer)
    (h : (Resumer.clone (.Braces single l) r).2.foundYield = true) :
    (Resumer.clone (.Braces single l) r).1.isEmpty = false := by
  by_cases hc : (Resumer.clone single r).2.foundYield = true
  · simp [Resumer.clone, hc, Statement.isEmpty]
  · simp only [Resumer.clone] at h
    split_ifs at h
    exact absurd h hc

theorem Resumer.clone_properList (s : Statement Nat) (r : Resumer)
    (h : s.blockLoops = true) : (Resumer.clone s r).1.properList = true := by
  induction s generalizing r with
  | StatementList head tail loc ih1 ih2 =>
    simp only [Statement.blockLoops, Bool.and_eq_true] at h
    have h1 := ih1 r h.1
    have h2 := ih2 (Resumer.clone head r).2 h.2
    simp only [Resumer.clone]
    split_ifs with hc
    · simpa [Statement.properList] using hc
    · exact h1
    · exact h2
    · rfl
  | If cond braces falseBraces loc ih1 ih2 =>
    simp only [Statement.blockLoops, Bool.and_eq_true] at h
    have h1 := ih1 r h.1
    have h2 := ih2 (Resumer.clone braces r).2 h.2
    simp only [Resumer.clone]
    split_ifs
    · rfl
    · exact h1
    · exact h2
    · rfl
  | While cond braces loc ih =>
    simp only [Statement.blockLoops, Bool.and_eq_true] at h
    cases braces with
    | Braces single l =>
      rw [Resumer.clone]
      dsimp only
      split_ifs with hb ha
      · rfl
      · have hne := Resumer.clone_Braces_nonempty single l r ha
        rw [Statement.properList, hne]
        rfl
      · rfl
    | _ => simp [Statement.isBraces] at h
  | DoWhile braces cond loc ih =>
    simp only [Statement.blockLoops, Bool.and_eq_true] at h
    cases braces with
    | Braces single l =>
      rw [Resumer.clone]
      dsimp only
      split_ifs with hb ha
      · rfl
      · have hne := Resumer.clone_Braces_nonempty single l r ha
        rw [Statement.properList, hne]
        rfl
      · rfl
    | _ => simp [Statement.isBraces] at h
  | _ =>
    simp only [Resumer.clone]
    (try split_ifs) <;> rfl

/-! ## Lemmas on the double dispatch of expressions -/

theorem ExpressionModel.definitely_const {α : Type} (m : ExpressionModel α) (fuel : Nat)
    (self o : α) (h : (m.classOf o).constOverload = true) :
    m.definitely (fuel + 1) self o = some (m.definitelyOverload self o) := by
  simp [ExpressionModel.definitely, ExpressionModel.dispatchDefinitely, h]

theorem ExpressionModel.definitely_not_const {α : Type} (m : ExpressionModel α) (fuel : Nat)
    (self o : α) (h : (m.classOf o).constOverload = false) :
    m.definitely fuel self o = none := by
  induction fuel with
  | zero => rfl
  | succ n ih => simp [ExpressionModel.definitely, ExpressionModel.dispatchDefinitely, h, ih]

theorem ExpressionModel.eq_not_const {α : Type} (m : ExpressionModel α) (fuel : Nat)
    (self o : α) (h : (m.classOf o).constOverload = false) :
    m.eq fuel self o = none ∧ m.ne fuel self o = none := by
  simp [ExpressionModel.eq, ExpressionModel.ne, ExpressionModel.definitely_not_const m fuel self o h]

theorem ExpressionModel.eq_const {α : Type} (m : ExpressionModel α) (fuel : Nat) (a b : α)
    (ha : (m.classOf a).constOverload = true) (hb : (m.classOf b).constOverload = true) :
    m.eq (fuel + 1) a b = some (m.definitelyOverload a b && m.definitelyOverload b a) ∧
    m.eq (fuel + 1) a b = m.eq (fuel + 1) b a ∧
    m.ne (fuel + 1) a b = some (!(m.definitelyOverload a b && m.definitelyOverload b a)) ∧
    (m.overrides (m.classOf a) (m.classOf b) = none →
      m.eq (fuel + 1) a b = some false ∧ m.eq (fuel + 1) b a = some false) := by
  have h1 := ExpressionModel.definitely_const m fuel a b hb
  have h2 := ExpressionModel.definitely_const m fuel b a ha
  have e1 : m.eq (fuel + 1) a b = some (m.definitelyOverload a b && m.definitelyOverload b a) := by
    simp only [ExpressionModel.eq, h1, h2]
    cases m.definitelyOverload a b <;> simp
  have e2 : m.eq (fuel + 1) b a = some (m.definitelyOverload b a && m.definitelyOverload a b) := by
    simp only [ExpressionModel.eq, h1, h2]
    cases m.definitelyOverload b a <;> simp
  refine ⟨e1, by rw [e1, e2, Bool.and_comm], by simp [ExpressionModel.ne, e1], fun h => ?_⟩
  have hf : m.definitelyOverload a b = false := by
    simp [ExpressionModel.definitelyOverload, h, ExpressionModel.definitelyBase]
  rw [e1, e2, hf]
  simp

/-! ## The properties of the specification -/

/-- Claim C1: for the fiber body `{ A; yield; B; yield; C }` (A, B, C expression
statements, the two Yield nodes distinct objects), run under the model that
executes statements in order and suspends at the first Yield reached: the
start body performs exactly A and suspends at yield 1, the body for target
yield 1 performs exactly B and suspends at yield 2, the body for target yield
2 performs exactly C and completes; run in turn they perform A, B, C once each
in that order, the same as `{ A; B; C }` without suspension. Any fuel of at
least 4 is enough. -/
theorem Resumer.straight_line_bodies {σ : Type} (m : Machine σ) (a b c v1 v2 : Expression)
    (p1 p2 n1 n2 : Nat) (loc : Nat → Location) (fuel : Nat) (s : σ)
    (hp : p1 ≠ p2) (hf : 4 ≤ fuel) :
    let body := straightBody a b c v1 v2 p1 p2 n1 n2 loc
    let start := resumeBody none body
    let resume1 := resumeBody (some ⟨p1, n1⟩) body
    let resume2 := resumeBody (some ⟨p2, n2⟩) body
    exec m fuel start s = (m.effect a s, .suspended n1) ∧
    exec m fuel resume1 s = (m.effect b s, .suspended n2) ∧
    exec m fuel resume2 s = (m.effect c s, .completed) ∧
    exec m fuel resume2 (exec m fuel resume1 (exec m fuel start s).1).1
      = (m.effect c (m.effect b (m.effect a s)), .completed) ∧
    exec m fuel resume2 (exec m fuel resume1 (exec m fuel start s).1).1
      = exec m fuel
          (.Braces (.StatementList (.ExpressionStatement a (loc 1))
            (.StatementList (.ExpressionStatement b (loc 3)) (.ExpressionStatement c (loc 5))
              (loc 8)) (loc 6)) (loc 0) : Statement Unit) s ∧
    (exec traceMachine fuel resume2
      (exec traceMachine fuel resume1 (exec traceMachine fuel start []).1).1).1 = [a, b, c] := by
  obtain ⟨k, rfl⟩ : ∃ k, fuel = k + 4 := ⟨fuel - 4, by omega⟩
  have hp' : ¬ p2 = p1 := fun h => hp h.symm
  simp [resumeBody, straightBody, Resumer.clone, Resumer.new, Statement.isEmpty, exec,
    Cloner.clone, Cloner.cloneExpression, hp', traceMachine]

theorem Resumer.straight_line_bodies_witness :
    exec traceMachine 4
      (resumeBody none (straightBody (.Source "A" 1) (.Source "B" 3) (.Source "C" 5)
        (.Source "v" 2) (.Source "w" 4) 10 20 1 2 id)) []
      = ([.Source "A" 1], .suspended 1) :=
  (Resumer.straight_line_bodies traceMachine (.Source "A" 1) (.Source "B" 3) (.Source "C" 5)
    (.Source "v" 2) (.Source "w" 4) 10 20 1 2 id 4 [] (by decide) (by decide)).1

/-- Claim C2: cloning `while (cond) { X; yield; Y }` with that yield as target
and `foundYield` false on entry returns `{ Y }` followed by
`while (cond) { X; yield; Y }`, the loop body in full with the target kept as a
Yield carrying its number, and leaves `foundYield` true. Run, the result
performs Y once, then evaluates `cond`, and if it holds performs X and
suspends at the yield, otherwise completes. Any fuel of at least 6 is
enough. -/
theorem Resumer.while_resumed {σ : Type} (m : Machine σ) (cond x v y : Expression)
    (p n : Nat) (loc : Nat → Location) (l : Location) (fuel : Nat) (s : σ) (hf : 6 ≤ fuel) :
    let r : Resumer := { yield := some ⟨p, n⟩, foundYield := false }
    let out := Resumer.clone (.While cond (whileBody x v y p n loc) l) r
    out = (.StatementList
            (.Braces (.ExpressionStatement y (loc 3)) (loc 0))
            (.While cond
              (.Braces
                (.StatementList (.ExpressionStatement x (loc 1))
                  (.StatementList (.Yield () v (loc 2) n) (.ExpressionStatement y (loc 3))
                    (loc 5))
                  (loc 4))
                (loc 0)) l) l,
           { yield := some ⟨p, n⟩, foundYield := true }) ∧
    exec m fuel out.1 s =
      (if (m.cond cond (m.effect y s)).1
        then (m.effect x (m.cond cond (m.effect y s)).2, .suspended n)
        else ((m.cond cond (m.effect y s)).2, .completed)) := by
  obtain ⟨k, rfl⟩ : ∃ k, fuel = k + 6 := ⟨fuel - 6, by omega⟩
  have hout : Resumer.clone (.While cond (whileBody x v y p n loc) l)
      { yield := some ⟨p, n⟩, foundYield := false } =
      (.StatementList
            (.Braces (.ExpressionStatement y (loc 3)) (loc 0))
            (.While cond
              (.Braces
                (.StatementList (.ExpressionStatement x (loc 1))
                  (.StatementList (.Yield () v (loc 2) n) (.ExpressionStatement y (loc 3))
                    (loc 5))
                  (loc 4))
                (loc 0)) l) l,
           { yield := some ⟨p, n⟩, foundYield := true }) := by
    simp [whileBody, Resumer.clone, Statement.isEmpty, Cloner.clone, Cloner.cloneExpression]
  intro r out
  have hout2 : out = _ := hout
  rw [hout2]
  refine ⟨rfl, ?_⟩
  by_cases h : (m.cond cond (m.effect y s)).1 = true <;> simp [exec, h]

theorem Resumer.while_resumed_witness :
    exec traceMachine 6
      (Resumer.clone (.While (.Source "c" 0) (whileBody (.Source "X" 1) (.Source "v" 2)
        (.Source "Y" 3) 10 1 id) 0) { yield := some ⟨10, 1⟩, foundYield := false }).1 []
      = ([.Source "Y" 3], .completed) :=
  (Resumer.while_resumed traceMachine (.Source "c" 0) (.Source "X" 1) (.Source "v" 2)
    (.Source "Y" 3) 10 1 id 0 6 [] (by decide)).2

/-- Claim C3, as amended: for every straight-line fiber body (expression
statements and yields), the start body is the clone of the whole body, and
the body for a target yield consists of the clones of all statements that
follow the target up to the end of the function, in order, later yields kept
as Yield statements; nothing at or before the target appears in it. Run, each
body performs the statements from its beginning up to the next yield and
suspends there, or completes at the end of the function. -/
theorem Resumer.straight_line_remainder (items : List (Statement Nat × Location))
    (l0 : Location) (hs : ∀ x ∈ items, x.1.isStraight = true) (hne : items ≠ []) :
    resumeBody none (.Braces (sequence items) l0) = Cloner.clone (.Braces (sequence items) l0) ∧
    (∀ {σ : Type} (m : Machine σ) (fuel : Nat) (s : σ), items.length + 2 ≤ fuel →
      exec m fuel (resumeBody none (.Braces (sequence items) l0)) s
        = runItems m (items.map Prod.fst) s) ∧
    ∀ (pre post : List (Statement Nat × Location)) (y : Statement Nat × Location) (p n : Nat),
      items = pre ++ y :: post → y.1.isYieldAt p = true →
      (∀ x ∈ pre, x.1.isYieldAt p = false) →
      (resumeBody (some ⟨p, n⟩) (.Braces (sequence items) l0)).leaves
          = post.map (fun x => Cloner.clone x.1) ∧
      (post ≠ [] → resumeBody (some ⟨p, n⟩) (.Braces (sequence items) l0)
          = Cloner.clone (.Braces (sequence post) l0)) ∧
      (∀ {σ : Type} (m : Machine σ) (fuel : Nat) (s : σ), post.length + 2 ≤ fuel →
        exec m fuel (resumeBody (some ⟨p, n⟩) (.Braces (sequence items) l0)) s
          = runItems m (post.map Prod.fst) s) := by
  have hstart : resumeBody none (.Braces (sequence items) l0)
      = Cloner.clone (.Braces (sequence items) l0) := by
    have h := Resumer.clone_sequence_found items (Resumer.new none) hne hs rfl
    simp only [resumeBody, Resumer.clone, h]
    simp [Cloner.clone, Resumer.new]
  refine ⟨hstart, ?_, ?_⟩
  · intro σ m fuel s hfuel
    obtain ⟨k, rfl⟩ : ∃ k, fuel = k + 1 := ⟨fuel - 1, by omega⟩
    rw [hstart]
    simp only [Cloner.clone, exec]
    exact exec_clone_sequence m items k s hs (by omega)
  · intro pre post y p n hitems hy hpre
    subst hitems
    have h := Resumer.clone_sequence_target pre post y (Resumer.new (some ⟨p, n⟩)) p n hs rfl rfl
      hpre hy
    have hpost : ∀ x ∈ post, x.1.isStraight = true :=
      fun w hw => hs w (by simp at hw ⊢; exact Or.inr (Or.inr hw))
    have hstruct : post ≠ [] → resumeBody (some ⟨p, n⟩) (.Braces (sequence (pre ++ y :: post)) l0)
          = Cloner.clone (.Braces (sequence post) l0) := by
      intro hp
      simp only [resumeBody, Resumer.clone, h.1 hp]
      simp [Cloner.clone]
    refine ⟨?_, hstruct, ?_⟩
    · by_cases hp : post = []
      · obtain ⟨l, hl⟩ := h.2 hp
        simp only [resumeBody, Resumer.clone, hl]
        simp [hp, Statement.leaves]
      · rw [hstruct hp]
        simpa [Cloner.clone, Statement.leaves] using leaves_clone_sequence post hpost
    · intro σ m fuel s hfuel
      obtain ⟨k, rfl⟩ : ∃ k, fuel = k + 1 := ⟨fuel - 1, by omega⟩
      by_cases hp : post = []
      · obtain ⟨l, hl⟩ := h.2 hp
        obtain ⟨j, rfl⟩ : ∃ j, k = j + 1 := ⟨k - 1, by omega⟩
        simp only [resumeBody, Resumer.clone, hl]
        simp [hp, exec, runItems]
      · rw [hstruct hp]
        simp only [Cloner.clone, exec]
        exact exec_clone_sequence m post k s hpost (by omega)

theorem Resumer.straight_line_remainder_witness :
    (resumeBody (some ⟨10, 1⟩) exampleBody).leaves
      = [.ExpressionStatement (.Source "B" 3) 3, .Yield () (.Source "w" 4) 4 2,
         .ExpressionStatement (.Source "C" 5) 5] :=
  ((Resumer.straight_line_remainder exampleItems 0 (by decide) (by decide)).2.2
    [(.ExpressionStatement (.Source "A" 1) 1, 6)]
    [(.ExpressionStatement (.Source "B" 3) 3, 8), (.Yield 20 (.Source "w" 4) 4 2, 9),
     (.ExpressionStatement (.Source "C" 5) 5, 0)]
    (.Yield 10 (.Source "v" 2) 2 1, 7) 10 1 rfl rfl (by decide)).1

/-- Claim C3 fails as stated: in `{ A; yield; B; yield; C }` the start body
contains B, which follows the first yield, and the body for yield 1 contains
C, which follows yield 2; neither is among the statements up to the next
yield that the claim allows. -/
theorem Resumer.straight_line_segment_counterexample :
    (.ExpressionStatement (.Source "B" 3) 3 ∈ (resumeBody none exampleBody).leaves ∧
      .ExpressionStatement (.Source "B" 3) 3 ∉ specSegment none (exampleItems.map Prod.fst)) ∧
    (.ExpressionStatement (.Source "C" 5) 5 ∈ (resumeBody (some ⟨10, 1⟩) exampleBody).leaves ∧
      .ExpressionStatement (.Source "C" 5) 5
        ∉ specSegment (some 10) (exampleItems.map Prod.fst)) := by
  decide

/-- Claim C4: cloning an If. With `foundYield` true on entry the result is an
If of the cloned condition and both branches cloned in full (for plain
branches, the Cloner's copy of the whole If). Otherwise, if the
target is found in the true branch the result is exactly the clone of the true
branch; otherwise, if it is found in the false branch the result is exactly
the clone of the false branch; otherwise the result is an EmptyStatement and
`foundYield` is still false. -/
theorem Resumer.clone_If (cond : Expression) (t f : Statement Nat) (loc : Location)
    (r : Resumer) :
    (r.foundYield = true →
      Resumer.clone (.If cond t f loc) r
        = (.If (Cloner.cloneExpression cond) (Resumer.clone t r).1 (Resumer.clone f r).1 loc,
            r) ∧
      (t.isPlain = true → f.isPlain = true →
        (Resumer.clone (.If cond t f loc) r).1 = Cloner.clone (.If cond t f loc))) ∧
    (r.foundYield = false → (Resumer.clone t r).2.foundYield = true →
      Resumer.clone (.If cond t f loc) r = Resumer.clone t r) ∧
    (r.foundYield = false → (Resumer.clone t r).2.foundYield = false →
      (Resumer.clone f r).2.foundYield = true →
      Resumer.clone (.If cond t f loc) r = Resumer.clone f r) ∧
    (r.foundYield = false → (Resumer.clone t r).2.foundYield = false →
      (Resumer.clone f r).2.foundYield = false →
      Resumer.clone (.If cond t f loc) r = (.EmptyStatement loc, r)) := by
  refine ⟨fun h => ⟨?_, fun h1 h2 => ?_⟩, fun h ht => ?_, fun h ht hf => ?_, fun h ht hf => ?_⟩
  · simp [Resumer.clone, h, Resumer.clone_found t r h, Resumer.clone_found f r h]
  · simp [Resumer.clone, h, Resumer.clone_plain t r h1 h, Resumer.clone_plain f r h2 h,
      Cloner.clone]
  · have hs := Resumer.clone_found f _ ht
    simp [Resumer.clone, h, ht, hs]
  · have hs := Resumer.clone_not_found t r ht
    simp [Resumer.clone, h, hs, hf]
  · have hs := Resumer.clone_not_found t r ht
    have hs2 := Resumer.clone_not_found f r hf
    simp [Resumer.clone, h, hs, hf, hs2]

theorem Resumer.clone_If_witness :
    Resumer.clone (.If (.Source "c" 0) (.Braces (.StatementList (.Yield 10 (.Source "v" 1) 1 1)
        (.ExpressionStatement (.Source "B" 2) 2) 3) 4)
        (.Braces (.ExpressionStatement (.Source "C" 5) 5) 6) 7)
      { yield := some ⟨10, 1⟩, foundYield := false }
    = (.Braces (.ExpressionStatement (.Source "B" 2) 2) 4,
        { yield := some ⟨10, 1⟩, foundYield := true }) :=
  (Resumer.clone_If (.Source "c" 0) (.Braces (.StatementList (.Yield 10 (.Source "v" 1) 1 1)
        (.ExpressionStatement (.Source "B" 2) 2) 3) 4)
        (.Braces (.ExpressionStatement (.Source "C" 5) 5) 6) 7
      { yield := some ⟨10, 1⟩, foundYield := false }).2.1 rfl rfl

/-- Claim C5: cloning a DoWhile. With `foundYield` true on entry the result is a
DoWhile of the cloned body and condition. When the target is first found
inside the body, the result is the partially cloned first iteration followed
by a While (not a DoWhile) of the cloned condition and of the body cloned in
full, which for a plain body is the Cloner's copy of it. When the target is
not found the result is an EmptyStatement. -/
theorem Resumer.clone_DoWhile (braces : Statement Nat) (cond : Expression) (loc : Location)
    (r : Resumer) :
    (r.foundYield = true →
      Resumer.clone (.DoWhile braces cond loc) r
        = (.DoWhile (Resumer.clone braces r).1 (Cloner.cloneExpression cond) loc, r)) ∧
    (r.foundYield = false → (Resumer.clone braces r).2.foundYield = true →
      Resumer.clone (.DoWhile braces cond loc) r
        = (.StatementList (Resumer.clone braces r).1
            (.While (Cloner.cloneExpression cond)
              (Resumer.clone braces { r with foundYield := true }).1 loc) loc,
           { r with foundYield := true }) ∧
      (braces.isPlain = true →
        (Resumer.clone braces { r with foundYield := true }).1 = Cloner.clone braces)) ∧
    (r.foundYield = false → (Resumer.clone braces r).2.foundYield = false →
      Resumer.clone (.DoWhile braces cond loc) r = (.EmptyStatement loc, r)) := by
  refine ⟨fun h => ?_, fun h hb => ⟨?_, fun hp => ?_⟩, fun h hb => ?_⟩
  · simp [Resumer.clone, h, Resumer.clone_found braces r h]
  · have hs : (Resumer.clone braces r).2 = { r with foundYield := true } := by
      rcases Resumer.clone_state braces r with h1 | ⟨_, h2⟩
      · rw [h1] at hb; simp [h] at hb
      · exact h2
    have hs2 := Resumer.clone_found braces { r with foundYield := true } rfl
    simp [Resumer.clone, h, hs, hs2]
  · rw [Resumer.clone_plain braces _ hp rfl]
  · have hs := Resumer.clone_not_found braces r hb
    simp [Resumer.clone, h, hs]

theorem Resumer.clone_DoWhile_witness :
    Resumer.clone (.DoWhile (whileBody (.Source "X" 1) (.Source "v" 2) (.Source "Y" 3) 10 1 id)
        (.Source "c" 0) 0) { yield := some ⟨10, 1⟩, foundYield := false }
    = (.StatementList (.Braces (.ExpressionStatement (.Source "Y" 3) 3) 0)
        (.While (.Source "c" 0)
          (Cloner.clone (whileBody (.Source "X" 1) (.Source "v" 2) (.Source "Y" 3) 10 1 id)) 0) 0,
       { yield := some ⟨10, 1⟩, foundYield := true }) :=
  ((Resumer.clone_DoWhile (whileBody (.Source "X" 1) (.Source "v" 2) (.Source "Y" 3) 10 1 id)
    (.Source "c" 0) 0 { yield := some ⟨10, 1⟩, foundYield := false }).2.1 rfl rfl).1

/-- Claim C6: cloning a LocalVariable. With `foundYield` false the result is a
declaration with the same name, the cloned type and the same number, with
empty brackets, arguments and initial value and the RESUME annotation set;
with `foundYield` true it is the full copy, keeping annotation, brackets,
arguments, initial value and number. The result is never an EmptyStatement
and `foundYield` is unchanged. -/
theorem Resumer.clone_LocalVariable (a : Annotated) (name : Name) (type : BiType)
    (brackets args value : Expression) (loc : Location) (number : Nat) (r : Resumer) :
    (r.foundYield = false →
      Resumer.clone (.LocalVariable a name type brackets args value loc number) r
        = (.LocalVariable (NONE.set .RESUME) name (Cloner.cloneType type)
            (.EmptyExpression loc) (.EmptyExpression loc) (.EmptyExpression loc) loc number,
           r)) ∧
    (r.foundYield = true →
      Resumer.clone (.LocalVariable a name type brackets args value loc number) r
        = (.LocalVariable a name (Cloner.cloneType type) (Cloner.cloneExpression brackets)
            (Cloner.cloneExpression args) (Cloner.cloneExpression value) loc number, r)) ∧
    Annotated.has (NONE.set .RESUME) .RESUME = true ∧
    (Resumer.clone (.LocalVariable a name type brackets args value loc number) r).1.isEmpty
      = false ∧
    (Resumer.clone (.LocalVariable a name type brackets args value loc number) r).2 = r := by
  cases h : r.foundYield <;>
    simp [Resumer.clone, h, LocalVariable.bare, Statement.isEmpty, Annotated.has,
      Annotated.set, NONE]

theorem Resumer.clone_LocalVariable_witness :
    Resumer.clone (.LocalVariable [.OTHER 3] "x" (.Named "Integer" 1) (.EmptyExpression 1)
        (.EmptyExpression 1) (.Source "f(1)" 1) 1 7) { yield := some ⟨10, 1⟩, foundYield := false }
    = (.LocalVariable [.RESUME] "x" (.Named "Integer" 1) (.EmptyExpression 1)
        (.EmptyExpression 1) (.EmptyExpression 1) 1 7,
       { yield := some ⟨10, 1⟩, foundYield := false }) :=
  (Resumer.clone_LocalVariable [.OTHER 3] "x" (.Named "Integer" 1) (.EmptyExpression 1)
    (.EmptyExpression 1) (.Source "f(1)" 1) 1 7
    { yield := some ⟨10, 1⟩, foundYield := false }).1 rfl

/-- Claim C7: for a Return, ExpressionStatement, Assert or Raw statement, the
Resumer's clone is an EmptyStatement at the statement's location when
`foundYield` is false and the Cloner's copy of the statement when it is true;
`foundYield` is unchanged. -/
theorem Resumer.clone_atomic (s : Statement Nat) (r : Resumer) (h : s.isAtomic = true) :
    Resumer.clone s r
      = (if r.foundYield then Cloner.clone s else .EmptyStatement s.loc, r) := by
  cases s <;> simp [Statement.isAtomic] at h <;>
    cases hf : r.foundYield <;> simp [Resumer.clone, hf, Statement.loc]

theorem Resumer.clone_atomic_witness :
    Resumer.clone (.Return (.Source "x" 1) 2) { yield := some ⟨10, 1⟩, foundYield := false }
      = (.EmptyStatement 2, { yield := some ⟨10, 1⟩, foundYield := false }) :=
  Resumer.clone_atomic (.Return (.Source "x" 1) 2)
    { yield := some ⟨10, 1⟩, foundYield := false } rfl

/-- Claim C8: a For or Parallel loop is one atomic statement for the Resumer.
With `foundYield` true the result is the clone of the whole loop, header and
body (for a plain body, the Cloner's copy of the loop); with `foundYield`
false it is an EmptyStatement whatever the body holds. In both cases
`foundYield` is the same after the call as before. -/
theorem Resumer.clone_For_Parallel (a : Annotated) (index from_ to_ : Expression)
    (braces : Statement Nat) (loc : Location) (r : Resumer) :
    Resumer.clone (.For a index from_ to_ braces loc) r
      = (if r.foundYield then
          .For a (Cloner.cloneExpression index) (Cloner.cloneExpression from_)
            (Cloner.cloneExpression to_) (Resumer.clone braces r).1 loc
         else .EmptyStatement loc, r) ∧
    Resumer.clone (.Parallel a index from_ to_ braces loc) r
      = (if r.foundYield then
          .Parallel a (Cloner.cloneExpression index) (Cloner.cloneExpression from_)
            (Cloner.cloneExpression to_) (Resumer.clone braces r).1 loc
         else .EmptyStatement loc, r) ∧
    (r.foundYield = true → braces.isPlain = true →
      (Resumer.clone (.For a index from_ to_ braces loc) r).1
          = Cloner.clone (.For a index from_ to_ braces loc) ∧
      (Resumer.clone (.Parallel a index from_ to_ braces loc) r).1
          = Cloner.clone (.Parallel a index from_ to_ braces loc)) := by
  cases h : r.foundYield
  · simp [Resumer.clone, h]
  · have hs := Resumer.clone_found braces r h
    refine ⟨by simp [Resumer.clone, h, hs], by simp [Resumer.clone, h, hs], fun _ hp => ?_⟩
    have hc := Resumer.clone_plain braces r hp h
    simp [Resumer.clone, h, hc, Cloner.clone]

theorem Resumer.clone_For_Parallel_witness :
    (Resumer.clone (.For NONE (.Source "i" 0) (.Source "1" 0) (.Source "n" 0)
        (.Braces (.ExpressionStatement (.Source "A" 1) 1) 2) 3)
      { yield := some ⟨10, 1⟩, foundYield := true }).1
    = Cloner.clone (.For NONE (.Source "i" 0) (.Source "1" 0) (.Source "n" 0)
        (.Braces (.ExpressionStatement (.Source "A" 1) 1) 2) 3 : Statement Nat) :=
  ((Resumer.clone_For_Parallel NONE (.Source "i" 0) (.Source "1" 0) (.Source "n" 0)
    (.Braces (.ExpressionStatement (.Source "A" 1) 1) 2) 3
    { yield := some ⟨10, 1⟩, foundYield := true }).2.2 rfl rfl).1

/-- Claim C9 fails as stated for a fiber that carries START itself: the clone
copies the annotations of the fiber and sets flags only, so with a target
yield the resume function still carries START. -/
theorem Resumer.clone_Fiber_counterexample :
    (Resumer.new (some ⟨10, 1⟩)).yield ≠ none ∧
    Resumer.clone (.Fiber (NONE.set .START) "f" (.EmptyExpression 0) (.EmptyExpression 0)
        (.EmptyType 0) exampleBody 0) (Resumer.new (some ⟨10, 1⟩))
      = (.Function ((NONE.set .START).set .RESUME) "f" (.EmptyExpression 0)
          (.EmptyExpression 0) (.EmptyType 0) (resumeBody (some ⟨10, 1⟩) exampleBody) 0 1,
         { yield := some ⟨10, 1⟩, foundYield := true }) ∧
    ((NONE.set .START).set .RESUME).has .START = true := by
  decide

/-- Claim C9, as amended: the Resumer's clone of a Fiber is a Function, of a
MemberFiber a MemberFunction, with the same name and with the number of the
target yield, or 0 when there is no target. RESUME is set on it in every case.
START is set when there is no target and is not added when there is one: the
function carries START if and only if there is no target or the fiber itself
carries START, so for a fiber that does not carry START it is set if and only
if there is no target. Every other annotation is that of the fiber. -/
theorem Resumer.clone_Fiber (a : Annotated) (name : Name) (tps ps : Expression)
    (rt : BiType) (braces : Statement Nat) (loc : Location) (r : Resumer) :
    ∃ a2 : Annotated,
      Resumer.clone (.Fiber a name tps ps rt braces loc) r
        = (.Function a2 name (Cloner.cloneExpression tps) (Cloner.cloneExpression ps)
            (Cloner.cloneType rt) (Resumer.clone braces r).1 loc
            ((r.yield.map YieldPtr.number).getD 0),
           (Resumer.clone braces r).2) ∧
      Resumer.clone (.MemberFiber a name tps ps rt braces loc) r
        = (.MemberFunction a2 name (Cloner.cloneExpression tps) (Cloner.cloneExpression ps)
            (Cloner.cloneType rt) (Resumer.clone braces r).1 loc
            ((r.yield.map YieldPtr.number).getD 0),
           (Resumer.clone braces r).2) ∧
      a2.has .RESUME = true ∧
      (r.yield = none → a2.has .START = true) ∧
      (a2.has .START = true ↔ r.yield = none ∨ a.has .START = true) ∧
      (a.has .START = false → (a2.has .START = true ↔ r.yield = none)) ∧
      (∀ k, a2.has (.OTHER k) = a.has (.OTHER k)) := by
  cases hy : r.yield with
  | none =>
    refine ⟨(a.set .RESUME).set .START, by simp [Resumer.clone, hy],
      by simp [Resumer.clone, hy], ?_, fun _ => Annotated.has_set_self _ _,
      by simp [Annotated.has_set_self],
      fun _ => by simp [Annotated.has_set_self], fun k => ?_⟩
    · rw [Annotated.has_set_of_ne _ _ _ (by decide)]
      exact Annotated.has_set_self _ _
    · rw [Annotated.has_set_of_ne _ _ _ (by simp), Annotated.has_set_of_ne _ _ _ (by simp)]
  | some y =>
    refine ⟨a.set .RESUME, by simp [Resumer.clone, hy], by simp [Resumer.clone, hy],
      Annotated.has_set_self _ _, fun h => by simp at h, ?_, fun h => ?_, fun k => ?_⟩
    · rw [Annotated.has_set_of_ne _ _ _ (by decide)]
      simp
    · rw [Annotated.has_set_of_ne _ _ _ (by decide), h]
      simp
    · rw [Annotated.has_set_of_ne _ _ _ (by simp)]

theorem Resumer.clone_Fiber_witness :
    ∃ a2 : Annotated,
      Resumer.clone (.Fiber NONE "f" (.EmptyExpression 0) (.EmptyExpression 0) (.EmptyType 0)
          exampleBody 0) (Resumer.new (some ⟨20, 2⟩))
        = (.Function a2 "f" (.EmptyExpression 0) (.EmptyExpression 0) (.EmptyType 0)
            (.Braces (.ExpressionStatement (.Source "C" 5) 5) 0) 0 2,
           { yield := some ⟨20, 2⟩, foundYield := true }) ∧
      a2.has .RESUME = true ∧ a2.has .START = false := by
  obtain ⟨a2, h1, _, h3, _, _, h5, _⟩ :=
    Resumer.clone_Fiber NONE "f" (.EmptyExpression 0) (.EmptyExpression 0) (.EmptyType 0)
      exampleBody 0 (Resumer.new (some ⟨20, 2⟩))
  refine ⟨a2, h1, h3, ?_⟩
  have h := h5 rfl
  cases hs : a2.has .START with
  | false => rfl
  | true => exact absurd (h.1 hs) (by decide)

/-- Claim C10, as amended: `resolveDefer` consults the base scopes in ascending
order of their addresses, the iteration order of the set `bases`, and stops at
the first success: for a reference unresolved on entry and any sequence of
inherit/import calls, if the base `b` resolves the reference and every base
with a lower address leaves it as it is, the result is the one set by `b`,
whatever the bases with a higher address would do (they are not consulted).
The order of insertion does not matter: two call sequences that enter the same
scopes give the same `bases`. -/
theorem Scope.resolveDefer_address_order (resolve : ScopePtr → Reference → Reference)
    (calls : List BaseCall) (ref : Reference) (b : ScopePtr)
    (href : ref.target = none) (hb : b ∈ calls.map BaseCall.scope)
    (hlow : ∀ q ∈ calls.map BaseCall.scope, q < b → resolve q ref = ref)
    (hres : (resolve b ref).target ≠ none) :
    (Scope.afterCalls calls).resolveDefer resolve ref = resolve b ref ∧
    (∀ resolve2 : ScopePtr → Reference → Reference,
      (∀ q, q ≤ b → resolve2 q = resolve q) →
      (Scope.afterCalls calls).resolveDefer resolve2 ref = resolve b ref) ∧
    ∀ calls2 : List BaseCall,
      (∀ q, q ∈ calls2.map BaseCall.scope ↔ q ∈ calls.map BaseCall.scope) →
      Scope.afterCalls calls2 = Scope.afterCalls calls := by
  obtain ⟨hs, hm⟩ := Scope.afterCalls_bases calls
  refine ⟨?_, ?_, ?_⟩
  · exact resolveDeferLoop_sorted resolve _ ref b hs href ((hm b).2 hb)
      (fun q hq hqb => hlow q ((hm q).1 hq) hqb) hres
  · intro resolve2 h2
    have hb2 : resolve2 b ref = resolve b ref := by rw [h2 b le_rfl]
    rw [← hb2]
    refine resolveDeferLoop_sorted resolve2 _ ref b hs href ((hm b).2 hb)
      (fun q hq hqb => ?_) (by rw [hb2]; exact hres)
    rw [h2 q (le_of_lt hqb)]
    exact hlow q ((hm q).1 hq) hqb
  · intro calls2 h2
    obtain ⟨hs2, hm2⟩ := Scope.afterCalls_bases calls2
    have hperm : (Scope.afterCalls calls2).bases.Perm (Scope.afterCalls calls).bases :=
      (List.perm_ext_iff_of_nodup hs2.nodup hs.nodup).2
        (fun q => by rw [hm2 q, hm q, h2 q])
    have heq := List.eq_of_perm_of_sorted hperm hs2 hs
    cases h1 : Scope.afterCalls calls2
    cases h3 : Scope.afterCalls calls
    simp_all

theorem Scope.resolveDefer_address_order_witness :
    (Scope.afterCalls [.inherit 2, .importScope 1]).resolveDefer everyBaseDeclares ⟨"x", none⟩
      = ⟨"x", some 101⟩ :=
  (Scope.resolveDefer_address_order everyBaseDeclares [.inherit 2, .importScope 1]
    ⟨"x", none⟩ 1 rfl (by decide) (by decide) (by decide)).1

/-- Claim C10 fails as stated: after `inherit` of the scope at address 2 and then
`import` of the scope at address 1, both declaring the name, `resolveDefer`
sets the target found in the scope at address 1, inserted last, whereas
consulting the bases in insertion order gives the target found in the scope at
address 2. -/
theorem Scope.resolveDefer_insertion_order_counterexample :
    ((Scope.afterCalls [.inherit 2, .importScope 1]).resolveDefer everyBaseDeclares
        ⟨"x", none⟩).target = some 101 ∧
    (specResolveDefer everyBaseDeclares [.inherit 2, .importScope 1] ⟨"x", none⟩).target
      = some 102 ∧
    (Scope.afterCalls [.inherit 2, .importScope 1]).resolveDefer everyBaseDeclares ⟨"x", none⟩
      ≠ specResolveDefer everyBaseDeclares [.inherit 2, .importScope 1] ⟨"x", none⟩ := by
  decide

/-- Claim C11: for a reference whose target is unset when `resolveDefer` is
called, a base scope that does not resolve a reference leaving it as it is: if
at least one scope in `bases` resolves the reference, the target is set after
`resolveDefer`, to the target set by one of the bases; if no scope in `bases`
resolves it, the reference is unchanged and its target still unset. For base
scopes that resolve from their dictionaries, the target is set exactly when
some base declares the name. -/
theorem Scope.resolveDefer_sets_target (self : Scope)
    (resolve : ScopePtr → Reference → Reference) (ref : Reference)
    (href : ref.target = none)
    (hfail : ∀ b ∈ self.bases, (resolve b ref).target = none → resolve b ref = ref) :
    ((∃ b ∈ self.bases, (resolve b ref).target ≠ none) →
      (self.resolveDefer resolve ref).target ≠ none ∧
      ∃ b ∈ self.bases, self.resolveDefer resolve ref = resolve b ref) ∧
    ((∀ b ∈ self.bases, (resolve b ref).target = none) →
      self.resolveDefer resolve ref = ref ∧ (self.resolveDefer resolve ref).target = none) ∧
    (∀ dicts : ScopePtr → Name → Option Nat,
      ((self.resolveDefer (baseResolve dicts) ref).target ≠ none ↔
        ∃ b ∈ self.bases, dicts b ref.name ≠ none)) := by
  refine ⟨fun hex => ?_, fun hall => ?_, fun dicts => ?_⟩
  · obtain ⟨b, hb, hbt, hbr⟩ := resolveDeferLoop_first resolve self.bases ref href hfail hex
    exact ⟨by rw [Scope.resolveDefer, hbr]; exact hbt, b, hb, hbr⟩
  · have h := resolveDeferLoop_unchanged resolve self.bases ref
      (fun b hb => hfail b hb (hall b hb))
    exact ⟨h, by rw [Scope.resolveDefer, h]; exact href⟩
  · have hf : ∀ b ∈ self.bases, (baseResolve dicts b ref).target = none →
        baseResolve dicts b ref = ref :=
      fun b _ => (Dictionary.resolve_target (dicts b) ref).1
    have hiff : ∀ b, (baseResolve dicts b ref).target ≠ none ↔ dicts b ref.name ≠ none :=
      fun b => (Dictionary.resolve_target (dicts b) ref).2 href
    constructor
    · intro ht
      by_contra hno
      have hall : ∀ b ∈ self.bases, baseResolve dicts b ref = ref := fun b hb =>
        hf b hb (by
          by_contra hne
          exact hno ⟨b, hb, (hiff b).1 hne⟩)
      rw [Scope.resolveDefer, resolveDeferLoop_unchanged _ _ _ hall] at ht
      exact ht href
    · rintro ⟨b, hb, hd⟩
      obtain ⟨c, _, hct, hcr⟩ := resolveDeferLoop_first (baseResolve dicts) self.bases ref href hf
        ⟨b, hb, (hiff b).2 hd⟩
      rw [Scope.resolveDefer, hcr]
      exact hct

theorem Scope.resolveDefer_sets_target_witness :
    ((Scope.afterCalls [.inherit 1, .inherit 2]).resolveDefer (baseResolve exampleDicts)
      ⟨"x", none⟩).target ≠ none :=
  ((Scope.resolveDefer_sets_target (Scope.afterCalls [.inherit 1, .inherit 2])
    (baseResolve exampleDicts) ⟨"x", none⟩ rfl (by decide)).1 (by decide)).1

/-- Claim C12: `resolveDefer` never alters a reference that already has a
target: the result is the reference itself whatever the base scopes would do,
so none is consulted. Hence a declaration found in the local dictionary of the
derived scope is the result of `resolve` whatever the bases declare, and
deferring a second time yields the same reference as the first time, as does
resolving a second time in a scope whose bases resolve from their
dictionaries. -/
theorem Scope.resolveDefer_keeps_target (self : Scope)
    (resolve : ScopePtr → Reference → Reference) (ref : Reference) :
    (ref.target ≠ none →
      ∀ resolve2 : ScopePtr → Reference → Reference, self.resolveDefer resolve2 ref = ref) ∧
    (∀ vars : Name → Option Nat, (Dictionary.resolve vars ref).target ≠ none →
      ∀ resolve2 : ScopePtr → Reference → Reference,
        self.resolve vars resolve2 ref = Dictionary.resolve vars ref) ∧
    ((self.resolveDefer resolve ref).target ≠ none →
      self.resolveDefer resolve (self.resolveDefer resolve ref)
        = self.resolveDefer resolve ref) ∧
    ((∀ b ∈ self.bases, (resolve b ref).target = none → resolve b ref = ref) →
      self.resolveDefer resolve (self.resolveDefer resolve ref)
        = self.resolveDefer resolve ref) ∧
    (∀ (vars : Name → Option Nat) (dicts : ScopePtr → Name → Option Nat),
      self.resolve vars (baseResolve dicts) (self.resolve vars (baseResolve dicts) ref)
        = self.resolve vars (baseResolve dicts) ref) := by
  refine ⟨fun h resolve2 => resolveDeferLoop_of_target resolve2 _ ref h,
    fun vars h resolve2 => resolveDeferLoop_of_target resolve2 _ _ h,
    fun h => resolveDeferLoop_of_target resolve _ _ h,
    fun h => resolveDeferLoop_idem resolve _ ref h, fun vars dicts => ?_⟩
  have hidem : ∀ r : Reference,
      resolveDeferLoop (baseResolve dicts) self.bases
          (resolveDeferLoop (baseResolve dicts) self.bases r)
        = resolveDeferLoop (baseResolve dicts) self.bases r :=
    fun r => resolveDeferLoop_idem _ _ r (fun b _ => (Dictionary.resolve_target (dicts b) r).1)
  simp only [Scope.resolve, Scope.resolveDefer]
  cases hv : vars ref.name with
  | some d =>
    have h1 : (Dictionary.resolve vars ref).target ≠ none := by
      simp [Dictionary.resolve, hv]
    rw [resolveDeferLoop_of_target _ _ _ h1, Dictionary.resolve_idem,
      resolveDeferLoop_of_target _ _ _ h1]
  | none =>
    have h1 : Dictionary.resolve vars ref = ref := by simp [Dictionary.resolve, hv]
    have h2 : Dictionary.resolve vars (resolveDeferLoop (baseResolve dicts) self.bases ref)
        = resolveDeferLoop (baseResolve dicts) self.bases ref := by
      unfold Dictionary.resolve
      rw [resolveDeferLoop_name, hv]
    rw [h1, h2, hidem]

theorem Scope.resolveDefer_keeps_target_witness :
    (Scope.afterCalls [.inherit 2, .importScope 1]).resolveDefer everyBaseDeclares
      ⟨"x", some 5⟩ = ⟨"x", some 5⟩ :=
  (Scope.resolveDefer_keeps_target (Scope.afterCalls [.inherit 2, .importScope 1])
    everyBaseDeclares ⟨"x", some 5⟩).1 (by decide) everyBaseDeclares

end bi

namespace libbirch

/-- Claim C13: `a == b` holds exactly when `a.get() == b.get()`, whatever the
cross tags, and `a != b` is its negation: a crossed and an uncrossed pointer
to the same context compare equal, as do any two pointers constructed from the
same context under whatever current contexts, and pointers constructed from
different contexts compare unequal. -/
theorem ContextPtr.eq_iff_get (a b : ContextPtr) :
    (a.eq b = true ↔ a.get = b.get) ∧
    a.ne b = !(a.eq b) ∧
    (∀ c : Nat, aligned c →
      ContextPtr.eq { pack := c ||| 1 } { pack := c } = true ∧
      ∀ rt1 rt2 : Runtime,
        (ContextPtr.setContext c rt1).1.eq (ContextPtr.setContext c rt2).1 = true) ∧
    (∀ c d : Nat, aligned c → aligned d → c ≠ d → ∀ rt1 rt2 : Runtime,
      (ContextPtr.setContext c rt1).1.eq (ContextPtr.setContext d rt2).1 = false ∧
      (ContextPtr.setContext c rt1).1.ne (ContextPtr.setContext d rt2).1 = true) := by
  refine ⟨by simp [ContextPtr.eq], by simp [ContextPtr.eq, ContextPtr.ne, bne],
    fun c hc => ⟨?_, fun rt1 rt2 => ?_⟩, fun c d hc hd hne rt1 rt2 => ?_⟩
  · simp only [ContextPtr.eq, ContextPtr.get]
    rw [or_one_and_mask c hc, and_mask_of_aligned c hc]
    simp
  · simp [ContextPtr.eq, (ContextPtr.setContext_cross c rt1 hc).2,
      (ContextPtr.setContext_cross c rt2 hc).2]
  · simp [ContextPtr.eq, ContextPtr.ne, (ContextPtr.setContext_cross c rt1 hc).2,
      (ContextPtr.setContext_cross d rt2 hd).2, hne]

theorem ContextPtr.eq_iff_get_witness :
    ContextPtr.eq { pack := 16 ||| 1 } { pack := 16 } = true :=
  ((ContextPtr.eq_iff_get { pack := 0 } { pack := 0 }).2.2.1 16 (by decide)).1

/-- Claim C14: `release` on a crossed pointer lowers the shared count of the
context it points to by exactly one, leaves every other count and the current
context as they are, and sets the pointer to null, which is not crossed; on an
uncrossed pointer it changes neither the pointer nor any count. A second
release right after the first changes nothing, so two releases in a row lower
a count by at most one. -/
theorem ContextPtr.release_once (p : ContextPtr) (rt : Runtime) :
    (p.isCross = true →
      (p.release rt).1 = { pack := 0 } ∧
      (p.release rt).1.isCross = false ∧
      (p.release rt).1.toBool = false ∧
      (p.release rt).2.shared p.get = rt.shared p.get - 1 ∧
      (∀ c, c ≠ p.get → (p.release rt).2.shared c = rt.shared c) ∧
      (p.release rt).2.currentContext = rt.currentContext) ∧
    (p.isCross = false → p.release rt = (p, rt)) ∧
    (p.release rt).1.release (p.release rt).2 = p.release rt ∧
    (∀ c, rt.shared c - 1 ≤ ((p.release rt).1.release (p.release rt).2).2.shared c ∧
      ((p.release rt).1.release (p.release rt).2).2.shared c ≤ rt.shared c) := by
  have h0 : ContextPtr.isCross { pack := 0 } = false := by decide
  have hsecond : (p.release rt).1.release (p.release rt).2 = p.release rt := by
    by_cases hc : p.isCross = true
    · simp [ContextPtr.release, hc, h0]
    · simp [ContextPtr.release, hc]
  refine ⟨fun hc => ?_, fun hc => by simp [ContextPtr.release, hc], hsecond, fun c => ?_⟩
  · refine ⟨by simp [ContextPtr.release, hc], by simp [ContextPtr.release, hc, h0],
      by simp [ContextPtr.release, hc, ContextPtr.toBool],
      by simp [ContextPtr.release, hc, Runtime.decShared], fun c hne => ?_,
      by simp [ContextPtr.release, hc, Runtime.decShared]⟩
    simp [ContextPtr.release, hc, Runtime.decShared, Function.update, hne]
  · rw [hsecond]
    have h := (ContextPtr.release_effect p rt c).1
    rw [h]
    simp only [crossTag]
    split_ifs <;> omega

theorem ContextPtr.release_once_witness :
    (ContextPtr.release { pack := 17 } { currentContext := 8, shared := fun _ => 3 }).2.shared
      (ContextPtr.get { pack := 17 }) = 3 - 1 :=
  ((ContextPtr.release_once { pack := 17 } { currentContext := 8, shared := fun _ => 3 }).1
    (by decide)).2.2.2.1

/-- Claim C15: for an aligned context address `c` and any current context, the
pointer constructed from `c` is crossed exactly when `c` is not null and
differs from the current context at construction, and `get()` returns exactly
`c`, crossed or not. -/
theorem ContextPtr.setContext_round_trip (c : Nat) (rt : Runtime) (h : aligned c) :
    ((ContextPtr.setContext c rt).1.isCross = true ↔ c ≠ 0 ∧ c ≠ rt.currentContext) ∧
    (ContextPtr.setContext c rt).1.get = c ∧
    ContextPtr.get { pack := c ||| 1 } = c ∧
    ContextPtr.get { pack := c } = c :=
  ⟨(ContextPtr.setContext_cross c rt h).1, (ContextPtr.setContext_cross c rt h).2,
    or_one_and_mask c h, and_mask_of_aligned c h⟩

theorem ContextPtr.setContext_round_trip_witness :
    (ContextPtr.setContext 16 { currentContext := 8, shared := fun _ => 0 }).1.get = 16 :=
  (ContextPtr.setContext_round_trip 16 { currentContext := 8, shared := fun _ => 0 }
    (by decide)).2.1

end libbirch

namespace bi

/-- Claim C17: `Path::operator==` returns true exactly when the two paths have
the same names, that is the same number of names and equal names at every
position. Paths of which only one has a tail are unequal, so a path never
equals a proper prefix of itself; the relation is reflexive and symmetric, and
`operator!=` is its negation. -/
theorem Path.eq_spec (a b : Path) :
    (Path.eq a b = true ↔ a.names = b.names) ∧
    (Path.eq a b = true ↔
      a.names.length = b.names.length ∧ ∀ i : Nat, a.names[i]? = b.names[i]?) ∧
    (∀ (h h2 : Name) (t : Path) (l l2 : Location),
      Path.eq (.single h l) (.cons h2 t l2) = false ∧
      Path.eq (.cons h2 t l2) (.single h l) = false) ∧
    (a.names <+: b.names → a.names ≠ b.names → Path.eq a b = false) ∧
    Path.eq a a = true ∧
    Path.eq a b = Path.eq b a ∧
    Path.ne a b = !(Path.eq a b) := by
  refine ⟨Path.eq_iff_names a b, ?_, fun h h2 t l l2 => ⟨by simp [Path.eq], by simp [Path.eq]⟩,
    fun _ hne => ?_, (Path.eq_iff_names a a).2 rfl, ?_, rfl⟩
  · rw [Path.eq_iff_names]
    constructor
    · intro h
      rw [h]
      exact ⟨rfl, fun _ => rfl⟩
    · intro h
      exact List.ext_getElem? h.2
  · cases h : Path.eq a b with
    | false => rfl
    | true => exact absurd ((Path.eq_iff_names a b).1 h) hne
  · rw [Bool.eq_iff_iff, Path.eq_iff_names, Path.eq_iff_names]
    exact eq_comm

theorem Path.eq_spec_witness :
    Path.eq (.single "a" 0) (.cons "a" (.single "b" 0) 0) = false :=
  (Path.eq_spec (.single "a" 0) (.cons "a" (.single "b" 0) 0)).2.2.2.1 (by decide) (by decide)

/-- Claim C18: `Path::str` returns the names in order joined by single `'.'`
characters: the text of a one-name path is the name itself, the text of a
longer path is its first name, a `'.'`, and the text of its tail, and every
text ends with the last name, so no `'.'` is written before the first or after
the last name. Paths that are equal under `operator==` have equal texts. -/
theorem Path.str_spec (p : Path) :
    p.str = ".".intercalate p.names ∧
    (∀ (h : Name) (l : Location), (Path.single h l).str = h) ∧
    (∀ (h : Name) (t : Path) (l : Location), (Path.cons h t l).str = h ++ "." ++ t.str) ∧
    (∃ pre : String, p.str = pre ++ p.last) ∧
    (∀ q : Path, Path.eq p q = true → p.str = q.str) := by
  refine ⟨Path.str_eq_intercalate p, fun h l => by simp [Path.str, Path.strLoop],
    fun h t l => ?_, Path.str_suffix p, fun q hq => ?_⟩
  · simp only [Path.str, Path.strLoop]
    rw [Path.strLoop_append]
    simp
  · rw [Path.str_eq_intercalate, Path.str_eq_intercalate, (Path.eq_iff_names p q).1 hq]

theorem Path.str_spec_witness :
    (Path.cons "a" (.single "b" 0) 0).str = (Path.cons "a" (.single "b" 1) 2).str :=
  (Path.str_spec (Path.cons "a" (.single "b" 0) 0)).2.2.2.2 (Path.cons "a" (.single "b" 1) 2)
    (by decide)

/-- Claim C19 fails as stated: for the names `a`, `b.c` the result is
`bi/a/b.bi`, the extension of the last name having been replaced, and not
`bi/a/b.c.bi`. It also fails for names that do not join with one `'/'` each:
an empty name adds nothing (`bi/b.bi` for the names empty, `b`), and no `'/'`
is added before a name that begins with one (`bi/x.bi` for `/x`) or after a
name that ends with one (`bi/a/b.bi` for `a/`, `b`). -/
theorem Path.file_counterexample :
    ((Path.cons "a" (.single "b.c" 0) 0).file = "bi/a/b.bi" ∧
      specFile (Path.cons "a" (.single "b.c" 0) 0) = "bi/a/b.c.bi") ∧
    ((Path.cons "" (.single "b" 0) 0).file = "bi/b.bi" ∧
      specFile (Path.cons "" (.single "b" 0) 0) = "bi//b.bi") ∧
    ((Path.single "/x" 0).file = "bi/x.bi" ∧ specFile (Path.single "/x" 0) = "bi//x.bi") ∧
    ((Path.cons "a/" (.single "b" 0) 0).file = "bi/a/b.bi" ∧
      specFile (Path.cons "a/" (.single "b" 0) 0) = "bi/a//b.bi") ∧
    (Path.cons "a" (.single "b.c" 0) 0).file ≠ specFile (Path.cons "a" (.single "b.c" 0) 0) ∧
    (Path.cons "" (.single "b" 0) 0).file ≠ specFile (Path.cons "" (.single "b" 0) 0) ∧
    (Path.single "/x" 0).file ≠ specFile (Path.single "/x" 0) ∧
    (Path.cons "a/" (.single "b" 0) 0).file ≠ specFile (Path.cons "a/" (.single "b" 0) 0) := by
  decide

/-- Claim C19, as amended: for every path whose names are non-empty and do not
begin with `'/'`, none but the last ending with `'/'`, `Path::file` returns the
text `bi/n1/.../nk` with the extension of its last element replaced by `.bi`.
When the last name has no extension, in particular when it holds no `'.'`, the
result is `bi/n1/.../nk.bi`. When the last name is `s.e` with no `'.'` and no
`'/'` in `e`, and its last element is neither `.` nor `..`, the part `.e` is
replaced: the result is `bi/n1/.../s.bi`. -/
theorem Path.file_spec (p : Path) (h : p.joinable = true) :
    (fsExtension p.last.toList = [] → p.file = specFile p) ∧
    ('.' ∉ p.last.toList → p.file = specFile p) ∧
    (∀ stem ext : String, p.last = stem ++ "." ++ ext → '.' ∉ ext.toList → '/' ∉ ext.toList →
      fsFilename p.last.toList ≠ ['.'] → fsFilename p.last.toList ≠ ['.', '.'] →
      p.file = specFile (p.setLast stem)) := by
  have hnone : fsExtension p.last.toList = [] → p.file = specFile p := by
    intro he
    apply String.ext
    have := Path.file_of_extension p h p.last.toList [] (by simp) he
    rw [this]
    have hs : String.mk p.last.toList = p.last := rfl
    rw [hs, Path.setLast_last]
  refine ⟨hnone, fun hdot => hnone (fsExtension_of_no_dot _ hdot), ?_⟩
  intro stem ext hl hdot hsl h1 h2
  have hdata : p.last.toList = stem.toList ++ '.' :: ext.toList := by
    rw [hl]; simp
  rw [hdata] at h1 h2
  have hext := fsExtension_split stem.toList ext.toList hdot hsl h1 h2
  apply String.ext
  have := Path.file_of_extension p h stem.toList ('.' :: ext.toList) hdata (by rw [hdata, hext])
  rw [this]
  rfl

theorem Path.file_spec_witness :
    (Path.cons "a" (.single "b" 0) 0).file = specFile (Path.cons "a" (.single "b" 0) 0) ∧
    (Path.cons "a" (.single "b.c" 0) 0).file = specFile (Path.cons "a" (.single "b" 0) 0) :=
  ⟨(Path.file_spec (Path.cons "a" (.single "b" 0) 0) (by decide)).2.1 (by decide),
   (Path.file_spec (Path.cons "a" (.single "b.c" 0) 0) (by decide)).2.2 "b" "c" (by decide)
     (by decide) (by decide) (by decide) (by decide)⟩

/-- Claim C20: `make_range(start, end)` returns a range whose first index is
`start` and whose length is never negative; when `end - start + 1` does not
overflow, the length is `max(0, end - start + 1)`: for `start <= end` the
range covers exactly the indices from `start` to `end` inclusive, for
`end < start` its length is 0. -/
theorem make_range_spec (start end_ : Int) :
    (make_range start end_).offset = start ∧
    0 ≤ (make_range start end_).length ∧
    (-2 ^ 63 ≤ end_ - start + 1 ∧ end_ - start + 1 < 2 ^ 63 →
      (make_range start end_).length = max 0 (end_ - start + 1) ∧
      (start ≤ end_ →
        ∀ i : Int, (make_range start end_).covers i ↔ start ≤ i ∧ i ≤ end_) ∧
      (end_ < start → (make_range start end_).length = 0)) := by
  refine ⟨rfl, by simp [make_range], fun h => ?_⟩
  have hw : wrap64 (wrap64 (end_ - start) + 1) = end_ - start + 1 := by
    unfold wrap64
    norm_num at h ⊢
    omega
  refine ⟨by simp [make_range, hw], fun hle i => ?_, fun hlt => ?_⟩
  · simp only [Range.covers, make_range, hw]
    rw [max_eq_right (by omega)]
    constructor <;> intro hh <;> constructor <;> omega
  · simp only [make_range, hw]
    rw [max_eq_left (by omega)]

theorem make_range_spec_witness :
    (make_range 3 7).length = max 0 (7 - 3 + 1) :=
  ((make_range_spec 3 7).2.2 (by decide)).1

/-! ## Casts, the resume body around loops and blocks -/

/-- Claim C21: a cast between two shared-pointer types either returns a
pointer that is not null or raises bad_cast, so a returned pointer is never
null. For the four combinations of type flags without a specialisation (class
from builtin, class from pointer, builtin from pointer, pointer from builtin)
the cast raises bad_cast for every input, and for builtin from builtin it
returns the static cast of its input, so it never raises. -/
theorem cast_spec {From To : Type} (to_traits from_traits : TypeTraits)
    (c : Conversions From To) (o : From) :
    (type_flag to_traits = .IS_POINTER → type_flag from_traits = .IS_POINTER →
      ((∃ result, cast to_traits from_traits c o = .ok result ∧ c.notNull result = true) ∨
        cast to_traits from_traits c o = .error .bad_cast) ∧
      ∀ result, cast to_traits from_traits c o = .ok result → c.notNull result = true) ∧
    (type_flag to_traits = .IS_CLASS → type_flag from_traits = .IS_BUILTIN →
      cast to_traits from_traits c o = .error .bad_cast) ∧
    (type_flag to_traits = .IS_CLASS → type_flag from_traits = .IS_POINTER →
      cast to_traits from_traits c o = .error .bad_cast) ∧
    (type_flag to_traits = .IS_BUILTIN → type_flag from_traits = .IS_POINTER →
      cast to_traits from_traits c o = .error .bad_cast) ∧
    (type_flag to_traits = .IS_POINTER → type_flag from_traits = .IS_BUILTIN →
      cast to_traits from_traits c o = .error .bad_cast) ∧
    (type_flag to_traits = .IS_BUILTIN → type_flag from_traits = .IS_BUILTIN →
      cast to_traits from_traits c o = .ok (c.staticCast o)) := by
  refine ⟨fun h1 h2 => ?_, fun h1 h2 => ?_, fun h1 h2 => ?_, fun h1 h2 => ?_,
    fun h1 h2 => ?_, fun h1 h2 => ?_⟩
  · simp only [cast, h1, h2, cast_impl]
    cases hn : c.notNull (c.construct o) with
    | true =>
      refine ⟨Or.inl ⟨c.construct o, by simp, hn⟩, fun result hr => ?_⟩
      simp only [if_true, Except.ok.injEq] at hr
      rw [← hr]
      exact hn
    | false =>
      refine ⟨Or.inr (by simp), fun result hr => ?_⟩
      simp at hr
  · simp only [cast, h1, h2, cast_impl]
  · simp only [cast, h1, h2, cast_impl]
  · simp only [cast, h1, h2, cast_impl]
  · simp only [cast, h1, h2, cast_impl]
  · simp only [cast, h1, h2, cast_impl]

theorem cast_spec_witness :
    ((∃ result, cast ⟨true, true⟩ ⟨true, true⟩ examplePointerConversions 3 = .ok result ∧
        examplePointerConversions.notNull result = true) ∨
      cast ⟨true, true⟩ ⟨true, true⟩ examplePointerConversions 3 = .error .bad_cast) ∧
    cast ⟨false, true⟩ ⟨true, true⟩ examplePointerConversions 4 = .error .bad_cast ∧
    cast ⟨false, false⟩ ⟨false, false⟩ examplePointerConversions 4 = .ok 4 :=
  ⟨((cast_spec ⟨true, true⟩ ⟨true, true⟩ examplePointerConversions 3).1 rfl rfl).1,
   (cast_spec ⟨false, true⟩ ⟨true, true⟩ examplePointerConversions 4).2.2.1 rfl rfl,
   (cast_spec ⟨false, false⟩ ⟨false, false⟩ examplePointerConversions 4).2.2.2.2.2 rfl rfl⟩

/-- Claim C22 fails as stated when a loop body is not a braces block: the
clone of `while (c) yield v;` at its own Yield is a StatementList with an
empty head, built by the clone of the While, and the clone of a StatementList
whose other clone is empty returns it as it is. -/
theorem Resumer.clone_StatementList_counterexample :
    (Resumer.clone bareLoopList (Resumer.new (some ⟨10, 1⟩))).1
      = .StatementList (.EmptyStatement 3)
          (.While (.Source "c" 2) (.Yield () (.Source "v" 3) 3 1) 2) 2 ∧
    (Statement.EmptyStatement 3 : Statement Unit).isEmpty = true ∧
    (Resumer.clone bareLoopList (Resumer.new (some ⟨10, 1⟩))).1.properList = false := by
  decide

/-- Claim C22, as amended: the Resumer's clone of a StatementList clones the
head, then the tail in the state the head left, and the state after the list
is the state after the tail. When the head left `foundYield` true, the tail is
cloned as after the point: the state is unchanged and the clone holds the
copies of all statements of the tail. The result is a StatementList of the two
clones when both are non-empty, the non-empty clone when exactly one is, and
an EmptyStatement when both are empty; it is empty if and only if both clones
are. When the body of every While and DoWhile loop in the list is a braces
block, the result is never a StatementList with an empty head or an empty
tail. -/
theorem Resumer.clone_StatementList (head tail : Statement Nat) (loc : Location)
    (r : Resumer) :
    (Resumer.clone (.StatementList head tail loc) r).2
        = (Resumer.clone tail (Resumer.clone head r).2).2 ∧
    ((Resumer.clone head r).2.foundYield = true →
      (Resumer.clone tail (Resumer.clone head r).2).2 = (Resumer.clone head r).2 ∧
      (Resumer.clone tail (Resumer.clone head r).2).1.leaves = (Cloner.clone tail).leaves) ∧
    (Resumer.clone (.StatementList head tail loc) r).1
        = (if (Resumer.clone head r).1.isEmpty then
            if (Resumer.clone tail (Resumer.clone head r).2).1.isEmpty then .EmptyStatement loc
            else (Resumer.clone tail (Resumer.clone head r).2).1
          else
            if (Resumer.clone tail (Resumer.clone head r).2).1.isEmpty then
              (Resumer.clone head r).1
            else
              .StatementList (Resumer.clone head r).1
                (Resumer.clone tail (Resumer.clone head r).2).1 loc) ∧
    ((Resumer.clone (.StatementList head tail loc) r).1.isEmpty = true ↔
      (Resumer.clone head r).1.isEmpty = true ∧
        (Resumer.clone tail (Resumer.clone head r).2).1.isEmpty = true) ∧
    (head.blockLoops = true → tail.blockLoops = true →
      ∀ a b l, (Resumer.clone (.StatementList head tail loc) r).1 = .StatementList a b l →
        a.isEmpty = false ∧ b.isEmpty = false) := by
  refine ⟨?_, fun hf => ⟨Resumer.clone_found _ _ hf, Resumer.leaves_clone_found _ _ hf⟩, ?_, ?_,
    fun hh ht a b l hr => ?_⟩
  · simp only [Resumer.clone]
    split_ifs <;> rfl
  · cases h1 : (Resumer.clone head r).1.isEmpty <;>
      cases h2 : (Resumer.clone tail (Resumer.clone head r).2).1.isEmpty <;>
      simp [Resumer.clone, h1, h2]
  · cases h1 : (Resumer.clone head r).1.isEmpty with
    | true =>
      cases h2 : (Resumer.clone tail (Resumer.clone head r).2).1.isEmpty with
      | true =>
        have hform : (Resumer.clone (.StatementList head tail loc) r).1 = .EmptyStatement loc := by
          simp [Resumer.clone, h1, h2]
        rw [hform]
        simp [Statement.isEmpty]
      | false =>
        have hform : (Resumer.clone (.StatementList head tail loc) r).1
            = (Resumer.clone tail (Resumer.clone head r).2).1 := by
          simp [Resumer.clone, h1, h2]
        rw [hform]
        simp [h2]
    | false =>
      cases h2 : (Resumer.clone tail (Resumer.clone head r).2).1.isEmpty with
      | true =>
        have hform : (Resumer.clone (.StatementList head tail loc) r).1
            = (Resumer.clone head r).1 := by
          simp [Resumer.clone, h1, h2]
        rw [hform]
        simp [h1]
      | false =>
        have hform : (Resumer.clone (.StatementList head tail loc) r).1
            = .StatementList (Resumer.clone head r).1
                (Resumer.clone tail (Resumer.clone head r).2).1 loc := by
          simp [Resumer.clone, h1, h2]
        rw [hform]
        simp [Statement.isEmpty]
  · have hp := Resumer.clone_properList (.StatementList head tail loc) r
      (by simp [Statement.blockLoops, hh, ht])
    rw [hr] at hp
    simpa [Statement.properList] using hp

theorem Resumer.clone_StatementList_witness :
    ((Resumer.clone (.ExpressionStatement (.Source "B" 2) 2)
        (Resumer.clone (.Yield 10 (.Source "v" 1) 1 1) (Resumer.new (some ⟨10, 1⟩))).2).2
      = (Resumer.clone (.Yield 10 (.Source "v" 1) 1 1) (Resumer.new (some ⟨10, 1⟩))).2 ∧
    (Resumer.clone (.ExpressionStatement (.Source "B" 2) 2)
        (Resumer.clone (.Yield 10 (.Source "v" 1) 1 1) (Resumer.new (some ⟨10, 1⟩))).2).1.leaves
      = (Cloner.clone (.ExpressionStatement (.Source "B" 2) 2 : Statement Nat)).leaves) ∧
    ((Statement.StatementList (.Braces (.EmptyStatement 3) 2)
        (.While (.Source "c" 2) (.Braces (.Yield () (.Source "v" 3) 3 1) 2) 2) 2
          : Statement Unit).isEmpty = false ∧
      (Statement.ExpressionStatement (.Source "B" 4) 4 : Statement Unit).isEmpty = false) :=
  ⟨(Resumer.clone_StatementList (.Yield 10 (.Source "v" 1) 1 1)
      (.ExpressionStatement (.Source "B" 2) 2) 0 (Resumer.new (some ⟨10, 1⟩))).2.1 rfl,
   (Resumer.clone_StatementList blockLoop (.ExpressionStatement (.Source "B" 4) 4) 1
      (Resumer.new (some ⟨10, 1⟩))).2.2.2.2 (by decide) (by decide)
      (.StatementList (.Braces (.EmptyStatement 3) 2)
        (.While (.Source "c" 2) (.Braces (.Yield () (.Source "v" 3) 3 1) 2) 2) 2)
      (.ExpressionStatement (.Source "B" 4) 4) 1 (by decide)⟩

/-- Claim C23: the Resumer's clone of a Yield has three outcomes. The target
reached while `foundYield` is false becomes an EmptyStatement and sets
`foundYield`. A Yield reached while `foundYield` is true is cloned as a Yield
with the copy of its value and with its number, and the state is unchanged;
this includes the target itself, as when the body of a While loop is cloned a
second time. Any other Yield reached while `foundYield` is false becomes an
EmptyStatement and leaves `foundYield` false. -/
theorem Resumer.clone_Yield (self : Nat) (single : Expression) (loc : Location)
    (number : Nat) (r : Resumer) :
    (r.yield.map YieldPtr.addr = some self → r.foundYield = false →
      Resumer.clone (.Yield self single loc number) r
        = (.EmptyStatement loc, { r with foundYield := true })) ∧
    (r.foundYield = true →
      Resumer.clone (.Yield self single loc number) r
        = (.Yield () (Cloner.cloneExpression single) loc number, r)) ∧
    (r.yield.map YieldPtr.addr ≠ some self → r.foundYield = false →
      Resumer.clone (.Yield self single loc number) r = (.EmptyStatement loc, r) ∧
      (Resumer.clone (.Yield self single loc number) r).2.foundYield = false) ∧
    (r.yield.map YieldPtr.addr = some self → r.foundYield = false →
      ∀ cond l, Resumer.clone (.While cond (.Yield self single loc number) l) r
        = (.StatementList (.EmptyStatement loc)
            (.While (Cloner.cloneExpression cond)
              (.Yield () (Cloner.cloneExpression single) loc number) l) l,
           { r with foundYield := true })) := by
  refine ⟨fun h hf => ?_, fun hf => ?_, fun h hf => ?_, fun h hf cond l => ?_⟩
  · simp [Resumer.clone, h, hf]
  · simp [Resumer.clone, hf]
  · simp [Resumer.clone, h, hf]
  · simp [Resumer.clone, h, hf]

theorem Resumer.clone_Yield_witness :
    Resumer.clone (.Yield 10 (.Source "v" 3) 3 1) (Resumer.new (some ⟨10, 1⟩))
        = (.EmptyStatement 3, { yield := some ⟨10, 1⟩, foundYield := true }) ∧
    Resumer.clone (.Yield 10 (.Source "v" 3) 3 1) { yield := some ⟨10, 1⟩, foundYield := true }
        = (.Yield () (.Source "v" 3) 3 1, { yield := some ⟨10, 1⟩, foundYield := true }) ∧
    Resumer.clone (.Yield 20 (.Source "w" 4) 4 2) (Resumer.new (some ⟨10, 1⟩))
        = (.EmptyStatement 4, Resumer.new (some ⟨10, 1⟩)) :=
  ⟨(Resumer.clone_Yield 10 (.Source "v" 3) 3 1 (Resumer.new (some ⟨10, 1⟩))).1 rfl rfl,
   (Resumer.clone_Yield 10 (.Source "v" 3) 3 1
      { yield := some ⟨10, 1⟩, foundYield := true }).2.1 rfl,
   ((Resumer.clone_Yield 20 (.Source "w" 4) 4 2 (Resumer.new (some ⟨10, 1⟩))).2.2.1
      (by decide) rfl).1⟩

/-- Claim C24: for every statement and every state of the Resumer,
`foundYield` is true after the clone if and only if it was true before or the
statement holds the target at a position that is not inside a For or Parallel
loop. So a clone never changes `foundYield` from true to false, and a Resumer
made without a target has `foundYield` true from its construction on. -/
theorem Resumer.foundYield_tracks_target (s : Statement Nat) (r : Resumer) :
    ((Resumer.clone s r).2.foundYield = true ↔
      r.foundYield = true ∨ r.targetIn s = true) ∧
    (r.foundYield = true → (Resumer.clone s r).2.foundYield = true) ∧
    (Resumer.new none).foundYield = true ∧
    Resumer.clone s (Resumer.new none) = ((Resumer.clone s (Resumer.new none)).1, Resumer.new none) := by
  refine ⟨?_, fun h => ?_, rfl, ?_⟩
  · rw [Resumer.clone_foundYield]
    simp
  · rw [Resumer.clone_found s r h]
    exact h
  · exact Prod.ext rfl (Resumer.clone_found s (Resumer.new none) rfl)

theorem Resumer.foundYield_tracks_target_witness :
    (Resumer.clone exampleBody { yield := some ⟨10, 1⟩, foundYield := true }).2.foundYield = true :=
  (Resumer.foundYield_tracks_target exampleBody { yield := some ⟨10, 1⟩, foundYield := true }).2.1
    rfl

/-- Claim C25: when the body of a fiber holds the target at no position outside
a For or Parallel loop, as when the target occurs only inside the body of such
a loop, `foundYield` is still false after the whole body has been cloned, the
clone of the body is an EmptyStatement, and the resume function made by the
clone of the Fiber or MemberFiber has that EmptyStatement as its body: nothing
of the loop or of the statements after it is kept. -/
theorem Resumer.clone_Fiber_target_in_loop (a : Annotated) (name : Name)
    (tps ps : Expression) (rt : BiType) (single : Statement Nat) (l loc : Location)
    (y : YieldPtr) (h : (Statement.Braces single l).reaches y.addr = false) :
    (Resumer.clone (.Braces single l) (Resumer.new (some y))).2.foundYield = false ∧
    resumeBody (some y) (.Braces single l) = .EmptyStatement l ∧
    (resumeBody (some y) (.Braces single l)).leaves = [] ∧
    Resumer.clone (.Fiber a name tps ps rt (.Braces single l) loc) (Resumer.new (some y))
      = (.Function (a.set .RESUME) name (Cloner.cloneExpression tps)
          (Cloner.cloneExpression ps) (Cloner.cloneType rt) (.EmptyStatement l) loc y.number,
         Resumer.new (some y)) ∧
    Resumer.clone (.MemberFiber a name tps ps rt (.Braces single l) loc) (Resumer.new (some y))
      = (.MemberFunction (a.set .RESUME) name (Cloner.cloneExpression tps)
          (Cloner.cloneExpression ps) (Cloner.cloneType rt) (.EmptyStatement l) loc y.number,
         Resumer.new (some y)) := by
  have hs : (Resumer.clone single (Resumer.new (some y))).2.foundYield = false := by
    rw [Resumer.clone_foundYield]
    simpa [Resumer.new, Resumer.targetIn, Statement.reaches] using h
  have hs2 := Resumer.clone_not_found single (Resumer.new (some y)) hs
  have hb : Resumer.clone (.Braces single l) (Resumer.new (some y))
      = (.EmptyStatement l, Resumer.new (some y)) := by
    simp only [Resumer.clone]
    rw [if_neg (by simp [hs]), hs2]
  refine ⟨by rw [hb]; rfl, by simp only [resumeBody, hb], by simp only [resumeBody, hb]; rfl,
    ?_, ?_⟩
  · rw [Resumer.clone, hb]
    simp [Resumer.new]
  · rw [Resumer.clone, hb]
    simp [Resumer.new]

theorem Resumer.clone_Fiber_target_in_loop_witness :
    (Statement.Yield 10 (.Source "v" 3) 3 1) ∈ forBody.leaves ∧
    resumeBody (some ⟨10, 1⟩) forBody = .EmptyStatement 0 ∧
    Resumer.clone (.Fiber NONE "f" (.EmptyExpression 0) (.EmptyExpression 0) (.EmptyType 0)
        forBody 0) (Resumer.new (some ⟨10, 1⟩))
      = (.Function (NONE.set .RESUME) "f" (.EmptyExpression 0) (.EmptyExpression 0)
          (.EmptyType 0) (.EmptyStatement 0) 0 1, Resumer.new (some ⟨10, 1⟩)) :=
  ⟨by decide,
   (Resumer.clone_Fiber_target_in_loop NONE "f" (.EmptyExpression 0) (.EmptyExpression 0)
      (.EmptyType 0) _ 0 0 ⟨10, 1⟩ (by decide)).2.1,
   (Resumer.clone_Fiber_target_in_loop NONE "f" (.EmptyExpression 0) (.EmptyExpression 0)
      (.EmptyType 0) _ 0 0 ⟨10, 1⟩ (by decide)).2.2.2.1⟩

/-- Claim C26, as stated, fails on `{ while (c) { { x:Integer <- f(); } yield v; Y; } }`:
no For or Parallel loop is around the target, the block `{ x:Integer <- f(); }`
ends before the target and does not hold it, and yet the declaration of `x`,
with its initial value, is in the resume body, in the copy of the loop that
follows the rest of the current iteration. -/
theorem Resumer.block_before_target_counterexample :
    loopBlockBody.reaches 10 = true ∧
    (Statement.Braces exampleVariable 2).reaches 10 = false ∧
    (Statement.Braces exampleVariable 2).leaves = [exampleVariable] ∧
    loopBlockBody.leaves
      = [exampleVariable, .Yield 10 (.Source "v" 3) 3 1,
          .ExpressionStatement (.Source "Y" 4) 4] ∧
    Cloner.clone exampleVariable ∈ (resumeBody (some ⟨10, 1⟩) loopBlockBody).leaves := by
  decide

/-- Claim C26, amended: for a body that holds the target outside every For and
Parallel loop, the statements of the resume body are the bare declarations
that are carried over, followed by the statements that follow the target. The
carried declarations are bare declarations marked RESUME of local variables of
the body, in their original order, and none comes from a block that does not
hold the target: the clone of a Braces is an EmptyStatement whenever
`foundYield` is still false after its contents are cloned. When no While or
DoWhile loop is around the target, the statements that follow are copies of
statements that come after the target in the body, in their order, so a local
variable declared in a block that ends before the target does not appear at
all. -/
theorem Resumer.resume_declarations (s : Statement Nat) (y : YieldPtr)
    (h : s.reaches y.addr = true) :
    (resumeBody (some y) s).leaves = s.carried y.addr ++ s.following y.addr ∧
    List.Sublist (s.carried y.addr) (s.leaves.filterMap Statement.bareOf) ∧
    (∀ single l, (Statement.Braces single l).reaches y.addr = false →
      (Statement.Braces single l).carried y.addr = []) ∧
    (∀ single l r, (Resumer.clone single r).2.foundYield = false →
      Resumer.clone (.Braces single l) r = (.EmptyStatement l, r)) ∧
    (s.loopAround y.addr = false →
      List.Sublist (s.following y.addr) (s.leavesAfter y.addr) ∧
      List.Sublist (resumeBody (some y) s).leaves
        (s.leaves.filterMap Statement.bareOf ++ s.leavesAfter y.addr)) := by
  have hl : (resumeBody (some y) s).leaves = s.carried y.addr ++ s.following y.addr := by
    have := Resumer.leaves_clone s (Resumer.new (some y)) y rfl rfl
    rw [h] at this
    simpa [resumeBody] using this
  refine ⟨hl, Statement.carried_sublist s y.addr, fun single l hb => ?_, fun single l r hf => ?_,
    fun hn => ?_⟩
  · simp only [Statement.reaches] at hb
    simp [Statement.carried, hb]
  · have hs := Resumer.clone_not_found single r hf
    simp only [Resumer.clone]
    rw [if_neg (by simp [hf]), hs]
  · have hfol := Statement.following_sublist s y.addr hn h
    refine ⟨hfol, ?_⟩
    rw [hl]
    exact (Statement.carried_sublist s y.addr).append hfol

theorem Resumer.resume_declarations_witness :
    (resumeBody (some ⟨10, 1⟩) exampleBody).leaves
      = exampleBody.carried 10 ++ exampleBody.following 10 ∧
    List.Sublist (exampleBody.following 10) (exampleBody.leavesAfter 10) :=
  ⟨(Resumer.resume_declarations exampleBody ⟨10, 1⟩ (by decide)).1,
   ((Resumer.resume_declarations exampleBody ⟨10, 1⟩ (by decide)).2.2.2.2 (by decide)).1⟩

end bi

namespace libbirch

/-! ## Copy assignment -/

/-- Claim C27: the copy assignment releases the left-hand side before it reads
the right-hand side, so it fails on the self-assignment of a crossed pointer.
With current context 8, a pointer `p` made from context 16 is crossed, refers
to 16, and the shared count of 16 is 1. After `p = p` the pointer is null:
`p.get()` is 0, not 16, and the shared count of 16 is 0, lower than before.
With a second pointer `q` to the same context, `p = q` leaves `p` referring
to 16 and the shared count of 16 as it was, 2. -/
theorem Store.self_assignment_crossed :
    (((Store.initial 8 fun _ => 0).run [.constructValue 16]).live 0).map ContextPtr.get
      = some 16 ∧
    (((Store.initial 8 fun _ => 0).run [.constructValue 16]).live 0).map ContextPtr.isCross
      = some true ∧
    ((Store.initial 8 fun _ => 0).run [.constructValue 16]).rt.shared 16 = 1 ∧
    (((Store.initial 8 fun _ => 0).run [.constructValue 16, .assignCopy 0 0]).live 0).map
        ContextPtr.get = some 0 ∧
    ((Store.initial 8 fun _ => 0).run [.constructValue 16, .assignCopy 0 0]).rt.shared 16 = 0 ∧
    (((Store.initial 8 fun _ => 0).run
        [.constructValue 16, .constructValue 16, .assignCopy 0 1]).live 0).map ContextPtr.get
      = some 16 ∧
    ((Store.initial 8 fun _ => 0).run
        [.constructValue 16, .constructValue 16]).rt.shared 16 = 2 ∧
    ((Store.initial 8 fun _ => 0).run
        [.constructValue 16, .constructValue 16, .assignCopy 0 1]).rt.shared 16 = 2 := by
  decide

end libbirch

namespace bi

/-! ## Equality of expressions -/

/-- Claim C28: `x == 1` does not return. In `a == b` with `b` an integer
literal, `definitely(const Expression&)` calls `b.dispatchDefinitely(a)`, which
calls `a.definitely(b)` on a const object; the overload for `Literal<int64_t>`
is not declared const, so the call is to `definitely(const Expression&)` again,
with the same operands, at every depth. The overload of the base class that
returns false is never reached, and neither `==` nor `!=` gives a result. For
a variable reference and a parameter both return: the two compare unequal. -/
theorem ExpressionModel.eq_literal_never_returns :
    exampleModel.classOf .literalInt = .LiteralInt64 ∧
    exampleModel.overrides .VarReference .LiteralInt64 = none ∧
    (∀ fuel, exampleModel.definitely fuel .varReference .literalInt = none) ∧
    (∀ fuel, exampleModel.eq fuel .varReference .literalInt = none) ∧
    (∀ fuel, exampleModel.ne fuel .varReference .literalInt = none) ∧
    (∀ fuel, exampleModel.eq fuel .literalInt .literalInt = none) ∧
    exampleModel.eq 1 .varReference .parameter = some false ∧
    exampleModel.eq 1 .parameter .varReference = some false ∧
    exampleModel.ne 1 .varReference .parameter = some true := by
  refine ⟨rfl, rfl, fun fuel => ?_, fun fuel => ?_, fun fuel => ?_, fun fuel => ?_,
    by decide, by decide, by decide⟩
  · exact ExpressionModel.definitely_not_const exampleModel fuel .varReference .literalInt rfl
  · exact (ExpressionModel.eq_not_const exampleModel fuel .varReference .literalInt rfl).1
  · exact (ExpressionModel.eq_not_const exampleModel fuel .varReference .literalInt rfl).2
  · exact (ExpressionModel.eq_not_const exampleModel fuel .literalInt .literalInt rfl).1

end bi
